import Mathlib

/-!
# Work item event reconstruction (`workitem/event/event_repository.go`)

A shallow embedding of `GormEventRepository.List`, the function that rebuilds the
change history of a work item by diffing adjacent revisions, followed by the
properties proved about it.

Modelling conventions:

* a UUID is a natural number;
* a Go `interface{}` payload is a `Value`; the nil interface, the nil
  `[]interface{}` and the empty non-nil `[]interface{}` are three different values,
  as they are for `reflect.DeepEqual`;
* a Go `(value, error)` return of `List` is a record with two optional components,
  so that "nil list together with an error" is a statement and not a typing fact;
* the repositories the function calls (revisions, work items, work item types,
  identities) and the `ConvertFromModel` methods of the field types are not part of
  the translated file: they are fields of the records below and every theorem
  quantifies over them;
* a Go map that is only read by key (`WorkItemFields`) is an association list read
  with `Fields.get`; a Go map that is ranged over (`wit.Fields`) is the list of its
  entries in the order the range visits them.
-/

namespace event

/-! ## Data model -/

/-- Identifier type standing for `uuid.UUID`. -/
abbrev UUID := Nat

/-- Dynamic values carried by `interface{}`: stored field values, converted values
and the `Old`/`New` payload of an event. Floating point payloads are not modelled. -/
inductive Value where
  | null : Value
  | bool (b : Bool) : Value
  | int (n : Int) : Value
  | str (s : String) : Value
  | uuid (id : UUID) : Value
  | nilSlice : Value
  | slice (xs : List Value) : Value

/-- Errors, kept structured: the format string and its arguments are stored as
given to `errs.Wrapf`, `errs.Errorf` and `errors.NewNotFoundError`. -/
inductive Err where
  | external (msg : String) : Err
  | wrapf (cause : Err) (format : String) (args : List Value) : Err
  | errorf (format : String) (args : List Value) : Err
  | notFound (entity : String) (key : String) : Err

/-- Modelled from the spec: `workitem.SimpleType` is declared outside the translated
file; a scalar descriptor is its kind and its conversion from the stored
representation ("stored value converts via a single conversion function"). -/
structure SimpleType where
  Kind : String
  ConvertFromModel : Value → Except Err Value

/-- Modelled from the spec: `workitem.ListType` is declared outside the translated
file; a list descriptor is its kind and its conversion from the stored
representation. -/
structure ListType where
  Kind : String
  ConvertFromModel : Value → Except Err Value

/-- Modelled from the spec: `workitem.EnumType` is declared outside the translated
file; an enumerated descriptor "wraps a base scalar type" and has a converter of
its own. -/
structure EnumType where
  BaseType : SimpleType
  ConvertFromModel : Value → Except Err Value

/-- The dynamic type of a `workitem.FieldType` interface value, as the type
assertions and type switch of `List` see it: one of the three descriptor types or
any other implementation, of which only `GetKind().String()` is used. -/
inductive FieldType where
  | simple (t : SimpleType) : FieldType
  | list (t : ListType) : FieldType
  | enum (t : EnumType) : FieldType
  | unknown (kind : String) : FieldType

/-- The part of `workitem.FieldDefinition` that `List` reads (`Type_` is the Go field
`Type`). -/
structure FieldDefinition where
  Type_ : FieldType

/-- The part of `workitem.WorkItemType` that `List` reads: `Fields`, as the list
of map entries in the order `range` visits them. -/
structure WorkItemType where
  Fields : List (String × FieldDefinition)

/-- The part of `account.Identity` that `List` reads. -/
structure Identity where
  ID : UUID

/-- One stored revision (`workitem.Revision`). -/
structure Revision where
  ID : UUID
  Time : Nat
  ModifierIdentity : UUID
  WorkItemTypeID : UUID
  WorkItemFields : List (String × Value)

/-- One reported change (`event.Event`). -/
structure Event where
  RevisionID : UUID
  Name : String
  WorkItemTypeID : UUID
  Timestamp : Nat
  Modifier : UUID
  Old : Value
  New : Value

/-- Go return value `([]Revision, error)` of the revision repository. -/
structure RevisionListResult where
  revisions : Option (List Revision)
  err : Option Err

/-- Go return value `(List, error)` of `GormEventRepository.List`; `events = none`
is the nil list. -/
structure ListResult where
  events : Option (List Event)
  err : Option Err

/-- The repositories held by `GormEventRepository`, each reduced to the one method
`List` calls on it. -/
structure GormEventRepository where
  workItemRepo : UUID → Option Err
  wiRevisionRepo : UUID → RevisionListResult
  workItemTypeRepo : UUID → Except Err WorkItemType
  identityRepo : UUID → Except Err Identity

/-- Attribute name of a type change event (line 20). -/
def WorkitemTypeChangeEvent : String := "workitemtype"

/-! ## Operations -/

mutual
/-- Deep equality of `reflect.DeepEqual` on dynamic values: same dynamic type and
equal contents; a nil slice is deeply equal only to a nil slice. -/
def deepEqual : Value → Value → Bool
  | .null, .null => true
  | .bool a, .bool b => a == b
  | .int a, .int b => a == b
  | .str a, .str b => a == b
  | .uuid a, .uuid b => a == b
  | .nilSlice, .nilSlice => true
  | .slice xs, .slice ys => deepEqualList xs ys
  | _, _ => false
/-- Elementwise deep equality of two slices of the same length. -/
def deepEqualList : List Value → List Value → Bool
  | [], [] => true
  | x :: xs, y :: ys => deepEqual x y && deepEqualList xs ys
  | _, _ => false
end

/-- Map index expression `fields[name]`: the stored value, or the nil interface when
the key is missing. -/
def Fields.get (fields : List (String × Value)) (name : String) : Value :=
  match fields.lookup name with
  | some v => v
  | none => Value.null

/-- Which of the two values of a pair is being converted. -/
inductive Side where
  | old : Side
  | new : Side

/-- Format string of the wrapped conversion error (lines 129, 143, 166, 170). -/
def Side.wrapFormat : Side → String
  | .old => "failed to convert old value for field %s from storage representation: %+v"
  | .new => "failed to convert new value for field %s from storage representation: %+v"

/-- Format string of the failed type assertion (lines 133, 147). -/
def Side.castFormat : Side → String
  | .old => "failed to convert old value for field %s from to []interface\x7b\x7d: %+v"
  | .new => "failed to convert new value for field %s from to []interface\x7b\x7d: %+v"

/-- The inner type switch of the list case (lines 123-135 for the old value, 137-149
for the new value): the value of `p` (resp. `n`) after the switch, or the error
returned from inside it. The variable starts as the nil slice and keeps that value
when no case matches. -/
def convertListValue (fieldType : ListType) (side : Side) (fieldName : String)
    (v : Value) : Except Err Value :=
  match v with
  | .null => .ok (.slice [])
  | .nilSlice | .slice _ =>
    match fieldType.ConvertFromModel v with
    | .error err => .error (.wrapf err side.wrapFormat [.str fieldName, v])
    | .ok converted =>
      match converted with
      | .nilSlice | .slice _ => .ok converted
      | _ => .error (.errorf side.castFormat [.str fieldName, v])
  | _ => .ok .nilSlice

/-- Conversion of one side in the scalar case (lines 164-171). -/
def convertScalarValue (converter : Value → Except Err Value) (side : Side)
    (fieldName : String) (v : Value) : Except Err Value :=
  match converter v with
  | .error err => .error (.wrapf err side.wrapFormat [.str fieldName, v])
  | .ok c => .ok c

/-- Body of the loop over the schema fields (lines 95-180) for one field: the event
list after the iteration, or the error the iteration returns. -/
def diffField (oldRev newRev : Revision) (modifierID : Identity) (fieldName : String)
    (fieldDef : FieldDefinition) (eventList : List Event) : Except Err (List Event) :=
  let oldVal := Fields.get oldRev.WorkItemFields fieldName
  let newVal := Fields.get newRev.WorkItemFields fieldName
  let event : Event :=
    { RevisionID := newRev.ID, Name := fieldName, WorkItemTypeID := newRev.WorkItemTypeID,
      Timestamp := newRev.Time, Modifier := modifierID.ID, Old := oldVal, New := newVal }
  let enumType : Option EnumType :=
    match fieldDef.Type_ with
    | .enum e => some e
    | _ => none
  let ft : FieldType :=
    match enumType with
    | some e => .simple e.BaseType
    | none => fieldDef.Type_
  match ft with
  | .list fieldType =>
    match convertListValue fieldType .old fieldName oldVal with
    | .error err => .error err
    | .ok p =>
      match convertListValue fieldType .new fieldName newVal with
      | .error err => .error err
      | .ok n =>
        if !deepEqual p n then .ok (eventList ++ [{ event with Old := p, New := n }])
        else .ok eventList
  | .simple fieldType =>
    let converter : Value → Except Err Value :=
      match enumType with
      | some e => e.ConvertFromModel
      | none => fieldType.ConvertFromModel
    match convertScalarValue converter .old fieldName oldVal with
    | .error err => .error err
    | .ok p =>
      match convertScalarValue converter .new fieldName newVal with
      | .error err => .error err
      | .ok n =>
        if !deepEqual p n then .ok (eventList ++ [{ event with Old := p, New := n }])
        else .ok eventList
  | .enum _ => .error (.notFound "unknown field type" "enum")
  | .unknown kind => .error (.notFound "unknown field type" kind)

/-- The loop `for fieldName, fieldDef := range wit.Fields` (lines 95-180). -/
def diffFields (oldRev newRev : Revision) (modifierID : Identity) :
    List (String × FieldDefinition) → List Event → Except Err (List Event)
  | [], eventList => .ok eventList
  | (fieldName, fieldDef) :: rest, eventList =>
    match diffField oldRev newRev modifierID fieldName fieldDef eventList with
    | .error err => .error err
    | .ok eventList1 => diffFields oldRev newRev modifierID rest eventList1

/-- The event of a work item type change (lines 81-89). -/
def typeChangeEvent (oldRev newRev : Revision) (modifierID : Identity) : Event :=
  { RevisionID := newRev.ID, Name := WorkitemTypeChangeEvent,
    WorkItemTypeID := newRev.WorkItemTypeID, Timestamp := newRev.Time,
    Modifier := modifierID.ID, Old := .uuid oldRev.WorkItemTypeID,
    New := .uuid newRev.WorkItemTypeID }

/-- Body of the loop over the revisions (lines 64-180) for the pair
`oldRev = revisionList[k-1]`, `newRev = revisionList[k]`. -/
def GormEventRepository.diffPair (r : GormEventRepository) (oldRev newRev : Revision)
    (eventList : List Event) : Except Err (List Event) :=
  match r.workItemTypeRepo oldRev.WorkItemTypeID with
  | .error err =>
    .error (.wrapf err "failed to load old work item type: %s" [.uuid oldRev.WorkItemTypeID])
  | .ok wit =>
    match r.identityRepo newRev.ModifierIdentity with
    | .error err =>
      .error (.wrapf err "failed to load modifier identity %s" [.uuid newRev.ModifierIdentity])
    | .ok modifierID =>
      if oldRev.WorkItemTypeID != newRev.WorkItemTypeID then
        .ok (eventList ++ [typeChangeEvent oldRev newRev modifierID])
      else
        diffFields oldRev newRev modifierID wit.Fields eventList

/-- The loop `for k := 1; k < len(revisionList); k++` (lines 62-181), by recursion
on the part of the revision list that starts at index `k-1`. -/
def GormEventRepository.diffRevisions (r : GormEventRepository) :
    List Revision → List Event → Except Err (List Event)
  | oldRev :: newRev :: rest, eventList =>
    match r.diffPair oldRev newRev eventList with
    | .error err => .error err
    | .ok eventList1 => r.diffRevisions (newRev :: rest) eventList1
  | _, eventList => .ok eventList

/-- `GormEventRepository.List` (lines 49-184). -/
def GormEventRepository.List (r : GormEventRepository) (wiID : UUID) : ListResult :=
  match (r.wiRevisionRepo wiID).err with
  | some err =>
    { events := none
      err := some (.wrapf err "failed to list revisions for work item %s" [.uuid wiID]) }
  | none =>
    match (r.wiRevisionRepo wiID).revisions with
    | none => { events := some [], err := none }
    | some revisionList =>
      match r.workItemRepo wiID with
      | some err =>
        { events := none
          err := some (.wrapf err "failed to find work item: %s" [.uuid wiID]) }
      | none =>
        match r.diffRevisions revisionList [] with
        | .error err => { events := none, err := some err }
        | .ok eventList => { events := some eventList, err := none }

/-! ## Predicates used in the statements -/

/-- The value of the local `converter` of the scalar case (lines 159-162) for a field
whose effective type is scalar: the converter of a simple type, the enum's own
converter for an enumerated type; no value for the other descriptors. -/
def scalarConverter : FieldType → Option (Value → Except Err Value)
  | .simple t => some t.ConvertFromModel
  | .enum t => some t.ConvertFromModel
  | _ => none

/-- Whether the dynamic type of a value is `[]interface{}` (the second case of the
type switches of lines 123 and 137, and the type assertions of lines 131 and 145). -/
def isSliceTyped : Value → Bool
  | .nilSlice => true
  | .slice _ => true
  | _ => false

/-- Whether a converter rejects a value. -/
def rejects (converter : Value → Except Err Value) (v : Value) : Bool :=
  match converter v with
  | .error _ => true
  | .ok _ => false

/-- Whether the conversion that `List` performs on the stored value `v` of a field
of descriptor type `ft` fails: the converter of a simple type or the enum's own
converter rejects `v`; for a list type, `v` is a slice and the converter rejects it
or returns something that is not a slice. -/
def conversionFails : FieldType → Value → Bool
  | .simple t, v => rejects t.ConvertFromModel v
  | .enum t, v => rejects t.ConvertFromModel v
  | .list t, v =>
    isSliceTyped v &&
      (match t.ConvertFromModel v with
       | .error _ => true
       | .ok converted => !isSliceTyped converted)
  | .unknown _, _ => false

/-- Whether a lookup or a conversion of the pair `(prev, cur)` fails: the type of
`prev` or the modifier of `cur` cannot be loaded, or the pair has one type and the
conversion of the old or the new value of some field of that type fails. -/
def GormEventRepository.pairFails (r : GormEventRepository) (prev cur : Revision) : Bool :=
  match r.workItemTypeRepo prev.WorkItemTypeID with
  | .error _ => true
  | .ok wit =>
    match r.identityRepo cur.ModifierIdentity with
    | .error _ => true
    | .ok _ =>
      prev.WorkItemTypeID == cur.WorkItemTypeID &&
        wit.Fields.any (fun fd =>
          conversionFails fd.2.Type_ (Fields.get prev.WorkItemFields fd.1) ||
          conversionFails fd.2.Type_ (Fields.get cur.WorkItemFields fd.1))

/-- Whether a stored value is absent: the nil interface, which is also what the map
index expression yields for a missing key. -/
def isAbsent : Value → Bool
  | .null => true
  | _ => false

/-- Whether a stored value is a slice with no elements. -/
def isEmptySequence : Value → Bool
  | .nilSlice => true
  | .slice [] => true
  | _ => false

/-! ## Example inputs

Concrete descriptors, revisions and repositories on which the theorems below are
instantiated. -/

/-- Example scalar descriptor: a string field; the stored value must be absent or a
string. -/
def exampleStringType : SimpleType :=
  { Kind := "string"
    ConvertFromModel := fun v =>
      match v with
      | .null => .ok .null
      | .str s => .ok (.str s)
      | _ => .error (.external "value is not a string") }

/-- Example enumerated descriptor over the string type with the declared values
"open" and "closed"; its own converter rejects every other stored value. -/
def exampleStateEnum : EnumType :=
  { BaseType := exampleStringType
    ConvertFromModel := fun v =>
      match v with
      | .str s =>
        if s == "open" || s == "closed" then .ok (.str s)
        else .error (.external "value is not in the declared set")
      | _ => .error (.external "value is not in the declared set") }

/-- Example list descriptor: a stored slice converts to a non-nil slice with the same
elements; anything else is rejected. -/
def exampleLabelsType : ListType :=
  { Kind := "list"
    ConvertFromModel := fun v =>
      match v with
      | .nilSlice => .ok (.slice [])
      | .slice xs => .ok (.slice xs)
      | _ => .error (.external "value is not a slice") }

/-- Example schema with one field of each descriptor type. -/
def exampleType : WorkItemType :=
  { Fields := [("title", { Type_ := .simple exampleStringType }),
               ("state", { Type_ := .enum exampleStateEnum }),
               ("labels", { Type_ := .list exampleLabelsType })] }

/-- Example repositories: the work item exists, every type id resolves to
`exampleType`, every identity resolves to itself, and the revision store returns the
given list for every work item. -/
def exampleRepo (revs : Option (List Revision)) : GormEventRepository :=
  { workItemRepo := fun _ => none
    wiRevisionRepo := fun _ => { revisions := revs, err := none }
    workItemTypeRepo := fun _ => .ok exampleType
    identityRepo := fun id => .ok { ID := id } }

/-- Example revision of type 1. -/
def rev0 : Revision :=
  { ID := 100, Time := 1, ModifierIdentity := 7, WorkItemTypeID := 1,
    WorkItemFields := [("title", .str "first"), ("state", .str "open"),
                       ("labels", .slice [.str "a", .str "b"])] }

/-- Example revision of type 1 that changes the state and reorders the labels. -/
def rev1 : Revision :=
  { ID := 101, Time := 2, ModifierIdentity := 8, WorkItemTypeID := 1,
    WorkItemFields := [("title", .str "first"), ("state", .str "closed"),
                       ("labels", .slice [.str "b", .str "a"])] }

/-- Example revision of type 2 that also changes the title. -/
def rev2 : Revision :=
  { ID := 102, Time := 3, ModifierIdentity := 9, WorkItemTypeID := 2,
    WorkItemFields := [("title", .str "second"), ("state", .str "closed"),
                       ("labels", .slice [.str "b", .str "a"])] }

/-- Example repositories in which every lookup fails: the work item does not exist,
no type and no identity can be loaded; the revision store returns the given result. -/
def failingRepo (revs : RevisionListResult) : GormEventRepository :=
  { workItemRepo := fun _ => some (.notFound "work item" "missing")
    wiRevisionRepo := fun _ => revs
    workItemTypeRepo := fun _ => .error (.notFound "work item type" "missing")
    identityRepo := fun _ => .error (.notFound "identity" "missing") }

/-- Example repositories for an existing work item with the single revision `rev0`
whose type and modifier cannot be loaded. -/
def singleRevisionRepo : GormEventRepository :=
  { failingRepo { revisions := some [rev0], err := none } with
    workItemRepo := fun _ => none }

/-- Example revision of type 1 whose stored state is outside the declared set. -/
def rev3 : Revision :=
  { ID := 103, Time := 4, ModifierIdentity := 8, WorkItemTypeID := 1,
    WorkItemFields := [("title", .str "first"), ("state", .str "bogus"),
                       ("labels", .slice [.str "b", .str "a"])] }

/-- Example revision of type 1 with no stored labels at all. -/
def rev4 : Revision :=
  { ID := 104, Time := 5, ModifierIdentity := 8, WorkItemTypeID := 1,
    WorkItemFields := [("title", .str "first"), ("state", .str "open")] }

/-- Example revision of type 1 whose stored labels are the empty sequence. -/
def rev5 : Revision :=
  { ID := 105, Time := 6, ModifierIdentity := 8, WorkItemTypeID := 1,
    WorkItemFields := [("title", .str "first"), ("state", .str "open"),
                       ("labels", .slice [])] }

/-- Example revision of type 1 whose stored labels are a string, not a slice. -/
def rev6 : Revision :=
  { ID := 106, Time := 7, ModifierIdentity := 8, WorkItemTypeID := 1,
    WorkItemFields := [("title", .str "first"), ("state", .str "open"),
                       ("labels", .str "not a list")] }

/-- Example schema whose only field has a descriptor that is neither a simple, a list
nor an enumerated type. -/
def exampleUnknownType : WorkItemType :=
  { Fields := [("custom", { Type_ := .unknown "custom kind" })] }

/-- Example repositories with two schemas: type 3 resolves to `exampleUnknownType`,
every other type to `exampleType`; the work item exists and every identity resolves
to itself. -/
def exampleRepo2 (revs : Option (List Revision)) : GormEventRepository :=
  { workItemRepo := fun _ => none
    wiRevisionRepo := fun _ => { revisions := revs, err := none }
    workItemTypeRepo := fun id => if id == 3 then .ok exampleUnknownType else .ok exampleType
    identityRepo := fun id => .ok { ID := id } }

/-- Example revision of type 3. -/
def rev7 : Revision :=
  { ID := 107, Time := 8, ModifierIdentity := 8, WorkItemTypeID := 3,
    WorkItemFields := [("custom", .str "x")] }

/-- Example revision of type 3 with another value of the custom field. -/
def rev8 : Revision :=
  { ID := 108, Time := 9, ModifierIdentity := 8, WorkItemTypeID := 3,
    WorkItemFields := [("custom", .str "y")] }

/-- Example first revision made by identity 8, the identity that also makes `rev1`. -/
def rev9 : Revision :=
  { ID := 109, Time := 1, ModifierIdentity := 8, WorkItemTypeID := 1,
    WorkItemFields := [("title", .str "first"), ("state", .str "open"),
                       ("labels", .slice [.str "b", .str "a"])] }

/-- Example repositories in which type 1 cannot be loaded and every other type
resolves to `exampleType`; the work item exists and every identity resolves to
itself. -/
def exampleRepo3 (revs : Option (List Revision)) : GormEventRepository :=
  { workItemRepo := fun _ => none
    wiRevisionRepo := fun _ => { revisions := revs, err := none }
    workItemTypeRepo := fun id =>
      if id == 1 then .error (.notFound "work item type" "1") else .ok exampleType
    identityRepo := fun id => .ok { ID := id } }

/-- Example revision of type 1 with a key that the schema does not define. -/
def rev10 : Revision :=
  { ID := 110, Time := 10, ModifierIdentity := 7, WorkItemTypeID := 1,
    WorkItemFields := [("title", .str "first"), ("state", .str "open"),
                       ("undeclared", .str "before")] }

/-- Example revision of type 1 that changes only the key that the schema does not
define, to a value of another dynamic type. -/
def rev11 : Revision :=
  { ID := 111, Time := 11, ModifierIdentity := 8, WorkItemTypeID := 1,
    WorkItemFields := [("title", .str "first"), ("state", .str "open"),
                       ("undeclared", .slice [.int 1])] }

/-- Example schema with the fields of `exampleType` in another order. -/
def exampleTypeReordered : WorkItemType :=
  { Fields := [("labels", { Type_ := .list exampleLabelsType }),
               ("title", { Type_ := .simple exampleStringType }),
               ("state", { Type_ := .enum exampleStateEnum })] }

/-- Example repositories that differ from `exampleRepo` only in the order in which
the fields of the schema are visited. -/
def exampleRepoReordered (revs : Option (List Revision)) : GormEventRepository :=
  { exampleRepo revs with workItemTypeRepo := fun _ => .ok exampleTypeReordered }

end event

/-!
# Tracker query controller (`controller/trackerquery.go`)

A shallow embedding of `validateCreateTrackerQueryPayload`, `Create` and `Delete`.

Modelling conventions:

* a controller action returns a `Run`: the calls it made, in order, on the
  collaborators that persist, delete, schedule or write a response, and how the
  action ended, by returning an error or nil, or by a panic;
* the collaborators are fields of the controller and context records; a deleting
  call receives the calls made so far, so that its answer can depend on what was
  deleted before;
* a pointer that the code dereferences (`Space.Data.ID`, `Data.ID`) is an optional
  value, and dereferencing the nil pointer is a panic.
-/

namespace controller

/-! ## Data model -/

/-- Identifier type standing for `uuid.UUID`. -/
abbrev UUID := Nat

/-- The nil UUID, `uuid.Nil`. -/
def uuid.Nil : UUID := 0

/-- The actual value given to `errors.NewBadParameterError`. -/
inductive ParamValue where
  | null : ParamValue
  | str (s : String) : ParamValue
  | uuid (id : UUID) : ParamValue

/-- Errors, kept structured by the function that builds them. -/
inductive Error where
  | external (msg : String) : Error
  | badParameter (parameter : String) (value : ParamValue) (expected : String) : Error
  | unauthorized (cause : Error) : Error
  | badRequest (format : String) (cause : Error) : Error
  | internal (format : String) (cause : Error) : Error
  | wrapf (cause : Error) (format : String) (arg : ParamValue) : Error

/-- The part of the create payload that the controller reads; `ID` and `SpaceID` are
pointers in the source. -/
structure CreateTrackerQueryPayload where
  ID : Option UUID
  Query : String
  Schedule : String
  TrackerID : UUID
  SpaceID : Option UUID
  WorkItemTypeID : UUID

/-- The record `remoteworkitem.TrackerQuery`. -/
structure TrackerQuery where
  ID : UUID
  Query : String
  Schedule : String
  TrackerID : UUID
  SpaceID : UUID
  WorkItemTypeID : UUID

/-- The part of `workitem.WorkItem` that `Delete` reads. -/
structure WorkItem where
  ID : UUID

/-- A call on a collaborator that persists, deletes, schedules or writes a
response. -/
inductive Action where
  | jsonErrorResponse (err : Error) : Action
  | trackerQueriesCreate (tq : TrackerQuery) : Action
  | created (tq : TrackerQuery) : Action
  | workItemsDelete (id : UUID) (identity : UUID) : Action
  | trackerQueriesDelete (id : UUID) : Action
  | scheduleAllQueries (accessTokens : List (String × String)) : Action
  | ok : Action

/-- How a Go function with result type `error` ends. -/
inductive Outcome where
  | returned (err : Option Error) : Outcome
  | panicked : Outcome

/-- The calls made so far and how the function ended. -/
structure Run where
  trace : List Action
  result : Outcome

/-- Go return value `(wiList, count, _, _, err)` of `SearchItems().Filter`; `count`
is a Go `int`. -/
structure FilterResult where
  wiList : List WorkItem
  count : Int
  err : Option Error

/-- The collaborators of `TrackerqueryController`, each reduced to the methods the
translated functions call: the repositories behind `c.db`, `c.authService`,
`c.scheduler` (whose calls are recorded in the trace), `c.configuration`, and the
constant `remoteworkitem.ProviderGithub`. -/
structure TrackerqueryController where
  requireScope : UUID → String → Option Error
  spacesCheckExists : UUID → Option Error
  trackersCheckExists : UUID → Option Error
  trackerQueriesCheckExists : UUID → Option Error
  trackerQueriesCreate : TrackerQuery → Except Error TrackerQuery
  trackerQueriesLoad : UUID → Except Error TrackerQuery
  searchItemsFilter : UUID → UUID → FilterResult
  workItemsDelete : List Action → UUID → UUID → Option Error
  trackerQueriesDelete : List Action → UUID → Option Error
  GetGithubAuthToken : String
  ProviderGithub : String

/-- The part of `app.CreateTrackerqueryContext` that `Create` uses: the payload, the
result of `login.ContextIdentity`, and the return values of the response writers
`jsonapi.JSONErrorResponse` and `ctx.Created`. -/
structure CreateTrackerqueryContext where
  Payload : CreateTrackerQueryPayload
  ContextIdentity : Except Error UUID
  JSONErrorResponse : Error → Option Error
  Created : TrackerQuery → Option Error

/-- The part of `app.DeleteTrackerqueryContext` that `Delete` uses: the id, the
cascade flag, the result of `login.ContextIdentity`, and the return values of the
response writers `jsonapi.JSONErrorResponse` and `ctx.OK`. -/
structure DeleteTrackerqueryContext where
  ID : UUID
  DeleteWi : Bool
  ContextIdentity : Except Error UUID
  JSONErrorResponse : Error → Option Error
  OK : Option Error

/-- How the loop over the found work items ends: it runs to its end, or the
enclosing function returns or panics from inside it. -/
inductive LoopResult where
  | completed (trace : List Action) : LoopResult
  | exited (run : Run) : LoopResult

/-! ## Operations -/

/-- Result of `errs.Cause`: the error below every `Wrapf`. -/
def Error.cause : Error → Error
  | .wrapf c _ _ => c.cause
  | e => e

/-- Whether an error is an `errors.BadParameterError`. -/
def Error.isBadParameter : Error → Bool
  | .badParameter _ _ _ => true
  | _ => false

/-- The function `getAccessTokensForTrackerQuery` (lines 36-42): the map with the one
entry for the GitHub provider. -/
def getAccessTokensForTrackerQuery (c : TrackerqueryController) : List (String × String) :=
  [(c.ProviderGithub, c.GetGithubAuthToken)]

/-- The function `validateCreateTrackerQueryPayload` (lines 243-257). -/
def validateCreateTrackerQueryPayload (p : CreateTrackerQueryPayload) : Outcome :=
  if p.Query == "" then
    .returned (some (.badParameter "Query" (.str "") "not empty"))
  else if p.Schedule == "" then
    .returned (some (.badParameter "Schedule" (.str "") "not empty"))
  else if p.TrackerID == uuid.Nil then
    .returned (some (.badParameter "TrackerID" .null "not nil"))
  else
    match p.SpaceID with
    | none => .panicked
    | some spaceID =>
      if spaceID == uuid.Nil then
        .returned (some (.badParameter "SpaceID" .null "not nil"))
      else .returned none

/-- A `return jsonapi.JSONErrorResponse(ctx, err)` statement: the response is
written and the function returns what the writer returns. -/
def respondWithError (writer : Error → Option Error) (trace : List Action) (err : Error) :
    Run :=
  { trace := trace ++ [.jsonErrorResponse err], result := .returned (writer err) }

/-- Modelled from the spec: `application.Transactional` is declared outside the
translated file and the spec treats transactions of the storage layer as a black
box; the closure is run once and its error, or its panic, is the result. -/
def Transactional (todo : List Action → Run) (trace : List Action) : Run :=
  todo trace

/-- The closure of the first transaction of `Create` (lines 73-108): the checks. It
makes no recorded call. -/
def createChecks (c : TrackerqueryController) (ctx : CreateTrackerqueryContext)
    (trace : List Action) : Run :=
  match ctx.Payload.SpaceID with
  | none => { trace := trace, result := .panicked }
  | some spaceID =>
    match c.spacesCheckExists spaceID with
    | some _ =>
      { trace := trace
        result := .returned (some (.badParameter "space" (.uuid spaceID) "valid space ID")) }
    | none =>
      match c.trackersCheckExists ctx.Payload.TrackerID with
      | some _ =>
        { trace := trace
          result := .returned (some
            (.badParameter "tracker" (.uuid ctx.Payload.TrackerID) "valid tracker ID")) }
      | none =>
        match ctx.Payload.ID with
        | none => { trace := trace, result := .returned none }
        | some id =>
          match c.trackerQueriesCheckExists id with
          | none =>
            { trace := trace
              result := .returned (some
                (.badParameter "trackerquery" (.uuid id) "valid trackerquery ID")) }
          | some _ =>
            if id == uuid.Nil then
              { trace := trace
                result := .returned (some
                  (.badParameter "trackerquery" (.uuid id) "valid trackerquery ID")) }
            else { trace := trace, result := .returned none }

/-- The closure of the second transaction of `Create` (lines 112-132): the tracker
query is created and the response written. -/
def createPersist (c : TrackerqueryController) (ctx : CreateTrackerqueryContext)
    (trace : List Action) : Run :=
  match ctx.Payload.SpaceID with
  | none => { trace := trace, result := .panicked }
  | some spaceID =>
    let trackerQuery : TrackerQuery :=
      { ID := match ctx.Payload.ID with
              | some id => id
              | none => uuid.Nil
        Query := ctx.Payload.Query
        Schedule := ctx.Payload.Schedule
        TrackerID := ctx.Payload.TrackerID
        SpaceID := spaceID
        WorkItemTypeID := ctx.Payload.WorkItemTypeID }
    match c.trackerQueriesCreate trackerQuery with
    | .error err =>
      { trace := trace ++ [.trackerQueriesCreate trackerQuery]
        result := .returned (some (.wrapf err "failed to create tracker query %s" .null)) }
    | .ok tq =>
      { trace := trace ++ [.trackerQueriesCreate trackerQuery, .created tq]
        result := .returned (ctx.Created tq) }

/-- The action `TrackerqueryController.Create` (lines 56-139). -/
def TrackerqueryController.Create (c : TrackerqueryController)
    (ctx : CreateTrackerqueryContext) : Run :=
  match ctx.ContextIdentity with
  | .error err => respondWithError ctx.JSONErrorResponse [] (.unauthorized err)
  | .ok _ =>
    match validateCreateTrackerQueryPayload ctx.Payload with
    | .panicked => { trace := [], result := .panicked }
    | .returned (some err) => respondWithError ctx.JSONErrorResponse [] err
    | .returned none =>
      match ctx.Payload.SpaceID with
      | none => { trace := [], result := .panicked }
      | some spaceID =>
        match c.requireScope spaceID "contribute" with
        | some err => respondWithError ctx.JSONErrorResponse [] err
        | none =>
          let tx1 := Transactional (createChecks c ctx) []
          match tx1.result with
          | .panicked => tx1
          | .returned (some err) => respondWithError ctx.JSONErrorResponse tx1.trace err
          | .returned none =>
            let tx2 := Transactional (createPersist c ctx) tx1.trace
            match tx2.result with
            | .panicked => tx2
            | .returned (some err) => respondWithError ctx.JSONErrorResponse tx2.trace err
            | .returned none =>
              let accessTokens := getAccessTokensForTrackerQuery c
              { trace := tx2.trace ++ [.scheduleAllQueries accessTokens]
                result := .returned none }

/-- The loop `for i := 0; i < count; i++` of `Delete` (lines 199-204), by recursion
on the number of iterations left, `count - i`; `wiList[i]` panics when `i` is not
an index of the list. -/
def deleteWorkItems (c : TrackerqueryController) (currentUserIdentity : UUID)
    (wiList : List WorkItem) : Nat → Nat → List Action → LoopResult
  | 0, _, trace => .completed trace
  | left + 1, i, trace =>
    match wiList[i]? with
    | none => .exited { trace := trace, result := .panicked }
    | some wi =>
      match c.workItemsDelete trace wi.ID currentUserIdentity with
      | some err =>
        .exited
          { trace := trace ++ [.workItemsDelete wi.ID currentUserIdentity]
            result := .returned (some (.wrapf err "error deleting work item %s" (.uuid wi.ID))) }
      | none =>
        deleteWorkItems c currentUserIdentity wiList left (i + 1)
          (trace ++ [.workItemsDelete wi.ID currentUserIdentity])

/-- The cascade of `Delete` (lines 175-205): with the flag set, the work items of
the tracker query are searched and deleted. -/
def deleteCascade (c : TrackerqueryController) (ctx : DeleteTrackerqueryContext)
    (currentUserIdentity : UUID) (tq : TrackerQuery) (trace : List Action) : LoopResult :=
  if ctx.DeleteWi == true then
    let found := c.searchItemsFilter tq.SpaceID ctx.ID
    match found.err with
    | some err =>
      if err.cause.isBadParameter then
        .exited
          { trace := trace
            result := .returned (some
              (.badRequest "error listing work items for expression '%s': %s" err)) }
      else
        .exited
          { trace := trace
            result := .returned (some (.internal "unable to list the work items: %s" err)) }
    | none => deleteWorkItems c currentUserIdentity found.wiList found.count.toNat 0 trace
  else .completed trace

/-- The closure of the transaction of `Delete` (lines 163-207). -/
def deleteTransaction (c : TrackerqueryController) (ctx : DeleteTrackerqueryContext)
    (currentUserIdentity : UUID) (trace : List Action) : Run :=
  match c.trackerQueriesLoad ctx.ID with
  | .error err =>
    { trace := trace
      result := .returned (some (.wrapf err "failed to delete tracker query %s" (.uuid ctx.ID))) }
  | .ok tq =>
    match c.requireScope tq.SpaceID "contribute" with
    | some err => respondWithError ctx.JSONErrorResponse trace err
    | none =>
      match deleteCascade c ctx currentUserIdentity tq trace with
      | .exited run => run
      | .completed trace1 =>
        { trace := trace1 ++ [.trackerQueriesDelete tq.ID]
          result := .returned (c.trackerQueriesDelete trace1 tq.ID) }

/-- The action `TrackerqueryController.Delete` (lines 157-214). -/
def TrackerqueryController.Delete (c : TrackerqueryController)
    (ctx : DeleteTrackerqueryContext) : Run :=
  match ctx.ContextIdentity with
  | .error err => respondWithError ctx.JSONErrorResponse [] (.unauthorized err)
  | .ok currentUserIdentity =>
    let tx := Transactional (deleteTransaction c ctx currentUserIdentity) []
    match tx.result with
    | .panicked => tx
    | .returned (some err) => respondWithError ctx.JSONErrorResponse tx.trace err
    | .returned none =>
      let accessTokens := getAccessTokensForTrackerQuery c
      { trace := tx.trace ++ [.scheduleAllQueries accessTokens, .ok]
        result := .returned ctx.OK }

/-! ## Predicates used in the statements -/

/-- Whether a call persists or deletes something. -/
def Action.isMutation : Action → Bool
  | .trackerQueriesCreate _ => true
  | .workItemsDelete _ _ => true
  | .trackerQueriesDelete _ => true
  | _ => false

/-- Whether a call is `ScheduleAllQueries`. -/
def Action.isSchedule : Action → Bool
  | .scheduleAllQueries _ => true
  | _ => false

/-! ## Example inputs -/

/-- Example payload with all four validated values present. -/
def examplePayload : CreateTrackerQueryPayload :=
  { ID := none, Query := "is:open", Schedule := "15 * * * * *", TrackerID := 3,
    SpaceID := some 4, WorkItemTypeID := 5 }

/-- Example controller: the caller has every scope, the space and the tracker exist,
no tracker query id is taken, creating assigns the id 9, every tracker query can be
loaded and belongs to space 4, every deletion succeeds, and the search returns the
given result. -/
def exampleController (found : FilterResult) : TrackerqueryController :=
  { requireScope := fun _ _ => none
    spacesCheckExists := fun _ => none
    trackersCheckExists := fun _ => none
    trackerQueriesCheckExists := fun _ => some (.external "not found")
    trackerQueriesCreate := fun tq => .ok { tq with ID := 9 }
    trackerQueriesLoad := fun id =>
      .ok { ID := id, Query := "is:open", Schedule := "15 * * * * *", TrackerID := 3,
            SpaceID := 4, WorkItemTypeID := 5 }
    searchItemsFilter := fun _ _ => found
    workItemsDelete := fun _ _ _ => none
    trackerQueriesDelete := fun _ _ => none
    GetGithubAuthToken := "token"
    ProviderGithub := "github" }

/-- Example controller whose caller lacks every scope. -/
def deniedController (found : FilterResult) : TrackerqueryController :=
  { exampleController found with
    requireScope := fun _ _ => some (.external "missing scope") }

/-- Example create context: the caller is identity 7 and the response writers
succeed. -/
def exampleCreateContext (payload : CreateTrackerQueryPayload) : CreateTrackerqueryContext :=
  { Payload := payload
    ContextIdentity := .ok 7
    JSONErrorResponse := fun _ => none
    Created := fun _ => none }

/-- Example delete context for tracker query 9: the caller is identity 7 and the
response writers succeed. -/
def exampleDeleteContext (deleteWi : Bool) : DeleteTrackerqueryContext :=
  { ID := 9
    DeleteWi := deleteWi
    ContextIdentity := .ok 7
    JSONErrorResponse := fun _ => none
    OK := none }

end controller

namespace event

/-! ## Deep equality is structural equality on the modelled values -/

mutual
theorem deepEqual_sound : ∀ a b : Value, deepEqual a b = true → a = b
  | .null, b => by cases b <;> simp [deepEqual]
  | .bool x, b => by cases b <;> simp [deepEqual]
  | .int x, b => by cases b <;> simp [deepEqual]
  | .str x, b => by cases b <;> simp [deepEqual]
  | .uuid x, b => by cases b <;> simp [deepEqual]
  | .nilSlice, b => by cases b <;> simp [deepEqual]
  | .slice xs, b => by
    cases b <;> simp [deepEqual]
    exact deepEqualList_sound xs _
theorem deepEqualList_sound : ∀ xs ys : List Value, deepEqualList xs ys = true → xs = ys
  | [], ys => by cases ys <;> simp [deepEqualList]
  | x :: xs, ys => by
    cases ys with
    | nil => simp [deepEqualList]
    | cons y ys =>
      simp only [deepEqualList, Bool.and_eq_true, List.cons.injEq]
      intro h
      exact ⟨deepEqual_sound x y h.1, deepEqualList_sound xs ys h.2⟩
end

mutual
theorem deepEqual_refl : ∀ a : Value, deepEqual a a = true
  | .null => by simp [deepEqual]
  | .bool x => by simp [deepEqual]
  | .int x => by simp [deepEqual]
  | .str x => by simp [deepEqual]
  | .uuid x => by simp [deepEqual]
  | .nilSlice => by simp [deepEqual]
  | .slice xs => by
    simp only [deepEqual]
    exact deepEqualList_refl xs
theorem deepEqualList_refl : ∀ xs : List Value, deepEqualList xs xs = true
  | [] => by simp [deepEqualList]
  | x :: xs => by
    simp only [deepEqualList, Bool.and_eq_true]
    exact ⟨deepEqual_refl x, deepEqualList_refl xs⟩
end

theorem deepEqual_iff (a b : Value) : deepEqual a b = true ↔ a = b :=
  ⟨deepEqual_sound a b, fun h => h ▸ deepEqual_refl a⟩

theorem deepEqual_false_iff (a b : Value) : deepEqual a b = false ↔ a ≠ b := by
  rw [← Bool.not_eq_true, deepEqual_iff]

theorem deepEqualList_iff (xs ys : List Value) : deepEqualList xs ys = true ↔ xs = ys :=
  ⟨deepEqualList_sound xs ys, fun h => h ▸ deepEqualList_refl xs⟩

/-! ## The accumulated event list only grows at its end -/

theorem diffField_acc (oldRev newRev : Revision) (m : Identity) (name : String)
    (d : FieldDefinition) (acc : List Event) :
    diffField oldRev newRev m name d acc
      = (diffField oldRev newRev m name d []).map (fun evs => acc ++ evs) := by
  unfold diffField
  simp only []
  split
  · split
    · rfl
    · split
      · rfl
      · split <;> simp [Except.map]
  · split
    · rfl
    · split
      · rfl
      · split <;> simp [Except.map]
  · rfl
  · rfl

theorem diffFields_acc (oldRev newRev : Revision) (m : Identity)
    (fields : List (String × FieldDefinition)) (acc : List Event) :
    diffFields oldRev newRev m fields acc
      = (diffFields oldRev newRev m fields []).map (fun evs => acc ++ evs) := by
  induction fields generalizing acc with
  | nil => simp [diffFields, Except.map]
  | cons fd rest ih =>
    obtain ⟨name, d⟩ := fd
    simp only [diffFields]
    rw [diffField_acc]
    cases h : diffField oldRev newRev m name d [] with
    | error e => simp [Except.map]
    | ok evs =>
      simp only [Except.map]
      rw [ih (acc ++ evs), ih evs]
      cases diffFields oldRev newRev m rest [] <;> simp [Except.map]

theorem diffPair_acc (r : GormEventRepository) (oldRev newRev : Revision)
    (acc : List Event) :
    r.diffPair oldRev newRev acc
      = (r.diffPair oldRev newRev []).map (fun evs => acc ++ evs) := by
  unfold GormEventRepository.diffPair
  split
  · rfl
  · split
    · rfl
    · split
      · simp [Except.map]
      · exact diffFields_acc _ _ _ _ _

theorem diffRevisions_acc (r : GormEventRepository) (revs : List Revision)
    (acc : List Event) :
    r.diffRevisions revs acc = (r.diffRevisions revs []).map (fun evs => acc ++ evs) := by
  induction revs generalizing acc with
  | nil => simp [GormEventRepository.diffRevisions, Except.map]
  | cons o rest ih =>
    cases rest with
    | nil => simp [GormEventRepository.diffRevisions, Except.map]
    | cons n rest =>
      simp only [GormEventRepository.diffRevisions]
      rw [diffPair_acc]
      cases h : r.diffPair o n [] with
      | error e => simp [Except.map]
      | ok evs =>
        simp only [Except.map]
        rw [ih (acc ++ evs), ih evs]
        cases r.diffRevisions (n :: rest) [] <;> simp [Except.map]

/-! ## Decomposition of the two loops -/

theorem diffFields_cons_ok (oldRev newRev : Revision) (m : Identity) (name : String)
    (d : FieldDefinition) (rest : List (String × FieldDefinition)) (evs : List Event) :
    diffFields oldRev newRev m ((name, d) :: rest) [] = .ok evs ↔
      ∃ e1 e2, diffField oldRev newRev m name d [] = .ok e1 ∧
        diffFields oldRev newRev m rest [] = .ok e2 ∧ evs = e1 ++ e2 := by
  simp only [diffFields]
  cases h : diffField oldRev newRev m name d [] with
  | error e => simp
  | ok e1 =>
    simp only []
    rw [diffFields_acc]
    cases h2 : diffFields oldRev newRev m rest [] with
    | error e => simp [Except.map]
    | ok e2 =>
      simp only [Except.map, Except.ok.injEq]
      constructor
      · intro h3; exact ⟨e1, e2, rfl, rfl, h3.symm⟩
      · rintro ⟨a, b, ha, hb, rfl⟩; rw [ha, hb]

theorem diffRevisions_cons_ok (r : GormEventRepository) (o n : Revision)
    (rest : List Revision) (evs : List Event) :
    r.diffRevisions (o :: n :: rest) [] = .ok evs ↔
      ∃ e1 e2, r.diffPair o n [] = .ok e1 ∧
        r.diffRevisions (n :: rest) [] = .ok e2 ∧ evs = e1 ++ e2 := by
  simp only [GormEventRepository.diffRevisions]
  cases h : r.diffPair o n [] with
  | error e => simp
  | ok e1 =>
    simp only []
    rw [diffRevisions_acc]
    cases h2 : r.diffRevisions (n :: rest) [] with
    | error e => simp [Except.map]
    | ok e2 =>
      simp only [Except.map, Except.ok.injEq]
      constructor
      · intro h3; exact ⟨e1, e2, rfl, rfl, h3.symm⟩
      · rintro ⟨a, b, ha, hb, rfl⟩; rw [ha, hb]

theorem diffRevisions_single (r : GormEventRepository) (o : Revision) (acc : List Event) :
    r.diffRevisions [o] acc = .ok acc := by
  simp [GormEventRepository.diffRevisions]

theorem diffRevisions_nil (r : GormEventRepository) (acc : List Event) :
    r.diffRevisions [] acc = .ok acc := by
  simp [GormEventRepository.diffRevisions]

/-- A successful run over `pre ++ o :: n :: post` is the run over the revisions up to
`o`, then the pair `(o, n)`, then the run from `n` on. -/
theorem diffRevisions_split (r : GormEventRepository) (pre : List Revision)
    (o n : Revision) (post : List Revision) (evs : List Event)
    (h : r.diffRevisions (pre ++ o :: n :: post) [] = .ok evs) :
    ∃ a b c, r.diffRevisions (pre ++ [o]) [] = .ok a ∧ r.diffPair o n [] = .ok b ∧
      r.diffRevisions (n :: post) [] = .ok c ∧ evs = a ++ (b ++ c) := by
  induction pre generalizing evs with
  | nil =>
    obtain ⟨e1, e2, h1, h2, rfl⟩ := (diffRevisions_cons_ok r o n post evs).1 h
    exact ⟨[], e1, e2, by simp [diffRevisions_single], h1, h2, rfl⟩
  | cons x pre ih =>
    cases pre with
    | nil =>
      simp only [List.cons_append, List.nil_append] at h ⊢
      obtain ⟨e1, e2, h1, h2, rfl⟩ := (diffRevisions_cons_ok r x o (n :: post) evs).1 h
      obtain ⟨a, b, c, ha, hb, hc, rfl⟩ := ih e2 h2
      simp only [List.nil_append, diffRevisions_single, Except.ok.injEq] at ha
      subst ha
      refine ⟨e1, b, c, ?_, hb, hc, ?_⟩
      · rw [diffRevisions_cons_ok]
        exact ⟨e1, [], h1, diffRevisions_single r o [], by simp⟩
      · simp
    | cons y pre =>
      simp only [List.cons_append] at h ih ⊢
      obtain ⟨e1, e2, h1, h2, rfl⟩ := (diffRevisions_cons_ok r x y _ evs).1 h
      obtain ⟨a, b, c, ha, hb, hc, rfl⟩ := ih e2 h2
      refine ⟨e1 ++ a, b, c, ?_, hb, hc, by simp⟩
      rw [diffRevisions_cons_ok]
      exact ⟨e1, a, h1, ha, rfl⟩

/-- An error in any adjacent pair makes the whole loop return an error. -/
theorem diffRevisions_error_of_pair (r : GormEventRepository) (pre : List Revision)
    (o n : Revision) (post : List Revision) (e : Err)
    (h : r.diffPair o n [] = .error e) :
    ∃ e1, r.diffRevisions (pre ++ o :: n :: post) [] = .error e1 := by
  cases h2 : r.diffRevisions (pre ++ o :: n :: post) [] with
  | error e1 => exact ⟨e1, rfl⟩
  | ok evs =>
    obtain ⟨_, b, _, _, hb, _, _⟩ := diffRevisions_split r pre o n post evs h2
    rw [h] at hb
    cases hb

/-- An error in any field makes the loop over the fields return an error. -/
theorem diffFields_ok_field (oldRev newRev : Revision) (m : Identity)
    (fields : List (String × FieldDefinition)) (evs : List Event)
    (h : diffFields oldRev newRev m fields [] = .ok evs)
    (name : String) (d : FieldDefinition) (hmem : (name, d) ∈ fields) :
    ∃ b, diffField oldRev newRev m name d [] = .ok b ∧ ∀ e ∈ b, e ∈ evs := by
  induction fields generalizing evs with
  | nil => cases hmem
  | cons fd rest ih =>
    obtain ⟨name1, d1⟩ := fd
    obtain ⟨e1, e2, h1, h2, rfl⟩ := (diffFields_cons_ok _ _ _ _ _ _ _).1 h
    rcases List.mem_cons.1 hmem with heq | hin
    · cases heq
      exact ⟨e1, h1, fun e he => List.mem_append_left _ he⟩
    · obtain ⟨b, hb, hsub⟩ := ih e2 h2 hin
      exact ⟨b, hb, fun e he => List.mem_append_right _ (hsub e he)⟩

/-- Every event of a successful loop over the fields comes from one field. -/
theorem diffFields_mem (oldRev newRev : Revision) (m : Identity)
    (fields : List (String × FieldDefinition)) (evs : List Event)
    (h : diffFields oldRev newRev m fields [] = .ok evs) (e : Event) (he : e ∈ evs) :
    ∃ name d b, (name, d) ∈ fields ∧ diffField oldRev newRev m name d [] = .ok b ∧ e ∈ b := by
  induction fields generalizing evs with
  | nil =>
    simp [diffFields] at h
    subst h
    cases he
  | cons fd rest ih =>
    obtain ⟨name1, d1⟩ := fd
    obtain ⟨e1, e2, h1, h2, rfl⟩ := (diffFields_cons_ok _ _ _ _ _ _ _).1 h
    rcases List.mem_append.1 he with h3 | h3
    · exact ⟨name1, d1, e1, List.mem_cons_self _ _, h1, h3⟩
    · obtain ⟨name, d, b, hm, hb, heb⟩ := ih e2 h2 h3
      exact ⟨name, d, b, List.mem_cons_of_mem _ hm, hb, heb⟩

/-- Every event of a successful loop over the revisions comes from one adjacent
pair. -/
theorem diffRevisions_mem (r : GormEventRepository) (revs : List Revision)
    (evs : List Event) (h : r.diffRevisions revs [] = .ok evs) (e : Event) (he : e ∈ evs) :
    ∃ pre o n post b, revs = pre ++ o :: n :: post ∧ r.diffPair o n [] = .ok b ∧ e ∈ b := by
  induction revs generalizing evs with
  | nil =>
    simp [GormEventRepository.diffRevisions] at h
    subst h
    cases he
  | cons x rest ih =>
    cases rest with
    | nil =>
      simp [GormEventRepository.diffRevisions] at h
      subst h
      cases he
    | cons y rest =>
      obtain ⟨e1, e2, h1, h2, rfl⟩ := (diffRevisions_cons_ok r x y rest evs).1 h
      rcases List.mem_append.1 he with h3 | h3
      · exact ⟨[], x, y, rest, e1, rfl, h1, h3⟩
      · obtain ⟨pre, o, n, post, b, hrevs, hb, heb⟩ := ih e2 h2 h3
        exact ⟨x :: pre, o, n, post, b, by rw [hrevs]; rfl, hb, heb⟩

/-- What a field iteration appends: nothing, or one event named after the field that
belongs to the new revision and whose old and new values are not deeply equal. -/
theorem diffField_ok_shape (oldRev newRev : Revision) (m : Identity) (name : String)
    (d : FieldDefinition) (b : List Event)
    (h : diffField oldRev newRev m name d [] = .ok b) :
    b = [] ∨ ∃ p n, deepEqual p n = false ∧
      b = [{ RevisionID := newRev.ID, Name := name, WorkItemTypeID := newRev.WorkItemTypeID,
             Timestamp := newRev.Time, Modifier := m.ID, Old := p, New := n }] := by
  unfold diffField at h
  simp only [] at h
  split at h
  · split at h
    · cases h
    · split at h
      · cases h
      · split at h
        · rename_i hne
          simp only [List.nil_append, Except.ok.injEq] at h
          right
          exact ⟨_, _, by simpa using hne, h.symm⟩
        · simp only [Except.ok.injEq] at h
          exact Or.inl h.symm
  · split at h
    · cases h
    · split at h
      · cases h
      · split at h
        · rename_i hne
          simp only [List.nil_append, Except.ok.injEq] at h
          right
          exact ⟨_, _, by simpa using hne, h.symm⟩
        · simp only [Except.ok.injEq] at h
          exact Or.inl h.symm
  · cases h
  · cases h

theorem diffField_revisionID (oldRev newRev : Revision) (m : Identity) (name : String)
    (d : FieldDefinition) (b : List Event)
    (h : diffField oldRev newRev m name d [] = .ok b) (e : Event) (he : e ∈ b) :
    e.RevisionID = newRev.ID ∧ e.Name = name := by
  rcases diffField_ok_shape _ _ _ _ _ _ h with rfl | ⟨p, n, _, rfl⟩
  · cases he
  · simp only [List.mem_singleton] at he
    subst he
    exact ⟨rfl, rfl⟩

/-- What a pair iteration appends when the type changed: the sentinel event alone. -/
theorem diffPair_type_change (r : GormEventRepository) (oldRev newRev : Revision)
    (b : List Event) (hty : oldRev.WorkItemTypeID ≠ newRev.WorkItemTypeID)
    (h : r.diffPair oldRev newRev [] = .ok b) :
    ∃ m, r.identityRepo newRev.ModifierIdentity = .ok m ∧
      b = [typeChangeEvent oldRev newRev m] := by
  unfold GormEventRepository.diffPair at h
  split at h
  · cases h
  · split at h
    · cases h
    · rename_i m hm
      refine ⟨m, hm, ?_⟩
      simp only [bne_iff_ne, ne_eq, hty, not_false_eq_true, ↓reduceIte, List.nil_append,
        Except.ok.injEq] at h
      exact h.symm

/-- What a pair iteration does when the type is unchanged: both lookups succeed and
the fields of the old revision's type are diffed. -/
theorem diffPair_same_type (r : GormEventRepository) (oldRev newRev : Revision)
    (b : List Event) (hty : oldRev.WorkItemTypeID = newRev.WorkItemTypeID)
    (h : r.diffPair oldRev newRev [] = .ok b) :
    ∃ wit m, r.workItemTypeRepo oldRev.WorkItemTypeID = .ok wit ∧
      r.identityRepo newRev.ModifierIdentity = .ok m ∧
      diffFields oldRev newRev m wit.Fields [] = .ok b := by
  unfold GormEventRepository.diffPair at h
  split at h
  · cases h
  · split at h
    · cases h
    · rename_i wit hwit _ m hm
      refine ⟨wit, m, hwit, hm, ?_⟩
      simpa [hty] using h

theorem diffPair_revisionID (r : GormEventRepository) (oldRev newRev : Revision)
    (b : List Event) (h : r.diffPair oldRev newRev [] = .ok b) (e : Event) (he : e ∈ b) :
    e.RevisionID = newRev.ID := by
  by_cases hty : oldRev.WorkItemTypeID = newRev.WorkItemTypeID
  · obtain ⟨wit, m, _, _, hf⟩ := diffPair_same_type r oldRev newRev b hty h
    obtain ⟨name, d, b1, _, hb1, he1⟩ := diffFields_mem _ _ _ _ _ hf e he
    exact (diffField_revisionID _ _ _ _ _ _ hb1 e he1).1
  · obtain ⟨m, _, rfl⟩ := diffPair_type_change r oldRev newRev b hty h
    simp only [List.mem_singleton] at he
    subst he
    rfl

/-- Every event of a successful loop carries the id of a revision other than the
first. -/
theorem diffRevisions_revisionID (r : GormEventRepository) (revs : List Revision)
    (evs : List Event) (h : r.diffRevisions revs [] = .ok evs) (e : Event) (he : e ∈ evs) :
    e.RevisionID ∈ revs.tail.map (fun rev => rev.ID) := by
  obtain ⟨pre, o, n, post, b, hrevs, hb, heb⟩ := diffRevisions_mem r revs evs h e he
  rw [diffPair_revisionID r o n b hb e heb, hrevs]
  cases pre with
  | nil => simp
  | cons x pre => simp

/-- With pairwise distinct revision ids, the events that carry the id of a revision
are the events appended by the pair that ends in that revision. -/
theorem diffRevisions_filter_revisionID (r : GormEventRepository) (pre : List Revision)
    (o n : Revision) (post : List Revision) (evs : List Event)
    (hids : ((pre ++ o :: n :: post).map (fun rev => rev.ID)).Nodup)
    (h : r.diffRevisions (pre ++ o :: n :: post) [] = .ok evs) :
    ∃ b, r.diffPair o n [] = .ok b ∧ evs.filter (fun e => e.RevisionID == n.ID) = b := by
  obtain ⟨a, b, c, ha, hb, hc, rfl⟩ := diffRevisions_split r pre o n post evs h
  refine ⟨b, hb, ?_⟩
  have hsplit : (pre ++ o :: n :: post).map (fun rev => rev.ID)
      = (pre ++ [o]).map (fun rev => rev.ID) ++ n.ID :: post.map (fun rev => rev.ID) := by
    simp
  rw [hsplit] at hids
  have hnot_pre : n.ID ∉ (pre ++ [o]).map (fun rev => rev.ID) := by
    intro hmem
    exact (List.nodup_append.1 hids).2.2 hmem (List.mem_cons_self _ _)
  have hnot_post : n.ID ∉ post.map (fun rev => rev.ID) :=
    (List.nodup_cons.1 (List.nodup_append.1 hids).2.1).1
  have hfa : a.filter (fun e => e.RevisionID == n.ID) = [] := by
    rw [List.filter_eq_nil_iff]
    intro e he heq
    have h1 := diffRevisions_revisionID r _ a ha e he
    have h2 : e.RevisionID = n.ID := by simpa using heq
    rw [h2] at h1
    obtain ⟨rev, hrev, hid⟩ := List.mem_map.1 h1
    exact hnot_pre (List.mem_map.2 ⟨rev, List.mem_of_mem_tail hrev, hid⟩)
  have hfc : c.filter (fun e => e.RevisionID == n.ID) = [] := by
    rw [List.filter_eq_nil_iff]
    intro e he heq
    have h1 := diffRevisions_revisionID r _ c hc e he
    have h2 : e.RevisionID = n.ID := by simpa using heq
    rw [h2] at h1
    exact hnot_post (by simpa using h1)
  have hfb : b.filter (fun e => e.RevisionID == n.ID) = b := by
    rw [List.filter_eq_self]
    intro e he
    simpa using diffPair_revisionID r o n b hb e he
  simp [List.filter_append, hfa, hfb, hfc]

/-- A successful call ran the loop over the listed revisions. -/
theorem List_ok_diffRevisions (r : GormEventRepository) (wiID : UUID)
    (revs : List Revision) (evs : List Event)
    (hrevs : (r.wiRevisionRepo wiID).revisions = some revs)
    (h : r.List wiID = { events := some evs, err := none }) :
    r.diffRevisions revs [] = .ok evs := by
  unfold GormEventRepository.List at h
  split at h
  · simp at h
  · split at h
    · rename_i hnone
      rw [hnone] at hrevs
      cases hrevs
    · rename_i revs1 hsome
      rw [hsome] at hrevs
      cases hrevs
      split at h
      · simp at h
      · split at h
        · simp at h
        · rename_i evs1 hdiff
          simp only [ListResult.mk.injEq, Option.some.injEq, and_true] at h
          rw [hdiff, h]

/-! ## C1: a type change pair yields the sentinel event and nothing else -/

/-- C1: when `List` succeeds on a revision sequence with pairwise distinct revision
ids, then for every adjacent pair `(prev, cur)` whose work item type ids differ the
events of the output that carry `cur`'s revision id are exactly one event: the one
named "workitemtype" with `Old` the type id of `prev` and `New` the type id of `cur`.
No field event is emitted for the pair, whatever the field values are. -/
theorem type_change_pair_emits_only_sentinel (r : GormEventRepository) (wiID : UUID)
    (pre : List Revision) (prev cur : Revision) (post : List Revision) (evs : List Event)
    (hrevs : (r.wiRevisionRepo wiID).revisions = some (pre ++ prev :: cur :: post))
    (hids : ((pre ++ prev :: cur :: post).map (fun rev => rev.ID)).Nodup)
    (hty : prev.WorkItemTypeID ≠ cur.WorkItemTypeID)
    (hok : r.List wiID = { events := some evs, err := none }) :
    ∃ m, r.identityRepo cur.ModifierIdentity = .ok m ∧
      evs.filter (fun e => e.RevisionID == cur.ID) =
        [{ RevisionID := cur.ID, Name := "workitemtype",
           WorkItemTypeID := cur.WorkItemTypeID, Timestamp := cur.Time, Modifier := m.ID,
           Old := .uuid prev.WorkItemTypeID, New := .uuid cur.WorkItemTypeID }] := by
  have hrun := List_ok_diffRevisions r wiID _ evs hrevs hok
  obtain ⟨b, hb, hfilter⟩ := diffRevisions_filter_revisionID r pre prev cur post evs hids hrun
  obtain ⟨m, hm, rfl⟩ := diffPair_type_change r prev cur b hty hb
  exact ⟨m, hm, hfilter⟩

/-- C1 on the history `rev0, rev1, rev2`: the pair `(rev1, rev2)` changes the type
from 1 to 2 and also the title, and only the sentinel event carries the id of
`rev2`. -/
theorem type_change_pair_emits_only_sentinel_witness :
    ∃ m, (exampleRepo (some [rev0, rev1, rev2])).identityRepo rev2.ModifierIdentity = .ok m ∧
      ((((exampleRepo (some [rev0, rev1, rev2])).List 5).events.getD []).filter
          (fun e => e.RevisionID == rev2.ID)) =
        [{ RevisionID := 102, Name := "workitemtype", WorkItemTypeID := 2,
                Timestamp := 3, Modifier := m.ID, Old := .uuid 1, New := .uuid 2 }] :=
  type_change_pair_emits_only_sentinel (exampleRepo (some [rev0, rev1, rev2])) 5
    [rev0] rev1 rev2 []
    (((exampleRepo (some [rev0, rev1, rev2])).List 5).events.getD [])
    rfl (by decide) (by decide) rfl

/-! ## C2: scalar fields -/

/-- The scalar case of a field iteration, once both conversions succeed. -/
theorem diffField_scalar (oldRev newRev : Revision) (m : Identity) (name : String)
    (d : FieldDefinition) (conv : Value → Except Err Value) (p q : Value)
    (hconv : scalarConverter d.Type_ = some conv)
    (hp : conv (Fields.get oldRev.WorkItemFields name) = .ok p)
    (hq : conv (Fields.get newRev.WorkItemFields name) = .ok q) :
    diffField oldRev newRev m name d [] =
      .ok (if deepEqual p q then []
           else [{ RevisionID := newRev.ID, Name := name,
                   WorkItemTypeID := newRev.WorkItemTypeID, Timestamp := newRev.Time,
                   Modifier := m.ID, Old := p, New := q }]) := by
  unfold diffField
  cases hd : d.Type_ with
  | simple t =>
    rw [hd] at hconv
    simp only [scalarConverter, Option.some.injEq] at hconv
    subst hconv
    simp only [convertScalarValue, hp, hq]
    cases deepEqual p q <;> simp
  | enum t =>
    rw [hd] at hconv
    simp only [scalarConverter, Option.some.injEq] at hconv
    subst hconv
    simp only [convertScalarValue, hp, hq]
    cases deepEqual p q <;> simp
  | list t => rw [hd] at hconv; simp [scalarConverter] at hconv
  | unknown k => rw [hd] at hconv; simp [scalarConverter] at hconv

theorem diffFields_names (oldRev newRev : Revision) (m : Identity)
    (fields : List (String × FieldDefinition)) (evs : List Event)
    (h : diffFields oldRev newRev m fields [] = .ok evs) (e : Event) (he : e ∈ evs) :
    e.Name ∈ fields.map Prod.fst := by
  obtain ⟨name, d, b, hm, hb, heb⟩ := diffFields_mem _ _ _ _ _ h e he
  rw [(diffField_revisionID _ _ _ _ _ _ hb e heb).2]
  exact List.mem_map.2 ⟨(name, d), hm, rfl⟩

/-- With distinct field names, the events named after a schema field are the events
appended by the iteration for that field. -/
theorem diffFields_filter_name (oldRev newRev : Revision) (m : Identity)
    (fields : List (String × FieldDefinition)) (evs : List Event)
    (hnames : (fields.map Prod.fst).Nodup)
    (h : diffFields oldRev newRev m fields [] = .ok evs)
    (F : String) (d : FieldDefinition) (hF : (F, d) ∈ fields) :
    ∃ b, diffField oldRev newRev m F d [] = .ok b ∧
      evs.filter (fun e => e.Name == F) = b := by
  induction fields generalizing evs with
  | nil => cases hF
  | cons fd rest ih =>
    obtain ⟨name1, d1⟩ := fd
    obtain ⟨e1, e2, h1, h2, rfl⟩ := (diffFields_cons_ok _ _ _ _ _ _ _).1 h
    simp only [List.map_cons, List.nodup_cons] at hnames
    have hn1 : ∀ e ∈ e1, e.Name = name1 := fun e he =>
      (diffField_revisionID _ _ _ _ _ _ h1 e he).2
    rcases List.mem_cons.1 hF with heq | hin
    · cases heq
      refine ⟨e1, h1, ?_⟩
      have hf1 : e1.filter (fun e => e.Name == F) = e1 := by
        rw [List.filter_eq_self]
        intro e he
        simpa using hn1 e he
      have hf2 : e2.filter (fun e => e.Name == F) = [] := by
        rw [List.filter_eq_nil_iff]
        intro e he heq
        have h3 := diffFields_names _ _ _ _ _ h2 e he
        have h4 : e.Name = F := by simpa using heq
        rw [h4] at h3
        exact hnames.1 h3
      simp [List.filter_append, hf1, hf2]
    · obtain ⟨b, hb, hfb⟩ := ih e2 hnames.2 h2 hin
      refine ⟨b, hb, ?_⟩
      have hne : name1 ≠ F := by
        intro heq
        subst heq
        exact hnames.1 (List.mem_map.2 ⟨(name1, d), hin, rfl⟩)
      have hf1 : e1.filter (fun e => e.Name == F) = [] := by
        rw [List.filter_eq_nil_iff]
        intro e he heq
        have h4 : e.Name = F := by simpa using heq
        exact hne ((hn1 e he).symm.trans h4)
      simp [List.filter_append, hf1, hfb]

theorem filter_revisionID_and_name (evs : List Event) (id : UUID) (F : String) :
    evs.filter (fun e => e.RevisionID == id && e.Name == F)
      = (evs.filter (fun e => e.RevisionID == id)).filter (fun e => e.Name == F) := by
  rw [List.filter_filter]
  congr 1
  funext e
  exact Bool.and_comm _ _

/-- C2: let `List` succeed with output `evs` and let `F` be a field name. (1) For
every adjacent pair `(prev, cur)` of the same work item type (revision ids pairwise
distinct) and every schema entry `F` of the type of `prev` whose effective type is
scalar (simple or enumerated; field names of the schema distinct), if the converter
yields `p` for the old and `q` for the new stored value, then the events named `F`
that carry `cur`'s revision id are: none when `p` and `q` are deeply equal, and
exactly one, with `Old = p` and `New = q`, when they are not. (2) If all revisions
have the same type and the converted values of the scalar field `F` are deeply equal
across every adjacent pair, no event of the output is named `F`. -/
theorem scalar_field_event_iff_converted_differ (r : GormEventRepository) (wiID : UUID)
    (revs : List Revision) (evs : List Event) (F : String)
    (hrevs : (r.wiRevisionRepo wiID).revisions = some revs)
    (hok : r.List wiID = { events := some evs, err := none }) :
    (∀ (pre : List Revision) (prev cur : Revision) (post : List Revision)
        (wit : WorkItemType) (d : FieldDefinition) (conv : Value → Except Err Value)
        (p q : Value),
        revs = pre ++ prev :: cur :: post →
        (revs.map (fun rev => rev.ID)).Nodup →
        prev.WorkItemTypeID = cur.WorkItemTypeID →
        r.workItemTypeRepo prev.WorkItemTypeID = .ok wit →
        (wit.Fields.map Prod.fst).Nodup →
        (F, d) ∈ wit.Fields →
        scalarConverter d.Type_ = some conv →
        conv (Fields.get prev.WorkItemFields F) = .ok p →
        conv (Fields.get cur.WorkItemFields F) = .ok q →
        ∃ m, r.identityRepo cur.ModifierIdentity = .ok m ∧
          evs.filter (fun e => e.RevisionID == cur.ID && e.Name == F) =
            if deepEqual p q then []
            else [{ RevisionID := cur.ID, Name := F, WorkItemTypeID := cur.WorkItemTypeID,
                    Timestamp := cur.Time, Modifier := m.ID, Old := p, New := q }]) ∧
    (∀ (T : UUID) (wit : WorkItemType) (d : FieldDefinition)
        (conv : Value → Except Err Value),
        (∀ rev ∈ revs, rev.WorkItemTypeID = T) →
        r.workItemTypeRepo T = .ok wit →
        (wit.Fields.map Prod.fst).Nodup →
        (F, d) ∈ wit.Fields →
        scalarConverter d.Type_ = some conv →
        (∀ (pre : List Revision) (prev cur : Revision) (post : List Revision),
          revs = pre ++ prev :: cur :: post →
          ∃ p q, conv (Fields.get prev.WorkItemFields F) = .ok p ∧
            conv (Fields.get cur.WorkItemFields F) = .ok q ∧ deepEqual p q = true) →
        ∀ e ∈ evs, e.Name ≠ F) := by
  have hrun := List_ok_diffRevisions r wiID revs evs hrevs hok
  constructor
  · intro pre prev cur post wit d conv p q hsplit hids hty hwit hnames hF hconv hp hq
    subst hsplit
    obtain ⟨b, hb, hfilter⟩ :=
      diffRevisions_filter_revisionID r pre prev cur post evs hids hrun
    obtain ⟨wit1, m, hwit1, hm, hfields⟩ := diffPair_same_type r prev cur b hty hb
    rw [hwit] at hwit1
    cases hwit1
    obtain ⟨b1, hb1, hfb1⟩ := diffFields_filter_name prev cur m wit.Fields b hnames hfields F d hF
    rw [diffField_scalar prev cur m F d conv p q hconv hp hq] at hb1
    cases hb1
    exact ⟨m, hm, by rw [filter_revisionID_and_name, hfilter, hfb1]⟩
  · intro T wit d conv hT hwit hnames hF hconv heq e he hname
    obtain ⟨pre, prev, cur, post, b, hsplit, hb, heb⟩ := diffRevisions_mem r revs evs hrun e he
    have hprev : prev.WorkItemTypeID = T := hT prev (by rw [hsplit]; simp)
    have hcur : cur.WorkItemTypeID = T := hT cur (by rw [hsplit]; simp)
    obtain ⟨wit1, m, hwit1, hm, hfields⟩ :=
      diffPair_same_type r prev cur b (hprev.trans hcur.symm) hb
    rw [hprev, hwit] at hwit1
    cases hwit1
    obtain ⟨b1, hb1, hfb1⟩ := diffFields_filter_name prev cur m wit.Fields b hnames hfields F d hF
    obtain ⟨p, q, hp, hq, hpq⟩ := heq pre prev cur post hsplit
    rw [diffField_scalar prev cur m F d conv p q hconv hp hq, hpq] at hb1
    simp only [↓reduceIte, Except.ok.injEq] at hb1
    subst hb1
    have : e ∈ b.filter (fun e => e.Name == F) := by
      rw [List.mem_filter]
      exact ⟨heb, by simpa using hname⟩
    rw [hfb1] at this
    cases this

/-- The only adjacent pair of a list of two revisions. -/
theorem split_two {α : Type} (a b : α) (pre : List α) (x y : α) (post : List α)
    (h : [a, b] = pre ++ x :: y :: post) : pre = [] ∧ x = a ∧ y = b ∧ post = [] := by
  cases pre with
  | nil =>
    simp only [List.nil_append, List.cons.injEq] at h
    obtain ⟨h1, h2, h3⟩ := h
    exact ⟨rfl, h1.symm, h2.symm, h3.symm⟩
  | cons z pre =>
    cases pre with
    | nil => simp at h
    | cons w pre => simp at h

/-- C2 on the history `rev0, rev1`: the state goes from "open" to "closed" and gives
one event with these values; the title is "first" in both revisions and no event is
named "title". -/
theorem scalar_field_event_iff_converted_differ_witness :
    (∃ m, (exampleRepo (some [rev0, rev1])).identityRepo rev1.ModifierIdentity = .ok m ∧
      ((((exampleRepo (some [rev0, rev1])).List 5).events.getD []).filter
          (fun e => e.RevisionID == rev1.ID && e.Name == "state")) =
        [{ RevisionID := 101, Name := "state", WorkItemTypeID := 1, Timestamp := 2,
           Modifier := m.ID, Old := .str "open", New := .str "closed" }]) ∧
    (∀ e ∈ ((exampleRepo (some [rev0, rev1])).List 5).events.getD [], e.Name ≠ "title") :=
  ⟨(scalar_field_event_iff_converted_differ (exampleRepo (some [rev0, rev1])) 5
      [rev0, rev1] (((exampleRepo (some [rev0, rev1])).List 5).events.getD []) "state"
      rfl rfl).1 [] rev0 rev1 [] exampleType { Type_ := .enum exampleStateEnum }
      exampleStateEnum.ConvertFromModel (.str "open") (.str "closed")
      rfl (by decide) rfl rfl (by decide)
      (List.mem_cons_of_mem _ (List.mem_cons_self _ _)) rfl rfl rfl,
   (scalar_field_event_iff_converted_differ (exampleRepo (some [rev0, rev1])) 5
      [rev0, rev1] (((exampleRepo (some [rev0, rev1])).List 5).events.getD []) "title"
      rfl rfl).2 1 exampleType { Type_ := .simple exampleStringType }
      exampleStringType.ConvertFromModel
      (by decide) rfl (by decide) (List.mem_cons_self _ _) rfl
      (fun pre prev cur post h => by
        obtain ⟨_, h1, h2, _⟩ := split_two rev0 rev1 pre prev cur post h
        subst h1 h2
        exact ⟨.str "first", .str "first", rfl, rfl, rfl⟩)⟩

/-! ## C3: events are grouped by pair, in revision order -/

/-- Position of the revision an event belongs to in the revision list. -/
theorem diffRevisions_index_sorted (r : GormEventRepository) (revs : List Revision)
    (evs : List Event) (hids : (revs.map (fun rev => rev.ID)).Nodup)
    (h : r.diffRevisions revs [] = .ok evs) :
    evs.Pairwise (fun e1 e2 =>
      (revs.map (fun rev => rev.ID)).indexOf e1.RevisionID
        ≤ (revs.map (fun rev => rev.ID)).indexOf e2.RevisionID) := by
  induction revs generalizing evs with
  | nil =>
    simp only [diffRevisions_nil, Except.ok.injEq] at h
    subst h
    exact List.Pairwise.nil
  | cons x rest ih =>
    cases rest with
    | nil =>
      simp only [diffRevisions_single, Except.ok.injEq] at h
      subst h
      exact List.Pairwise.nil
    | cons y rest =>
      obtain ⟨e1, e2, h1, h2, rfl⟩ := (diffRevisions_cons_ok r x y rest evs).1 h
      have hx : x.ID ∉ (y :: rest).map (fun rev => rev.ID) := (List.nodup_cons.1 hids).1
      have hids2 : ((y :: rest).map (fun rev => rev.ID)).Nodup := (List.nodup_cons.1 hids).2
      have hidx1 : ∀ e ∈ e1, e.RevisionID = y.ID := diffPair_revisionID r x y e1 h1
      have hmem2 : ∀ e ∈ e2, e.RevisionID ∈ (y :: rest).map (fun rev => rev.ID) := by
        intro e he
        obtain ⟨rev, hrev, hid⟩ := List.mem_map.1 (diffRevisions_revisionID r _ e2 h2 e he)
        exact List.mem_map.2 ⟨rev, List.mem_of_mem_tail hrev, hid⟩
      have hshift : ∀ id ∈ (y :: rest).map (fun rev => rev.ID),
          ((x :: y :: rest).map (fun rev => rev.ID)).indexOf id
            = ((y :: rest).map (fun rev => rev.ID)).indexOf id + 1 := by
        intro id hid
        have hne : x.ID ≠ id := fun heq => hx (heq ▸ hid)
        rw [List.map_cons, List.indexOf_cons_ne _ hne]
      rw [List.pairwise_append]
      refine ⟨?_, ?_, ?_⟩
      · rw [List.pairwise_iff_forall_sublist]
        intro a b hab
        have ha := hidx1 a (hab.subset (List.mem_cons_self _ _))
        have hb := hidx1 b (hab.subset (List.mem_cons_of_mem _ (List.mem_cons_self _ _)))
        rw [ha, hb]
      · refine (ih e2 hids2 h2).imp_of_mem ?_
        intro a b ha hb hab
        rw [hshift _ (hmem2 a ha), hshift _ (hmem2 b hb)]
        exact Nat.succ_le_succ hab
      · intro a ha b hb
        rw [hidx1 a ha, hshift _ (hmem2 b hb), hshift y.ID (by simp)]
        simp

/-- C3: when `List` succeeds on a revision sequence with pairwise distinct revision
ids, the positions in the revision list of the revisions the events belong to form
a non-decreasing sequence (so every event of an earlier pair precedes every event of
a later pair), and every event belongs to a revision other than the first. -/
theorem events_in_revision_order (r : GormEventRepository) (wiID : UUID)
    (revs : List Revision) (evs : List Event)
    (hrevs : (r.wiRevisionRepo wiID).revisions = some revs)
    (hids : (revs.map (fun rev => rev.ID)).Nodup)
    (hok : r.List wiID = { events := some evs, err := none }) :
    (evs.map (fun e => (revs.map (fun rev => rev.ID)).indexOf e.RevisionID)).Pairwise
        (fun i j => i ≤ j) ∧
      ∀ e ∈ evs, 1 ≤ (revs.map (fun rev => rev.ID)).indexOf e.RevisionID ∧
        (revs.map (fun rev => rev.ID)).indexOf e.RevisionID < revs.length := by
  have hrun := List_ok_diffRevisions r wiID revs evs hrevs hok
  refine ⟨?_, ?_⟩
  · rw [List.pairwise_map]
    exact diffRevisions_index_sorted r revs evs hids hrun
  · intro e he
    have hmem := diffRevisions_revisionID r revs evs hrun e he
    cases revs with
    | nil => simp at hmem
    | cons x rest =>
      simp only [List.tail_cons] at hmem
      have hx : x.ID ∉ rest.map (fun rev => rev.ID) := (List.nodup_cons.1 hids).1
      have hne : x.ID ≠ e.RevisionID := fun heq => hx (heq ▸ hmem)
      constructor
      · rw [List.map_cons, List.indexOf_cons_ne _ hne]
        exact Nat.succ_le_succ (Nat.zero_le _)
      · have := List.indexOf_lt_length.2 (List.mem_cons_of_mem x.ID hmem)
        simpa using this

/-- C3 on the history `rev0, rev1, rev2`: the two field events of the pair
`(rev0, rev1)` come first, the type change event of the pair `(rev1, rev2)` last. -/
theorem events_in_revision_order_witness :
    ((exampleRepo (some [rev0, rev1, rev2])).List 5).events.map
        (fun evs => evs.map (fun e => (e.RevisionID, e.Name)))
      = some [(101, "state"), (101, "labels"), (102, "workitemtype")] ∧
    ((((exampleRepo (some [rev0, rev1, rev2])).List 5).events.getD []).map
        (fun e => ([rev0, rev1, rev2].map (fun rev => rev.ID)).indexOf e.RevisionID)).Pairwise
      (fun i j => i ≤ j) :=
  ⟨by decide,
   (events_in_revision_order (exampleRepo (some [rev0, rev1, rev2])) 5 [rev0, rev1, rev2]
      (((exampleRepo (some [rev0, rev1, rev2])).List 5).events.getD [])
      rfl (by decide) rfl).1⟩

/-! ## C4 and C5: histories with one revision and with none -/

/-- C4: for a work item that exists and whose revision list has exactly one revision,
`List` returns the empty event list and no error; the work item type repository and
the identity repository are arbitrary, so the result does not depend on whether the
type or the modifier of that revision can be loaded. -/
theorem single_revision_empty_list (r : GormEventRepository) (wiID : UUID) (rev : Revision)
    (hrevs : r.wiRevisionRepo wiID = { revisions := some [rev], err := none })
    (hexists : r.workItemRepo wiID = none) :
    r.List wiID = { events := some [], err := none } := by
  simp [GormEventRepository.List, hrevs, hexists, GormEventRepository.diffRevisions]

/-- C4 on a repository whose type and identity lookups always fail. -/
theorem single_revision_empty_list_witness :
    (singleRevisionRepo.workItemTypeRepo rev0.WorkItemTypeID).isOk = false ∧
    (singleRevisionRepo.identityRepo rev0.ModifierIdentity).isOk = false ∧
    singleRevisionRepo.List 5 = { events := some [], err := none } :=
  ⟨rfl, rfl, single_revision_empty_list singleRevisionRepo 5 rev0 rfl rfl⟩

/-- C5, as stated, fails: the revision store returns an empty list that is not nil
for a work item that does not exist; `List` performs the existence check and returns
the nil list with the wrapped not-found error. -/
theorem empty_non_nil_history_checks_existence :
    ((failingRepo { revisions := some [], err := none }).wiRevisionRepo 5).revisions
        = some [] ∧
    (failingRepo { revisions := some [], err := none }).List 5 =
      { events := none
        err := some (.wrapf (.notFound "work item" "missing")
          "failed to find work item: %s" [.uuid 5]) } :=
  ⟨rfl, rfl⟩

/-- C5, amended: when the revision store returns no error, (1) for a nil revision
list `List` returns the empty event list without error and without the existence
check (the result does not depend on the work item repository); (2) for an empty
list that is not nil `List` performs the existence check: it returns the empty event
list without error when the check passes, and the nil list with the wrapped error of
the check when it fails. -/
theorem empty_history_result (r : GormEventRepository) (wiID : UUID)
    (herr : (r.wiRevisionRepo wiID).err = none) :
    ((r.wiRevisionRepo wiID).revisions = none →
        r.List wiID = { events := some [], err := none }) ∧
    ((r.wiRevisionRepo wiID).revisions = some [] →
        r.List wiID =
          match r.workItemRepo wiID with
          | none => { events := some [], err := none }
          | some err =>
            { events := none
              err := some (.wrapf err "failed to find work item: %s" [.uuid wiID]) }) := by
  constructor
  · intro h
    simp [GormEventRepository.List, herr, h]
  · intro h
    cases hex : r.workItemRepo wiID <;>
      simp [GormEventRepository.List, herr, h, hex, GormEventRepository.diffRevisions]

/-- C5, amended, on a work item that does not exist and whose revision list is nil:
the empty event list, no error. -/
theorem empty_history_result_witness :
    (failingRepo { revisions := none, err := none }).workItemRepo 5
        = some (.notFound "work item" "missing") ∧
    (failingRepo { revisions := none, err := none }).List 5
        = { events := some [], err := none } :=
  ⟨rfl, (empty_history_result (failingRepo { revisions := none, err := none }) 5 rfl).1 rfl⟩

/-! ## C6: errors are terminal -/

/-- A failing conversion makes the field iteration return an error. -/
theorem diffField_error_of_conversionFails (oldRev newRev : Revision) (m : Identity)
    (name : String) (d : FieldDefinition)
    (h : conversionFails d.Type_ (Fields.get oldRev.WorkItemFields name) = true ∨
         conversionFails d.Type_ (Fields.get newRev.WorkItemFields name) = true) :
    ∃ e, diffField oldRev newRev m name d [] = .error e := by
  cases hres : diffField oldRev newRev m name d [] with
  | error e => exact ⟨e, rfl⟩
  | ok b =>
    exfalso
    unfold diffField at hres
    cases hd : d.Type_ with
    | simple t =>
      simp only [hd, conversionFails, rejects, convertScalarValue] at h hres
      rcases h with h | h
      · cases hc : t.ConvertFromModel (Fields.get oldRev.WorkItemFields name) <;>
          simp [hc] at h hres
      · cases hc : t.ConvertFromModel (Fields.get newRev.WorkItemFields name) <;>
          simp [hc] at h hres
        cases hc2 : t.ConvertFromModel (Fields.get oldRev.WorkItemFields name) <;>
          simp [hc2] at hres
    | enum t =>
      simp only [hd, conversionFails, rejects, convertScalarValue] at h hres
      rcases h with h | h
      · cases hc : t.ConvertFromModel (Fields.get oldRev.WorkItemFields name) <;>
          simp [hc] at h hres
      · cases hc : t.ConvertFromModel (Fields.get newRev.WorkItemFields name) <;>
          simp [hc] at h hres
        cases hc2 : t.ConvertFromModel (Fields.get oldRev.WorkItemFields name) <;>
          simp [hc2] at hres
    | list t =>
      simp only [hd, conversionFails] at h hres
      have key : ∀ (side : Side) (v : Value),
          (isSliceTyped v &&
            (match t.ConvertFromModel v with
             | .error _ => true
             | .ok converted => !isSliceTyped converted)) = true →
          ∃ e, convertListValue t side name v = .error e := by
        intro side v hv
        simp only [Bool.and_eq_true] at hv
        obtain ⟨hv1, hv2⟩ := hv
        cases v <;> simp [isSliceTyped] at hv1 <;>
          · simp only [convertListValue]
            cases hc : t.ConvertFromModel _ with
            | error e => exact ⟨_, rfl⟩
            | ok c =>
              rw [hc] at hv2
              cases c <;> simp [isSliceTyped] at hv2 <;> exact ⟨_, rfl⟩
      rcases h with h | h
      · obtain ⟨e, he⟩ := key .old _ h
        simp [he] at hres
      · obtain ⟨e, he⟩ := key .new _ h
        cases hc2 : convertListValue t .old name (Fields.get oldRev.WorkItemFields name) <;>
          simp [hc2, he] at hres
    | unknown k => simp [hd, conversionFails] at h

/-- The failure of a pair, spelled out. -/
theorem pairFails_iff (r : GormEventRepository) (prev cur : Revision) :
    r.pairFails prev cur = true ↔
      ((r.workItemTypeRepo prev.WorkItemTypeID).isOk = false ∨
       (r.identityRepo cur.ModifierIdentity).isOk = false ∨
       (prev.WorkItemTypeID = cur.WorkItemTypeID ∧
         ∃ wit, r.workItemTypeRepo prev.WorkItemTypeID = .ok wit ∧
           ∃ name d, (name, d) ∈ wit.Fields ∧
             (conversionFails d.Type_ (Fields.get prev.WorkItemFields name) = true ∨
              conversionFails d.Type_ (Fields.get cur.WorkItemFields name) = true))) := by
  unfold GormEventRepository.pairFails
  cases hw : r.workItemTypeRepo prev.WorkItemTypeID with
  | error e => simp [Except.isOk, Except.toBool]
  | ok wit =>
    cases hm : r.identityRepo cur.ModifierIdentity with
    | error e => simp [Except.isOk, Except.toBool]
    | ok m =>
      simp only [Except.isOk, Except.toBool, Bool.and_eq_true, beq_iff_eq, List.any_eq_true,
        Bool.or_eq_true, Prod.exists, Except.ok.injEq, false_or, Bool.true_eq_false]
      constructor
      · rintro ⟨hty, name, d, hmem, hfail⟩
        exact ⟨hty, wit, rfl, name, d, hmem, hfail⟩
      · rintro ⟨hty, wit1, hwit1, name, d, hmem, hfail⟩
        subst hwit1
        exact ⟨hty, name, d, hmem, hfail⟩

/-- A failing lookup or conversion makes the pair iteration return an error. -/
theorem diffPair_error_of_pairFails (r : GormEventRepository) (prev cur : Revision)
    (h : r.pairFails prev cur = true) : ∃ e, r.diffPair prev cur [] = .error e := by
  rw [pairFails_iff] at h
  cases hres : r.diffPair prev cur [] with
  | error e => exact ⟨e, rfl⟩
  | ok b =>
    exfalso
    by_cases hty : prev.WorkItemTypeID = cur.WorkItemTypeID
    · obtain ⟨wit, m, hwit, hm, hfields⟩ := diffPair_same_type r prev cur b hty hres
      rcases h with h | h | ⟨_, wit1, hwit1, name, d, hmem, hfail⟩
      · simp [hwit, Except.isOk, Except.toBool] at h
      · simp [hm, Except.isOk, Except.toBool] at h
      · rw [hwit] at hwit1
        cases hwit1
        obtain ⟨b1, hb1, _⟩ := diffFields_ok_field prev cur m wit.Fields b hfields name d hmem
        obtain ⟨e, he⟩ := diffField_error_of_conversionFails prev cur m name d hfail
        rw [he] at hb1
        cases hb1
    · obtain ⟨m, hm, _⟩ := diffPair_type_change r prev cur b hty hres
      rcases h with h | h | ⟨hsame, _⟩
      · unfold GormEventRepository.diffPair at hres
        cases hw : r.workItemTypeRepo prev.WorkItemTypeID with
        | error e => simp [hw] at hres
        | ok wit => simp [hw, Except.isOk, Except.toBool] at h
      · simp [hm, Except.isOk, Except.toBool] at h
      · exact hty hsame

/-- The result of `List` is either the nil list with an error or a list with no
error. -/
theorem List_result_cases (r : GormEventRepository) (wiID : UUID) :
    (∃ e, r.List wiID = { events := none, err := some e }) ∨
    (∃ evs, r.List wiID = { events := some evs, err := none }) := by
  unfold GormEventRepository.List
  split
  · exact Or.inl ⟨_, rfl⟩
  · split
    · exact Or.inr ⟨_, rfl⟩
    · split
      · exact Or.inl ⟨_, rfl⟩
      · split
        · exact Or.inl ⟨_, rfl⟩
        · exact Or.inr ⟨_, rfl⟩

/-- C6: `List` never returns a partial result. (1) Its result is either the nil list
together with an error, or an event list together with no error. (2) It returns an
error whenever the revision listing fails, whenever the existence check fails for a
revision list that is not nil, and whenever, for some adjacent pair of the revision
list, the type lookup, the identity lookup or the conversion of a field value fails,
whatever the pairs before it produced. (3) Hence when it returns no error none of
these failed. -/
theorem no_partial_result (r : GormEventRepository) (wiID : UUID) :
    ((∃ e, r.List wiID = { events := none, err := some e }) ∨
      (∃ evs, r.List wiID = { events := some evs, err := none })) ∧
    ((r.wiRevisionRepo wiID).err ≠ none → (r.List wiID).err ≠ none) ∧
    (∀ revs, (r.wiRevisionRepo wiID).revisions = some revs →
      r.workItemRepo wiID ≠ none → (r.List wiID).err ≠ none) ∧
    (∀ pre prev cur post,
      (r.wiRevisionRepo wiID).revisions = some (pre ++ prev :: cur :: post) →
      r.pairFails prev cur = true → (r.List wiID).err ≠ none) ∧
    ((r.List wiID).err = none →
      (r.wiRevisionRepo wiID).err = none ∧
      (∀ revs, (r.wiRevisionRepo wiID).revisions = some revs →
        r.workItemRepo wiID = none ∧
        ∀ pre prev cur post, revs = pre ++ prev :: cur :: post →
          r.pairFails prev cur = false)) := by
  have h2 : (r.wiRevisionRepo wiID).err ≠ none → (r.List wiID).err ≠ none := by
    intro h
    unfold GormEventRepository.List
    cases herr : (r.wiRevisionRepo wiID).err with
    | none => exact absurd herr h
    | some e => simp
  have h3 : ∀ revs, (r.wiRevisionRepo wiID).revisions = some revs →
      r.workItemRepo wiID ≠ none → (r.List wiID).err ≠ none := by
    intro revs hrevs hex
    unfold GormEventRepository.List
    cases herr : (r.wiRevisionRepo wiID).err with
    | some e => simp
    | none =>
      cases hw : r.workItemRepo wiID with
      | none => exact absurd hw hex
      | some e => simp [hrevs]
  have h4 : ∀ pre prev cur post,
      (r.wiRevisionRepo wiID).revisions = some (pre ++ prev :: cur :: post) →
      r.pairFails prev cur = true → (r.List wiID).err ≠ none := by
    intro pre prev cur post hrevs hfail
    obtain ⟨e, he⟩ := diffPair_error_of_pairFails r prev cur hfail
    obtain ⟨e1, he1⟩ := diffRevisions_error_of_pair r pre prev cur post e he
    unfold GormEventRepository.List
    cases herr : (r.wiRevisionRepo wiID).err with
    | some e => simp
    | none =>
      cases hw : r.workItemRepo wiID with
      | some e => simp [hrevs]
      | none => simp [hrevs, he1]
  refine ⟨List_result_cases r wiID, h2, h3, h4, ?_⟩
  intro hok
  refine ⟨?_, ?_⟩
  · by_contra hne
    exact h2 hne hok
  · intro revs hrevs
    refine ⟨?_, ?_⟩
    · by_contra hne
      exact h3 revs hrevs hne hok
    · intro pre prev cur post hsplit
      cases hfail : r.pairFails prev cur with
      | false => rfl
      | true => exact absurd hok (h4 pre prev cur post (hsplit ▸ hrevs) hfail)

/-- C6 on the history `rev0, rev1, rev3`: the pair `(rev0, rev1)` yields two events,
the conversion of the state of `rev3` fails in the pair `(rev1, rev3)`, and `List`
returns the nil list with that error. -/
theorem no_partial_result_witness :
    (exampleRepo (some [rev0, rev1])).List 5 =
      { events := some
          [{ RevisionID := 101, Name := "state", WorkItemTypeID := 1, Timestamp := 2,
             Modifier := 8, Old := .str "open", New := .str "closed" },
           { RevisionID := 101, Name := "labels", WorkItemTypeID := 1, Timestamp := 2,
             Modifier := 8, Old := .slice [.str "a", .str "b"],
             New := .slice [.str "b", .str "a"] }]
        err := none } ∧
    (exampleRepo (some [rev0, rev1, rev3])).List 5 =
      { events := none
        err := some (.wrapf (.external "value is not in the declared set")
          "failed to convert new value for field %s from storage representation: %+v"
          [.str "state", .str "bogus"]) } ∧
    ((exampleRepo (some [rev0, rev1, rev3])).List 5).err ≠ none :=
  ⟨rfl, rfl,
   (no_partial_result (exampleRepo (some [rev0, rev1, rev3])) 5).2.2.2.1 [rev0] rev1 rev3 []
     rfl (by decide)⟩

/-! ## C7 and C8: list fields -/

/-- The events of a successful call that carry the id of `cur` and the name of a
schema field are the events appended by the iteration for that field in the pair
`(prev, cur)`, for a pair of one type, distinct revision ids and distinct field
names. -/
theorem List_field_events (r : GormEventRepository) (wiID : UUID)
    (pre : List Revision) (prev cur : Revision) (post : List Revision) (evs : List Event)
    (wit : WorkItemType) (F : String) (d : FieldDefinition)
    (hrevs : (r.wiRevisionRepo wiID).revisions = some (pre ++ prev :: cur :: post))
    (hids : ((pre ++ prev :: cur :: post).map (fun rev => rev.ID)).Nodup)
    (hty : prev.WorkItemTypeID = cur.WorkItemTypeID)
    (hwit : r.workItemTypeRepo prev.WorkItemTypeID = .ok wit)
    (hnames : (wit.Fields.map Prod.fst).Nodup)
    (hF : (F, d) ∈ wit.Fields)
    (hok : r.List wiID = { events := some evs, err := none }) :
    ∃ m, r.identityRepo cur.ModifierIdentity = .ok m ∧
      diffField prev cur m F d [] =
        .ok (evs.filter (fun e => e.RevisionID == cur.ID && e.Name == F)) := by
  have hrun := List_ok_diffRevisions r wiID _ evs hrevs hok
  obtain ⟨b, hb, hfilter⟩ :=
    diffRevisions_filter_revisionID r pre prev cur post evs hids hrun
  obtain ⟨wit1, m, hwit1, hm, hfields⟩ := diffPair_same_type r prev cur b hty hb
  rw [hwit] at hwit1
  cases hwit1
  obtain ⟨b1, hb1, hfb1⟩ := diffFields_filter_name prev cur m wit.Fields b hnames hfields F d hF
  exact ⟨m, hm, by rw [filter_revisionID_and_name, hfilter, hfb1, hb1]⟩

/-- The list case of the type switch on an absent value: the empty slice. -/
theorem convertListValue_absent (t : ListType) (side : Side) (name : String) (v : Value)
    (h : isAbsent v = true) : convertListValue t side name v = .ok (.slice []) := by
  cases v <;> simp [isAbsent] at h
  rfl

/-- The list case of the type switch on a slice the converter turns into a slice. -/
theorem convertListValue_slice (t : ListType) (side : Side) (name : String) (v : Value)
    (p : List Value) (hv : isSliceTyped v = true)
    (hconv : t.ConvertFromModel v = .ok (.slice p)) :
    convertListValue t side name v = .ok (.slice p) := by
  cases v <;> simp [isSliceTyped] at hv <;> simp [convertListValue, hconv]

/-- The list case of a field iteration, once both sides are known. -/
theorem diffField_list (oldRev newRev : Revision) (m : Identity) (name : String)
    (d : FieldDefinition) (t : ListType) (p q : Value)
    (hd : d.Type_ = .list t)
    (hp : convertListValue t .old name (Fields.get oldRev.WorkItemFields name) = .ok p)
    (hq : convertListValue t .new name (Fields.get newRev.WorkItemFields name) = .ok q) :
    diffField oldRev newRev m name d [] =
      .ok (if deepEqual p q then []
           else [{ RevisionID := newRev.ID, Name := name,
                   WorkItemTypeID := newRev.WorkItemTypeID, Timestamp := newRev.Time,
                   Modifier := m.ID, Old := p, New := q }]) := by
  unfold diffField
  simp only [hd, hp, hq]
  cases deepEqual p q <;> simp

/-- C7: for a pair of one work item type in a successful call (revision ids and
field names distinct) and a list-typed schema field `F` whose converter maps a
stored empty sequence (if one of the two stored values is one) to the empty sequence: if each of the old and new stored
values is absent (null or missing key) or an empty sequence, in particular if one is
absent and the other is absent or an empty sequence, then both sides of the
comparison are the empty sequence and no event named `F` carries the id of the new
revision. -/
theorem absent_and_empty_list_no_event (r : GormEventRepository) (wiID : UUID)
    (pre : List Revision) (prev cur : Revision) (post : List Revision) (evs : List Event)
    (wit : WorkItemType) (F : String) (d : FieldDefinition) (t : ListType)
    (hrevs : (r.wiRevisionRepo wiID).revisions = some (pre ++ prev :: cur :: post))
    (hids : ((pre ++ prev :: cur :: post).map (fun rev => rev.ID)).Nodup)
    (hty : prev.WorkItemTypeID = cur.WorkItemTypeID)
    (hwit : r.workItemTypeRepo prev.WorkItemTypeID = .ok wit)
    (hnames : (wit.Fields.map Prod.fst).Nodup)
    (hF : (F, d) ∈ wit.Fields)
    (hd : d.Type_ = .list t)
    (hconv : ∀ v, v = Fields.get prev.WorkItemFields F ∨ v = Fields.get cur.WorkItemFields F →
      isEmptySequence v = true → t.ConvertFromModel v = .ok (.slice []))
    (hold : isAbsent (Fields.get prev.WorkItemFields F) = true ∨
      isEmptySequence (Fields.get prev.WorkItemFields F) = true)
    (hnew : isAbsent (Fields.get cur.WorkItemFields F) = true ∨
      isEmptySequence (Fields.get cur.WorkItemFields F) = true)
    (hok : r.List wiID = { events := some evs, err := none }) :
    convertListValue t .old F (Fields.get prev.WorkItemFields F) = .ok (.slice []) ∧
    convertListValue t .new F (Fields.get cur.WorkItemFields F) = .ok (.slice []) ∧
    evs.filter (fun e => e.RevisionID == cur.ID && e.Name == F) = [] := by
  have key : ∀ (side : Side) (v : Value),
      v = Fields.get prev.WorkItemFields F ∨ v = Fields.get cur.WorkItemFields F →
      isAbsent v = true ∨ isEmptySequence v = true →
      convertListValue t side F v = .ok (.slice []) := by
    intro side v hstored hv
    rcases hv with hv | hv
    · exact convertListValue_absent t side F v hv
    · refine convertListValue_slice t side F v [] ?_ (hconv v hstored hv)
      cases v <;> simp [isEmptySequence] at hv <;> rfl
  have hp := key .old _ (Or.inl rfl) hold
  have hq := key .new _ (Or.inr rfl) hnew
  obtain ⟨m, _, hfield⟩ :=
    List_field_events r wiID pre prev cur post evs wit F d hrevs hids hty hwit hnames hF hok
  rw [diffField_list prev cur m F d t _ _ hd hp hq] at hfield
  refine ⟨hp, hq, ?_⟩
  simp only [Except.ok.injEq] at hfield
  rw [← hfield]
  simp [deepEqual, deepEqualList]

/-- C7 on the history `rev4, rev5`: the labels are missing in `rev4` and the empty
sequence in `rev5`; the call succeeds with no event at all. -/
theorem absent_and_empty_list_no_event_witness :
    Fields.get rev4.WorkItemFields "labels" = .null ∧
    Fields.get rev5.WorkItemFields "labels" = .slice [] ∧
    (exampleRepo (some [rev4, rev5])).List 5 = { events := some [], err := none } ∧
    ((((exampleRepo (some [rev4, rev5])).List 5).events.getD []).filter
      (fun e => e.RevisionID == rev5.ID && e.Name == "labels")) = [] :=
  ⟨rfl, rfl, rfl,
   (absent_and_empty_list_no_event (exampleRepo (some [rev4, rev5])) 5 [] rev4 rev5 []
      (((exampleRepo (some [rev4, rev5])).List 5).events.getD []) exampleType "labels"
      { Type_ := .list exampleLabelsType } exampleLabelsType
      rfl (by decide) rfl rfl (by decide)
      (List.mem_cons_of_mem _ (List.mem_cons_of_mem _ (List.mem_cons_self _ _))) rfl
      (fun v _ hv => by
        cases v with
        | nilSlice => rfl
        | slice xs =>
          cases xs with
          | nil => rfl
          | cons x xs => simp [isEmptySequence] at hv
        | _ => simp [isEmptySequence] at hv)
      (Or.inl rfl) (Or.inr rfl) rfl).2.2⟩

/-- Two sequences differ exactly when their lengths differ or some position holds
different elements. -/
theorem sequences_differ_iff (p q : List Value) :
    p ≠ q ↔ (p.length ≠ q.length ∨ ∃ i, i < p.length ∧ p[i]? ≠ q[i]?) := by
  constructor
  · intro hne
    by_cases hlen : p.length = q.length
    · right
      by_contra hall
      apply hne
      apply List.ext_getElem? 
      intro i
      by_cases hi : i < p.length
      · by_contra hdiff
        exact hall ⟨i, hi, hdiff⟩
      · rw [List.getElem?_eq_none (Nat.le_of_not_lt hi),
          List.getElem?_eq_none (hlen ▸ Nat.le_of_not_lt hi)]
    · exact Or.inl hlen
  · rintro (hlen | ⟨i, _, hi⟩) heq
    · exact hlen (heq ▸ rfl)
    · exact hi (heq ▸ rfl)

/-- C8: for a pair of one work item type in a successful call (revision ids and
field names distinct) and a list-typed schema field `F` whose old and new stored
values are slices that the converter turns into the sequences `p` and `q`: the events
named `F` that carry the id of the new revision are none when `p = q`, and exactly
one, with `Old = p` and `New = q` as converted, when `p` and `q` differ as ordered
sequences, that is in length or at some position. -/
theorem list_field_event_iff_sequences_differ (r : GormEventRepository) (wiID : UUID)
    (pre : List Revision) (prev cur : Revision) (post : List Revision) (evs : List Event)
    (wit : WorkItemType) (F : String) (d : FieldDefinition) (t : ListType)
    (p q : List Value)
    (hrevs : (r.wiRevisionRepo wiID).revisions = some (pre ++ prev :: cur :: post))
    (hids : ((pre ++ prev :: cur :: post).map (fun rev => rev.ID)).Nodup)
    (hty : prev.WorkItemTypeID = cur.WorkItemTypeID)
    (hwit : r.workItemTypeRepo prev.WorkItemTypeID = .ok wit)
    (hnames : (wit.Fields.map Prod.fst).Nodup)
    (hF : (F, d) ∈ wit.Fields)
    (hd : d.Type_ = .list t)
    (hold : isSliceTyped (Fields.get prev.WorkItemFields F) = true)
    (hnew : isSliceTyped (Fields.get cur.WorkItemFields F) = true)
    (hp : t.ConvertFromModel (Fields.get prev.WorkItemFields F) = .ok (.slice p))
    (hq : t.ConvertFromModel (Fields.get cur.WorkItemFields F) = .ok (.slice q))
    (hok : r.List wiID = { events := some evs, err := none }) :
    ∃ m, r.identityRepo cur.ModifierIdentity = .ok m ∧
      (p = q → evs.filter (fun e => e.RevisionID == cur.ID && e.Name == F) = []) ∧
      (p ≠ q → evs.filter (fun e => e.RevisionID == cur.ID && e.Name == F) =
        [{ RevisionID := cur.ID, Name := F, WorkItemTypeID := cur.WorkItemTypeID,
           Timestamp := cur.Time, Modifier := m.ID, Old := .slice p, New := .slice q }]) ∧
      (p ≠ q ↔ (p.length ≠ q.length ∨ ∃ i, i < p.length ∧ p[i]? ≠ q[i]?)) := by
  obtain ⟨m, hm, hfield⟩ :=
    List_field_events r wiID pre prev cur post evs wit F d hrevs hids hty hwit hnames hF hok
  rw [diffField_list prev cur m F d t _ _ hd
    (convertListValue_slice t .old F _ p hold hp)
    (convertListValue_slice t .new F _ q hnew hq)] at hfield
  simp only [Except.ok.injEq] at hfield
  refine ⟨m, hm, ?_, ?_, sequences_differ_iff p q⟩
  · intro heq
    rw [← hfield, (deepEqual_iff _ _).2 (congrArg Value.slice heq)]
    rfl
  · intro hne
    have hfalse : deepEqual (.slice p) (.slice q) = false := by
      rw [deepEqual_false_iff]
      intro h
      exact hne (Value.slice.inj h)
    rw [← hfield, hfalse]
    rfl

/-- C8 on the history `rev0, rev1`: the labels go from `["a", "b"]` to `["b", "a"]`
and one event reports exactly these two sequences. -/
theorem list_field_event_iff_sequences_differ_witness :
    ∃ m, (exampleRepo (some [rev0, rev1])).identityRepo rev1.ModifierIdentity = .ok m ∧
      ((((exampleRepo (some [rev0, rev1])).List 5).events.getD []).filter
          (fun e => e.RevisionID == rev1.ID && e.Name == "labels")) =
        [{ RevisionID := 101, Name := "labels", WorkItemTypeID := 1, Timestamp := 2,
           Modifier := m.ID, Old := .slice [.str "a", .str "b"],
           New := .slice [.str "b", .str "a"] }] := by
  obtain ⟨m, hm, _, hne, _⟩ :=
    list_field_event_iff_sequences_differ (exampleRepo (some [rev0, rev1])) 5 [] rev0 rev1 []
      (((exampleRepo (some [rev0, rev1])).List 5).events.getD []) exampleType "labels"
      { Type_ := .list exampleLabelsType } exampleLabelsType
      [.str "a", .str "b"] [.str "b", .str "a"]
      rfl (by decide) rfl rfl (by decide)
      (List.mem_cons_of_mem _ (List.mem_cons_of_mem _ (List.mem_cons_self _ _))) rfl
      rfl rfl rfl rfl rfl
  exact ⟨m, hm, hne (by simp)⟩

/-! ## C9: enumerated fields -/

/-- A failing lookup or conversion in any adjacent pair makes `List` return the nil
list and an error. -/
theorem List_abort_of_pairFails (r : GormEventRepository) (wiID : UUID)
    (pre : List Revision) (prev cur : Revision) (post : List Revision)
    (hrevs : (r.wiRevisionRepo wiID).revisions = some (pre ++ prev :: cur :: post))
    (hfail : r.pairFails prev cur = true) :
    ∃ e, r.List wiID = { events := none, err := some e } := by
  rcases List_result_cases r wiID with h | ⟨evs, h⟩
  · exact h
  · exfalso
    have hrun := List_ok_diffRevisions r wiID _ evs hrevs h
    obtain ⟨e, he⟩ := diffPair_error_of_pairFails r prev cur hfail
    obtain ⟨e1, he1⟩ := diffRevisions_error_of_pair r pre prev cur post e he
    rw [he1] at hrun
    cases hrun

/-- C9: for a pair `(prev, cur)` of one work item type and an enum-typed field `F` of
the schema of the type of `prev`: (1) if the enum's own converter rejects the old or
the new stored value, `List` returns the nil list and an error; (2) if it accepts
both with values that are not deeply equal and `List` succeeds (revision ids and
field names distinct), exactly one event named `F` carries the id of `cur`, with the
converted values as `Old` and `New`; (3) the field iteration is the same for every
base type of the enum, so the base type's converter plays no part. -/
theorem enum_field_uses_own_converter (r : GormEventRepository) (wiID : UUID)
    (pre : List Revision) (prev cur : Revision) (post : List Revision)
    (wit : WorkItemType) (F : String) (d : FieldDefinition) (t : EnumType)
    (hrevs : (r.wiRevisionRepo wiID).revisions = some (pre ++ prev :: cur :: post))
    (hty : prev.WorkItemTypeID = cur.WorkItemTypeID)
    (hwit : r.workItemTypeRepo prev.WorkItemTypeID = .ok wit)
    (hF : (F, d) ∈ wit.Fields)
    (hd : d.Type_ = .enum t) :
    ((rejects t.ConvertFromModel (Fields.get prev.WorkItemFields F) = true ∨
        rejects t.ConvertFromModel (Fields.get cur.WorkItemFields F) = true) →
      ∃ e, r.List wiID = { events := none, err := some e }) ∧
    (∀ (evs : List Event) (p q : Value),
      ((pre ++ prev :: cur :: post).map (fun rev => rev.ID)).Nodup →
      (wit.Fields.map Prod.fst).Nodup →
      t.ConvertFromModel (Fields.get prev.WorkItemFields F) = .ok p →
      t.ConvertFromModel (Fields.get cur.WorkItemFields F) = .ok q →
      deepEqual p q = false →
      r.List wiID = { events := some evs, err := none } →
      ∃ m, r.identityRepo cur.ModifierIdentity = .ok m ∧
        evs.filter (fun e => e.RevisionID == cur.ID && e.Name == F) =
          [{ RevisionID := cur.ID, Name := F, WorkItemTypeID := cur.WorkItemTypeID,
             Timestamp := cur.Time, Modifier := m.ID, Old := p, New := q }]) ∧
    (∀ (base : SimpleType) (m : Identity) (acc : List Event),
      diffField prev cur m F { Type_ := .enum { t with BaseType := base } } acc =
        diffField prev cur m F d acc) := by
  refine ⟨?_, ?_, ?_⟩
  · intro hrej
    refine List_abort_of_pairFails r wiID pre prev cur post hrevs ?_
    rw [pairFails_iff]
    refine Or.inr (Or.inr ⟨hty, wit, hwit, F, d, hF, ?_⟩)
    rw [hd]
    exact hrej
  · intro evs p q hids hnames hp hq hpq hok
    obtain ⟨m, hm, hfield⟩ :=
      List_field_events r wiID pre prev cur post evs wit F d hrevs hids hty hwit hnames hF hok
    have hconv : scalarConverter d.Type_ = some t.ConvertFromModel := by rw [hd]; rfl
    rw [diffField_scalar prev cur m F d _ p q hconv hp hq, hpq] at hfield
    simp only [Except.ok.injEq] at hfield
    exact ⟨m, hm, by rw [← hfield]; rfl⟩
  · intro base m acc
    unfold diffField
    simp only [hd]

/-- C9 on the example enum with declared values "open" and "closed", whose base
string type accepts every string: the stored state "bogus" of `rev3` makes the call
fail, and the change from "open" to "closed" in `rev0, rev1` gives one event. -/
theorem enum_field_uses_own_converter_witness :
    (exampleStateEnum.BaseType.ConvertFromModel (.str "bogus")).isOk = true ∧
    (∃ e, (exampleRepo (some [rev1, rev3])).List 5 = { events := none, err := some e }) ∧
    (∃ m, (exampleRepo (some [rev0, rev1])).identityRepo rev1.ModifierIdentity = .ok m ∧
      ((((exampleRepo (some [rev0, rev1])).List 5).events.getD []).filter
          (fun e => e.RevisionID == rev1.ID && e.Name == "state")) =
        [{ RevisionID := 101, Name := "state", WorkItemTypeID := 1, Timestamp := 2,
           Modifier := m.ID, Old := .str "open", New := .str "closed" }]) :=
  ⟨rfl,
   (enum_field_uses_own_converter (exampleRepo (some [rev1, rev3])) 5 [] rev1 rev3 []
      exampleType "state" { Type_ := .enum exampleStateEnum } exampleStateEnum
      rfl rfl rfl (List.mem_cons_of_mem _ (List.mem_cons_self _ _)) rfl).1 (Or.inr rfl),
   (enum_field_uses_own_converter (exampleRepo (some [rev0, rev1])) 5 [] rev0 rev1 []
      exampleType "state" { Type_ := .enum exampleStateEnum } exampleStateEnum
      rfl rfl rfl (List.mem_cons_of_mem _ (List.mem_cons_self _ _)) rfl).2.1
      (((exampleRepo (some [rev0, rev1])).List 5).events.getD [])
      (.str "open") (.str "closed") (by decide) (by decide) rfl rfl rfl rfl⟩

/-! ## C10: a stored value of a list field that is not a slice -/

/-- C10 fails on the code: in the history `rev0, rev6, rev4` the labels of `rev6` are
a string. In the pair `(rev0, rev6)` the string is the new value and in the pair
`(rev6, rev4)` it is the old value; no case of the type switch matches it, the
compared value stays the nil slice, and `List` succeeds with events that report the
nil slice instead of returning a conversion error. -/
theorem list_field_non_slice_value_not_rejected :
    Fields.get rev6.WorkItemFields "labels" = .str "not a list" ∧
    (exampleLabelsType.ConvertFromModel (.str "not a list")).isOk = false ∧
    convertListValue exampleLabelsType .old "labels" (.str "not a list") = .ok .nilSlice ∧
    (exampleRepo (some [rev0, rev6, rev4])).List 5 =
      { events := some
          [{ RevisionID := 106, Name := "labels", WorkItemTypeID := 1, Timestamp := 7,
             Modifier := 8, Old := .slice [.str "a", .str "b"], New := .nilSlice },
           { RevisionID := 104, Name := "labels", WorkItemTypeID := 1, Timestamp := 5,
             Modifier := 8, Old := .nilSlice, New := .slice [] }]
        err := none } :=
  ⟨rfl, rfl, rfl, rfl⟩

/-! ## C11: a field descriptor of unknown kind -/

/-- An error of the pair iteration does not depend on the events accumulated so far. -/
theorem diffPair_error_acc (r : GormEventRepository) (prev cur : Revision) (e : Err)
    (acc : List Event) (h : r.diffPair prev cur [] = .error e) :
    r.diffPair prev cur acc = .error e := by
  rw [diffPair_acc, h]
  rfl

/-- The first pair that returns an error ends the loop over the revisions with that
error. -/
theorem diffRevisions_first_error (r : GormEventRepository) (pre : List Revision)
    (prev cur : Revision) (post : List Revision) (a : List Event) (e : Err)
    (hpre : r.diffRevisions (pre ++ [prev]) [] = .ok a)
    (hpair : r.diffPair prev cur [] = .error e) :
    r.diffRevisions (pre ++ prev :: cur :: post) [] = .error e := by
  induction pre generalizing a with
  | nil => simp [GormEventRepository.diffRevisions, hpair]
  | cons x pre ih =>
    cases pre with
    | nil =>
      simp only [List.cons_append, List.nil_append] at hpre ⊢
      obtain ⟨e1, e2, h1, _, _⟩ := (diffRevisions_cons_ok r x prev [] a).1 hpre
      simp only [GormEventRepository.diffRevisions, h1, diffPair_error_acc r prev cur e e1 hpair]
    | cons y pre =>
      simp only [List.cons_append] at hpre ih ⊢
      obtain ⟨e1, e2, h1, h2, _⟩ := (diffRevisions_cons_ok r x y _ a).1 hpre
      have h3 := ih e2 h2
      simp only [GormEventRepository.diffRevisions, h1]
      rw [diffRevisions_acc, h3]
      rfl

/-- An error of a field iteration does not depend on the events accumulated so far. -/
theorem diffField_error_acc (oldRev newRev : Revision) (m : Identity) (name : String)
    (d : FieldDefinition) (e : Err) (acc : List Event)
    (h : diffField oldRev newRev m name d [] = .error e) :
    diffField oldRev newRev m name d acc = .error e := by
  rw [diffField_acc, h]
  rfl

/-- The first field that returns an error ends the loop over the fields with that
error. -/
theorem diffFields_first_error (oldRev newRev : Revision) (m : Identity)
    (f1 : List (String × FieldDefinition)) (name : String) (d : FieldDefinition)
    (f2 : List (String × FieldDefinition)) (b : List Event) (e : Err)
    (hpre : diffFields oldRev newRev m f1 [] = .ok b)
    (hfield : diffField oldRev newRev m name d [] = .error e) :
    diffFields oldRev newRev m (f1 ++ (name, d) :: f2) [] = .error e := by
  induction f1 generalizing b with
  | nil => simp [diffFields, hfield]
  | cons fd f1 ih =>
    obtain ⟨name1, d1⟩ := fd
    obtain ⟨e1, e2, h1, h2, _⟩ := (diffFields_cons_ok _ _ _ _ _ _ _).1 hpre
    have h4 : diffFields oldRev newRev m (f1 ++ (name, d) :: f2) e1 = .error e := by
      rw [diffFields_acc, ih e2 h2]
      rfl
    simp only [List.cons_append, diffFields, h1]
    exact h4

/-- An error of any field makes the loop over the fields return an error. -/
theorem diffFields_error_of_field (oldRev newRev : Revision) (m : Identity)
    (fields : List (String × FieldDefinition)) (name : String) (d : FieldDefinition)
    (e : Err) (hmem : (name, d) ∈ fields)
    (hfield : diffField oldRev newRev m name d [] = .error e) :
    ∃ e1, diffFields oldRev newRev m fields [] = .error e1 := by
  cases h : diffFields oldRev newRev m fields [] with
  | error e1 => exact ⟨e1, rfl⟩
  | ok evs =>
    obtain ⟨b, hb, _⟩ := diffFields_ok_field oldRev newRev m fields evs h name d hmem
    rw [hfield] at hb
    cases hb

/-- An error of any adjacent pair makes `List` return the nil list and an error. -/
theorem List_abort_of_diffPair_error (r : GormEventRepository) (wiID : UUID)
    (pre : List Revision) (prev cur : Revision) (post : List Revision) (e : Err)
    (hrevs : (r.wiRevisionRepo wiID).revisions = some (pre ++ prev :: cur :: post))
    (hpair : r.diffPair prev cur [] = .error e) :
    ∃ e1, r.List wiID = { events := none, err := some e1 } := by
  rcases List_result_cases r wiID with h | ⟨evs, h⟩
  · exact h
  · exfalso
    have hrun := List_ok_diffRevisions r wiID _ evs hrevs h
    obtain ⟨e1, he1⟩ := diffRevisions_error_of_pair r pre prev cur post e hpair
    rw [he1] at hrun
    cases hrun

/-- The field iteration for a descriptor of unknown kind. -/
theorem diffField_unknown (oldRev newRev : Revision) (m : Identity) (name : String)
    (d : FieldDefinition) (kind : String) (acc : List Event)
    (hd : d.Type_ = .unknown kind) :
    diffField oldRev newRev m name d acc = .error (.notFound "unknown field type" kind) := by
  unfold diffField
  simp only [hd]

/-- The pair iteration for a pair of one type whose lookups succeed. -/
theorem diffPair_same_type_eq (r : GormEventRepository) (prev cur : Revision)
    (wit : WorkItemType) (m : Identity) (acc : List Event)
    (hty : prev.WorkItemTypeID = cur.WorkItemTypeID)
    (hwit : r.workItemTypeRepo prev.WorkItemTypeID = .ok wit)
    (hm : r.identityRepo cur.ModifierIdentity = .ok m) :
    r.diffPair prev cur acc = diffFields prev cur m wit.Fields acc := by
  unfold GormEventRepository.diffPair
  rw [hwit, hm]
  simp [hty]

/-- C11 fails as stated: in the history `rev1, rev3, rev7, rev8` the pair
`(rev7, rev8)` has one type whose schema has a field of unknown kind, but the call
has already returned the conversion error of the state of `rev3` in the pair
`(rev1, rev3)`. -/
theorem unknown_field_type_preceded_by_other_error :
    exampleUnknownType.Fields = [("custom", { Type_ := .unknown "custom kind" })] ∧
    (exampleRepo2 (some [rev1, rev3, rev7, rev8])).workItemTypeRepo rev7.WorkItemTypeID
      = .ok exampleUnknownType ∧
    rev7.WorkItemTypeID = rev8.WorkItemTypeID ∧
    (exampleRepo2 (some [rev1, rev3, rev7, rev8])).List 5 =
      { events := none
        err := some (.wrapf (.external "value is not in the declared set")
          "failed to convert new value for field %s from storage representation: %+v"
          [.str "state", .str "bogus"]) } :=
  ⟨rfl, rfl, rfl, rfl⟩

/-- C11, amended: for every adjacent pair `(prev, cur)` of one work item type whose
schema has a field whose descriptor is neither a list type nor a simple type, also
after unwrapping an enum, (1) `List` returns the nil list and an error, whatever the
values of the field and the events accumulated so far; (2) that error is the
"unknown field type" error with the kind of the descriptor when nothing failed before
the field is reached: the listing and the existence check pass, the pairs before
`(prev, cur)` succeed, the identity lookup succeeds and the fields visited before it
succeed. -/
theorem unknown_field_type_aborts (r : GormEventRepository) (wiID : UUID)
    (pre : List Revision) (prev cur : Revision) (post : List Revision)
    (wit : WorkItemType) (F : String) (d : FieldDefinition) (kind : String)
    (hrevs : (r.wiRevisionRepo wiID).revisions = some (pre ++ prev :: cur :: post))
    (hty : prev.WorkItemTypeID = cur.WorkItemTypeID)
    (hwit : r.workItemTypeRepo prev.WorkItemTypeID = .ok wit)
    (hF : (F, d) ∈ wit.Fields)
    (hd : d.Type_ = .unknown kind) :
    (∃ e, r.List wiID = { events := none, err := some e }) ∧
    (∀ (a : List Event) (m : Identity) (f1 f2 : List (String × FieldDefinition))
        (b : List Event),
      (r.wiRevisionRepo wiID).err = none →
      r.workItemRepo wiID = none →
      r.diffRevisions (pre ++ [prev]) [] = .ok a →
      r.identityRepo cur.ModifierIdentity = .ok m →
      wit.Fields = f1 ++ (F, d) :: f2 →
      diffFields prev cur m f1 [] = .ok b →
      r.List wiID =
        { events := none, err := some (.notFound "unknown field type" kind) }) := by
  constructor
  · cases hm : r.identityRepo cur.ModifierIdentity with
    | error e =>
      refine List_abort_of_diffPair_error r wiID pre prev cur post
        (.wrapf e "failed to load modifier identity %s" [.uuid cur.ModifierIdentity]) hrevs ?_
      unfold GormEventRepository.diffPair
      rw [hwit, hm]
    | ok m =>
      obtain ⟨e1, he1⟩ := diffFields_error_of_field prev cur m wit.Fields F d _ hF
        (diffField_unknown prev cur m F d kind [] hd)
      refine List_abort_of_diffPair_error r wiID pre prev cur post e1 hrevs ?_
      rw [diffPair_same_type_eq r prev cur wit m [] hty hwit hm, he1]
  · intro a m f1 f2 b herr hex hpre hm hsplit hf1
    have hfields := diffFields_first_error prev cur m f1 F d f2 b _ hf1
      (diffField_unknown prev cur m F d kind [] hd)
    rw [← hsplit, ← diffPair_same_type_eq r prev cur wit m [] hty hwit hm] at hfields
    have hrun := diffRevisions_first_error r pre prev cur post a _ hpre hfields
    unfold GormEventRepository.List
    simp [herr, hrevs, hex, hrun]

/-- C11, amended, on the history `rev7, rev8`, whose only pair is the first failure:
`List` returns the nil list and the "unknown field type" error with the kind. -/
theorem unknown_field_type_aborts_witness :
    (exampleRepo2 (some [rev7, rev8])).List 5 =
      { events := none, err := some (.notFound "unknown field type" "custom kind") } :=
  (unknown_field_type_aborts (exampleRepo2 (some [rev7, rev8])) 5 [] rev7 rev8 []
      exampleUnknownType "custom" { Type_ := .unknown "custom kind" } "custom kind"
      rfl rfl rfl (List.mem_cons_self _ _) rfl).2 [] { ID := 8 } [] [] []
    rfl rfl rfl rfl rfl rfl

/-! ## C12: the metadata of an event -/

/-- Every event appended by a pair iteration carries the revision id, the timestamp
and the type id of the new revision and the id of the identity loaded for its
modifier. -/
theorem diffPair_metadata (r : GormEventRepository) (prev cur : Revision)
    (b : List Event) (h : r.diffPair prev cur [] = .ok b) :
    ∃ m, r.identityRepo cur.ModifierIdentity = .ok m ∧
      ∀ e ∈ b, e.RevisionID = cur.ID ∧ e.Timestamp = cur.Time ∧
        e.WorkItemTypeID = cur.WorkItemTypeID ∧ e.Modifier = m.ID := by
  by_cases hty : prev.WorkItemTypeID = cur.WorkItemTypeID
  · obtain ⟨wit, m, _, hm, hf⟩ := diffPair_same_type r prev cur b hty h
    refine ⟨m, hm, ?_⟩
    intro e he
    obtain ⟨name, d, b1, _, hb1, he1⟩ := diffFields_mem _ _ _ _ _ hf e he
    rcases diffField_ok_shape _ _ _ _ _ _ hb1 with rfl | ⟨p, n, _, rfl⟩
    · cases he1
    · simp only [List.mem_singleton] at he1
      subst he1
      exact ⟨rfl, rfl, rfl, rfl⟩
  · obtain ⟨m, hm, rfl⟩ := diffPair_type_change r prev cur b hty h
    refine ⟨m, hm, ?_⟩
    intro e he
    simp only [List.mem_singleton] at he
    subst he
    exact ⟨rfl, rfl, rfl, rfl⟩

/-- The loop over the revisions reads neither the id, nor the timestamp, nor the
modifier of the first revision. -/
theorem diffRevisions_first_revision_frame (r : GormEventRepository) (first : Revision)
    (rest : List Revision) (id : UUID) (time : Nat) (modifier : UUID) (acc : List Event) :
    r.diffRevisions
        ({ first with ID := id, Time := time, ModifierIdentity := modifier } :: rest) acc
      = r.diffRevisions (first :: rest) acc := by
  cases rest with
  | nil => simp [GormEventRepository.diffRevisions]
  | cons cur rest =>
    have hpair : r.diffPair
        { first with ID := id, Time := time, ModifierIdentity := modifier } cur acc
          = r.diffPair first cur acc := by
      unfold GormEventRepository.diffPair
      have hfields : ∀ (m : Identity) (fields : List (String × FieldDefinition))
          (acc : List Event),
          diffFields { first with ID := id, Time := time, ModifierIdentity := modifier }
            cur m fields acc = diffFields first cur m fields acc := by
        intro m fields
        induction fields with
        | nil => intro acc; rfl
        | cons fd fields ih =>
          intro acc
          obtain ⟨name, d⟩ := fd
          have hfield : diffField
              { first with ID := id, Time := time, ModifierIdentity := modifier }
              cur m name d acc = diffField first cur m name d acc := rfl
          simp only [diffFields, hfield, ih]
      simp only [hfields]
      rfl
    simp only [GormEventRepository.diffRevisions, hpair]

/-- C12 fails as stated: in the history `rev9, rev1` both revisions are made by
identity 8, so the event of the state change carries the id of the identity of the
modifier of the first revision, although the revision ids are distinct. -/
theorem event_modifier_can_equal_first_modifier :
    ([rev9, rev1].map (fun rev => rev.ID)).Nodup ∧
    (exampleRepo (some [rev9, rev1])).identityRepo rev9.ModifierIdentity = .ok { ID := 8 } ∧
    (exampleRepo (some [rev9, rev1])).List 5 =
      { events := some
          [{ RevisionID := 101, Name := "state", WorkItemTypeID := 1, Timestamp := 2,
             Modifier := 8, Old := .str "open", New := .str "closed" }]
        err := none } :=
  ⟨by decide, rfl, rfl⟩

/-- C12, amended: in a successful `List` result with pairwise distinct revision ids,
(1) every event belongs to an adjacent pair `(prev, cur)` of the revision list and
carries the revision id, timestamp and work item type id of `cur` and the id of the
identity resolved from the modifier of `cur`; (2) every event that carries the
revision id of `cur` of an adjacent pair carries these values of `cur`; (3) no event
carries the revision id of the first revision, nor, when the timestamps are pairwise
distinct, its timestamp; (4) the output is the same when the id, timestamp or
modifier of the first revision are replaced: its modifier is never read, though an
event can carry the same identity when a later revision was made by it. -/
theorem event_metadata_from_new_revision (r : GormEventRepository) (wiID : UUID)
    (revs : List Revision) (evs : List Event)
    (hrevs : (r.wiRevisionRepo wiID).revisions = some revs)
    (hids : (revs.map (fun rev => rev.ID)).Nodup)
    (hok : r.List wiID = { events := some evs, err := none }) :
    (∀ e ∈ evs, ∃ pre prev cur post m, revs = pre ++ prev :: cur :: post ∧
      r.identityRepo cur.ModifierIdentity = .ok m ∧
      e.RevisionID = cur.ID ∧ e.Timestamp = cur.Time ∧
      e.WorkItemTypeID = cur.WorkItemTypeID ∧ e.Modifier = m.ID) ∧
    (∀ pre prev cur post, revs = pre ++ prev :: cur :: post →
      ∃ m, r.identityRepo cur.ModifierIdentity = .ok m ∧
        ∀ e ∈ evs, e.RevisionID = cur.ID →
          e.Timestamp = cur.Time ∧ e.WorkItemTypeID = cur.WorkItemTypeID ∧
          e.Modifier = m.ID) ∧
    (∀ first rest, revs = first :: rest →
      (∀ e ∈ evs, e.RevisionID ≠ first.ID) ∧
      ((revs.map (fun rev => rev.Time)).Nodup → ∀ e ∈ evs, e.Timestamp ≠ first.Time) ∧
      ∀ id time modifier,
        r.diffRevisions
            ({ first with ID := id, Time := time, ModifierIdentity := modifier } :: rest) []
          = .ok evs) := by
  have hrun := List_ok_diffRevisions r wiID revs evs hrevs hok
  have h1 : ∀ e ∈ evs, ∃ pre prev cur post m, revs = pre ++ prev :: cur :: post ∧
      r.identityRepo cur.ModifierIdentity = .ok m ∧
      e.RevisionID = cur.ID ∧ e.Timestamp = cur.Time ∧
      e.WorkItemTypeID = cur.WorkItemTypeID ∧ e.Modifier = m.ID := by
    intro e he
    obtain ⟨pre, prev, cur, post, b, hsplit, hb, heb⟩ := diffRevisions_mem r revs evs hrun e he
    obtain ⟨m, hm, hall⟩ := diffPair_metadata r prev cur b hb
    exact ⟨pre, prev, cur, post, m, hsplit, hm, hall e heb⟩
  refine ⟨h1, ?_, ?_⟩
  · intro pre prev cur post hsplit
    subst hsplit
    obtain ⟨b, hb, hfilter⟩ :=
      diffRevisions_filter_revisionID r pre prev cur post evs hids hrun
    obtain ⟨m, hm, hall⟩ := diffPair_metadata r prev cur b hb
    refine ⟨m, hm, ?_⟩
    intro e he hid
    have hmem : e ∈ b := by
      rw [← hfilter, List.mem_filter]
      exact ⟨he, by simpa using hid⟩
    exact (hall e hmem).2
  · intro first rest hsplit
    subst hsplit
    refine ⟨?_, ?_, ?_⟩
    · intro e he heq
      have hmem := diffRevisions_revisionID r _ evs hrun e he
      simp only [List.tail_cons] at hmem
      rw [heq] at hmem
      exact (List.nodup_cons.1 hids).1 hmem
    · intro htimes e he heq
      obtain ⟨pre, prev, cur, post, m, hsplit, _, _, htime, _⟩ := h1 e he
      have hcur : cur ∈ rest := by
        cases pre with
        | nil =>
          simp only [List.nil_append, List.cons.injEq] at hsplit
          rw [hsplit.2]
          exact List.mem_cons_self _ _
        | cons x pre =>
          simp only [List.cons_append, List.cons.injEq] at hsplit
          rw [hsplit.2]
          simp
      have hnot : first.Time ∉ rest.map (fun rev => rev.Time) :=
        (List.nodup_cons.1 htimes).1
      exact hnot (List.mem_map.2 ⟨cur, hcur, by rw [← htime, heq]⟩)
    · intro id time modifier
      rw [diffRevisions_first_revision_frame, hrun]

/-- C12, amended, on the history `rev0, rev1, rev2`: the three events carry the ids,
timestamps and type ids of `rev1` and `rev2` and the identities 8 and 9 of their
modifiers; none carries the id 100 or the timestamp 1 of `rev0`. -/
theorem event_metadata_from_new_revision_witness :
    ((exampleRepo (some [rev0, rev1, rev2])).List 5).events.map
        (fun evs => evs.map
          (fun e => (e.RevisionID, e.Timestamp, e.WorkItemTypeID, e.Modifier)))
      = some [(101, 2, 1, 8), (101, 2, 1, 8), (102, 3, 2, 9)] ∧
    (∀ e ∈ ((exampleRepo (some [rev0, rev1, rev2])).List 5).events.getD [],
      e.RevisionID ≠ rev0.ID) :=
  ⟨by decide,
   ((event_metadata_from_new_revision (exampleRepo (some [rev0, rev1, rev2])) 5
      [rev0, rev1, rev2] (((exampleRepo (some [rev0, rev1, rev2])).List 5).events.getD [])
      rfl (by decide) rfl).2.2 rev0 [rev1, rev2] rfl).1⟩

/-! ## C17: the two lookups come before the type change test -/

/-- C17: for every adjacent pair `(prev, cur)` of the revision list, (1) if the type
of `prev` or the identity of the modifier of `cur` cannot be loaded, `List` returns
the nil list and an error, whether the pair changes the type or not; (2) the pair
iteration returns the wrapped error of the type lookup, naming the type id of
`prev`, and, when the type is loaded, the wrapped error of the identity lookup,
naming the modifier of `cur`; (3) the iteration makes no other lookup: it is the
same for all repositories that agree on these two; (4) for a pair that changes the
type the loaded schema is not used: the iteration is the same whatever schema is
loaded. -/
theorem lookups_before_type_change_test (r : GormEventRepository) (wiID : UUID)
    (pre : List Revision) (prev cur : Revision) (post : List Revision)
    (hrevs : (r.wiRevisionRepo wiID).revisions = some (pre ++ prev :: cur :: post)) :
    (((r.workItemTypeRepo prev.WorkItemTypeID).isOk = false ∨
        (r.identityRepo cur.ModifierIdentity).isOk = false) →
      ∃ e, r.List wiID = { events := none, err := some e }) ∧
    (∀ err acc, r.workItemTypeRepo prev.WorkItemTypeID = .error err →
      r.diffPair prev cur acc =
        .error (.wrapf err "failed to load old work item type: %s"
          [.uuid prev.WorkItemTypeID])) ∧
    (∀ wit err acc, r.workItemTypeRepo prev.WorkItemTypeID = .ok wit →
      r.identityRepo cur.ModifierIdentity = .error err →
      r.diffPair prev cur acc =
        .error (.wrapf err "failed to load modifier identity %s"
          [.uuid cur.ModifierIdentity])) ∧
    (∀ (r2 : GormEventRepository) acc,
      r2.workItemTypeRepo prev.WorkItemTypeID = r.workItemTypeRepo prev.WorkItemTypeID →
      r2.identityRepo cur.ModifierIdentity = r.identityRepo cur.ModifierIdentity →
      r2.diffPair prev cur acc = r.diffPair prev cur acc) ∧
    (prev.WorkItemTypeID ≠ cur.WorkItemTypeID →
      ∀ (r2 : GormEventRepository) wit wit2 acc,
        r.workItemTypeRepo prev.WorkItemTypeID = .ok wit →
        r2.workItemTypeRepo prev.WorkItemTypeID = .ok wit2 →
        r2.identityRepo cur.ModifierIdentity = r.identityRepo cur.ModifierIdentity →
        r2.diffPair prev cur acc = r.diffPair prev cur acc) := by
  refine ⟨?_, ?_, ?_, ?_, ?_⟩
  · intro h
    refine List_abort_of_pairFails r wiID pre prev cur post hrevs ?_
    rw [pairFails_iff]
    rcases h with h | h
    · exact Or.inl h
    · exact Or.inr (Or.inl h)
  · intro err acc h
    unfold GormEventRepository.diffPair
    rw [h]
  · intro wit err acc hwit h
    unfold GormEventRepository.diffPair
    rw [hwit, h]
  · intro r2 acc h1 h2
    unfold GormEventRepository.diffPair
    rw [h1, h2]
  · intro hty r2 wit wit2 acc hwit hwit2 h2
    unfold GormEventRepository.diffPair
    rw [hwit, hwit2, h2]
    cases r.identityRepo cur.ModifierIdentity with
    | error e => rfl
    | ok m => simp [hty]

/-- C17 on the history `rev1, rev2`, a pair that changes the type from 1 to 2, in
repositories where type 2 can be loaded and type 1 cannot: `List` returns the nil
list and the wrapped error of the lookup of type 1. -/
theorem lookups_before_type_change_test_witness :
    rev1.WorkItemTypeID ≠ rev2.WorkItemTypeID ∧
    ((exampleRepo3 (some [rev1, rev2])).workItemTypeRepo rev2.WorkItemTypeID).isOk = true ∧
    (exampleRepo3 (some [rev1, rev2])).List 5 =
      { events := none
        err := some (.wrapf (.notFound "work item type" "1")
          "failed to load old work item type: %s" [.uuid 1]) } ∧
    ∃ e, (exampleRepo3 (some [rev1, rev2])).List 5 = { events := none, err := some e } :=
  ⟨by decide, rfl, rfl,
   (lookups_before_type_change_test (exampleRepo3 (some [rev1, rev2])) 5 [] rev1 rev2 []
      rfl).1 (Or.inl rfl)⟩

/-! ## C18: every event is a change -/

/-- A successful call either had a nil revision list and returns no event, or ran
the loop over the listed revisions. -/
theorem List_ok_cases (r : GormEventRepository) (wiID : UUID) (evs : List Event)
    (h : r.List wiID = { events := some evs, err := none }) :
    evs = [] ∨ ∃ revs, (r.wiRevisionRepo wiID).revisions = some revs ∧
      r.diffRevisions revs [] = .ok evs := by
  cases hrevs : (r.wiRevisionRepo wiID).revisions with
  | none =>
    left
    unfold GormEventRepository.List at h
    cases herr : (r.wiRevisionRepo wiID).err with
    | some e => simp [herr] at h
    | none =>
      simp only [herr, hrevs, ListResult.mk.injEq, Option.some.injEq, and_true] at h
      exact h.symm
  | some revs => exact Or.inr ⟨revs, rfl, List_ok_diffRevisions r wiID revs evs hrevs h⟩

/-- C18: in every successful `List` result the old and the new value of every event
are not deeply equal, hence different: the event is either the type change event of
a pair whose type ids differ, with these ids as values, or a field event of a pair of
one type, appended only when the converted values are not deeply equal. -/
theorem every_event_is_a_change (r : GormEventRepository) (wiID : UUID)
    (evs : List Event) (hok : r.List wiID = { events := some evs, err := none }) :
    ∀ e ∈ evs, deepEqual e.Old e.New = false ∧ e.Old ≠ e.New ∧
      ∃ prev cur : Revision, e.RevisionID = cur.ID ∧
        ((prev.WorkItemTypeID ≠ cur.WorkItemTypeID ∧ e.Name = "workitemtype" ∧
            e.Old = .uuid prev.WorkItemTypeID ∧ e.New = .uuid cur.WorkItemTypeID) ∨
          prev.WorkItemTypeID = cur.WorkItemTypeID) := by
  intro e he
  rcases List_ok_cases r wiID evs hok with rfl | ⟨revs, _, hrun⟩
  · cases he
  · obtain ⟨pre, prev, cur, post, b, _, hb, heb⟩ := diffRevisions_mem r revs evs hrun e he
    have hkey : deepEqual e.Old e.New = false ∧
        ((prev.WorkItemTypeID ≠ cur.WorkItemTypeID ∧ e.Name = "workitemtype" ∧
            e.Old = .uuid prev.WorkItemTypeID ∧ e.New = .uuid cur.WorkItemTypeID) ∨
          prev.WorkItemTypeID = cur.WorkItemTypeID) := by
      by_cases hty : prev.WorkItemTypeID = cur.WorkItemTypeID
      · obtain ⟨wit, m, _, _, hf⟩ := diffPair_same_type r prev cur b hty hb
        obtain ⟨name, d, b1, _, hb1, he1⟩ := diffFields_mem _ _ _ _ _ hf e heb
        rcases diffField_ok_shape _ _ _ _ _ _ hb1 with rfl | ⟨p, n, hpn, rfl⟩
        · cases he1
        · simp only [List.mem_singleton] at he1
          subst he1
          exact ⟨hpn, Or.inr hty⟩
      · obtain ⟨m, _, rfl⟩ := diffPair_type_change r prev cur b hty hb
        simp only [List.mem_singleton] at heb
        subst heb
        refine ⟨?_, Or.inl ⟨hty, rfl, rfl, rfl⟩⟩
        simp [typeChangeEvent, deepEqual, hty]
    refine ⟨hkey.1, (deepEqual_false_iff _ _).1 hkey.1, prev, cur, ?_, hkey.2⟩
    exact diffPair_revisionID r prev cur b hb e heb

/-- C18 on the history `rev0, rev1, rev2`: three events, each with an old value that
is not deeply equal to its new value. -/
theorem every_event_is_a_change_witness :
    (((exampleRepo (some [rev0, rev1, rev2])).List 5).events.getD []).length = 3 ∧
    ∀ e ∈ ((exampleRepo (some [rev0, rev1, rev2])).List 5).events.getD [],
      deepEqual e.Old e.New = false :=
  ⟨by decide, fun e he =>
    (every_event_is_a_change (exampleRepo (some [rev0, rev1, rev2])) 5
      (((exampleRepo (some [rev0, rev1, rev2])).List 5).events.getD []) rfl e he).1⟩

/-! ## C19: keys outside the schema -/

/-- The field iteration reads the two revisions only through the id, timestamp and
type id of the new one and the two stored values of the field. -/
theorem diffField_congr (o n o2 n2 : Revision) (m : Identity) (name : String)
    (d : FieldDefinition) (acc : List Event)
    (hid : n2.ID = n.ID) (htime : n2.Time = n.Time)
    (htype : n2.WorkItemTypeID = n.WorkItemTypeID)
    (hold : Fields.get o2.WorkItemFields name = Fields.get o.WorkItemFields name)
    (hnew : Fields.get n2.WorkItemFields name = Fields.get n.WorkItemFields name) :
    diffField o2 n2 m name d acc = diffField o n m name d acc := by
  unfold diffField
  simp only [hid, htime, htype, hold, hnew]

theorem diffFields_congr (o n o2 n2 : Revision) (m : Identity)
    (fields : List (String × FieldDefinition)) (acc : List Event)
    (hid : n2.ID = n.ID) (htime : n2.Time = n.Time)
    (htype : n2.WorkItemTypeID = n.WorkItemTypeID)
    (hvalues : ∀ name ∈ fields.map Prod.fst,
      Fields.get o2.WorkItemFields name = Fields.get o.WorkItemFields name ∧
      Fields.get n2.WorkItemFields name = Fields.get n.WorkItemFields name) :
    diffFields o2 n2 m fields acc = diffFields o n m fields acc := by
  induction fields generalizing acc with
  | nil => rfl
  | cons fd fields ih =>
    obtain ⟨name, d⟩ := fd
    have h1 := hvalues name (by simp)
    have h2 : ∀ name ∈ fields.map Prod.fst,
        Fields.get o2.WorkItemFields name = Fields.get o.WorkItemFields name ∧
        Fields.get n2.WorkItemFields name = Fields.get n.WorkItemFields name :=
      fun k hk => hvalues k (by simp only [List.map_cons]; exact List.mem_cons_of_mem _ hk)
    simp only [diffFields, diffField_congr o n o2 n2 m name d acc hid htime htype h1.1 h1.2]
    cases diffField o n m name d acc with
    | error e => rfl
    | ok b => exact ih b h2

/-- C19: for every adjacent pair `(prev, cur)` of one work item type whose schema
`wit` is loaded for the type of `prev`: (1) in a successful call with pairwise
distinct revision ids every event that carries the id of `cur` is named after a
field of `wit`, so a key `K` that `wit` does not define has no event for the pair;
(2) the pair iteration, error or event list, is the same for all revisions
`prev2`, `cur2` with the metadata of `prev`, `cur` whose stored values agree with
those of `prev`, `cur` on the fields of `wit`: keys outside the schema are never
read, whatever their old and new values are. -/
theorem only_schema_fields_are_reported (r : GormEventRepository) (wiID : UUID)
    (pre : List Revision) (prev cur : Revision) (post : List Revision) (wit : WorkItemType)
    (hrevs : (r.wiRevisionRepo wiID).revisions = some (pre ++ prev :: cur :: post))
    (hty : prev.WorkItemTypeID = cur.WorkItemTypeID)
    (hwit : r.workItemTypeRepo prev.WorkItemTypeID = .ok wit) :
    (∀ evs, ((pre ++ prev :: cur :: post).map (fun rev => rev.ID)).Nodup →
      r.List wiID = { events := some evs, err := none } →
      (∀ e ∈ evs, e.RevisionID = cur.ID → e.Name ∈ wit.Fields.map Prod.fst) ∧
      ∀ K, K ∉ wit.Fields.map Prod.fst →
        evs.filter (fun e => e.RevisionID == cur.ID && e.Name == K) = []) ∧
    (∀ (prev2 cur2 : Revision) (acc : List Event),
      prev2.WorkItemTypeID = prev.WorkItemTypeID →
      cur2.ID = cur.ID → cur2.Time = cur.Time →
      cur2.ModifierIdentity = cur.ModifierIdentity →
      cur2.WorkItemTypeID = cur.WorkItemTypeID →
      (∀ name ∈ wit.Fields.map Prod.fst,
        Fields.get prev2.WorkItemFields name = Fields.get prev.WorkItemFields name ∧
        Fields.get cur2.WorkItemFields name = Fields.get cur.WorkItemFields name) →
      r.diffPair prev2 cur2 acc = r.diffPair prev cur acc) := by
  constructor
  · intro evs hids hok
    have hrun := List_ok_diffRevisions r wiID _ evs hrevs hok
    obtain ⟨b, hb, hfilter⟩ :=
      diffRevisions_filter_revisionID r pre prev cur post evs hids hrun
    obtain ⟨wit1, m, hwit1, _, hfields⟩ := diffPair_same_type r prev cur b hty hb
    rw [hwit] at hwit1
    cases hwit1
    have hnames : ∀ e ∈ evs, e.RevisionID = cur.ID → e.Name ∈ wit.Fields.map Prod.fst := by
      intro e he hid
      have hmem : e ∈ b := by
        rw [← hfilter, List.mem_filter]
        exact ⟨he, by simpa using hid⟩
      exact diffFields_names prev cur m wit.Fields b hfields e hmem
    refine ⟨hnames, ?_⟩
    intro K hK
    rw [List.filter_eq_nil_iff]
    intro e he hcond
    simp only [Bool.and_eq_true, beq_iff_eq] at hcond
    exact hK (hcond.2 ▸ hnames e he hcond.1)
  · intro prev2 cur2 acc htype2 hid htime hmod hctype hvalues
    unfold GormEventRepository.diffPair
    rw [htype2, hmod, hwit, hctype]
    cases r.identityRepo cur.ModifierIdentity with
    | error e => rfl
    | ok m =>
      simp only [hty, bne_self_eq_false, Bool.false_eq_true, ↓reduceIte]
      exact diffFields_congr prev cur prev2 cur2 m wit.Fields acc hid htime hctype hvalues

/-- C19 on the history `rev10, rev11`, which differ only in the key "undeclared" that
the schema does not define (a string before, a slice after): `List` succeeds with no
event. -/
theorem only_schema_fields_are_reported_witness :
    Fields.get rev10.WorkItemFields "undeclared" = .str "before" ∧
    Fields.get rev11.WorkItemFields "undeclared" = .slice [.int 1] ∧
    (exampleRepo (some [rev10, rev11])).List 5 = { events := some [], err := none } ∧
    ((((exampleRepo (some [rev10, rev11])).List 5).events.getD []).filter
      (fun e => e.RevisionID == rev11.ID && e.Name == "undeclared")) = [] :=
  ⟨rfl, rfl, rfl,
   ((only_schema_fields_are_reported (exampleRepo (some [rev10, rev11])) 5 [] rev10 rev11 []
      exampleType rfl rfl rfl).1
      (((exampleRepo (some [rev10, rev11])).List 5).events.getD []) (by decide) rfl).2
      "undeclared" (by decide)⟩

/-! ## C20: the order in which the fields of a schema are visited -/

/-- Visiting the fields in another order yields a permutation of the events, when the
loop over the fields succeeds. -/
theorem diffFields_perm (oldRev newRev : Revision) (m : Identity)
    (l1 l2 : List (String × FieldDefinition)) (hperm : l1.Perm l2) :
    ∀ evs1, diffFields oldRev newRev m l1 [] = .ok evs1 →
      ∃ evs2, diffFields oldRev newRev m l2 [] = .ok evs2 ∧ evs1.Perm evs2 := by
  induction hperm with
  | nil =>
    intro evs1 h
    exact ⟨evs1, h, List.Perm.refl _⟩
  | cons x _ ih =>
    intro evs1 h
    obtain ⟨name, d⟩ := x
    obtain ⟨e1, e2, h1, h2, rfl⟩ := (diffFields_cons_ok _ _ _ _ _ _ _).1 h
    obtain ⟨e3, h3, hp⟩ := ih e2 h2
    exact ⟨e1 ++ e3, (diffFields_cons_ok _ _ _ _ _ _ _).2 ⟨e1, e3, h1, h3, rfl⟩,
      List.Perm.append_left e1 hp⟩
  | swap x y l =>
    intro evs1 h
    obtain ⟨nx, dx⟩ := x
    obtain ⟨ny, dy⟩ := y
    obtain ⟨ey, e2, hy, h2, rfl⟩ := (diffFields_cons_ok _ _ _ _ _ _ _).1 h
    obtain ⟨ex, el, hx, hl, rfl⟩ := (diffFields_cons_ok _ _ _ _ _ _ _).1 h2
    refine ⟨ex ++ (ey ++ el), ?_, ?_⟩
    · exact (diffFields_cons_ok _ _ _ _ _ _ _).2
        ⟨ex, ey ++ el, hx, (diffFields_cons_ok _ _ _ _ _ _ _).2 ⟨ey, el, hy, hl, rfl⟩, rfl⟩
    · rw [← List.append_assoc, ← List.append_assoc]
      exact List.Perm.append_right el List.perm_append_comm
  | trans _ _ ih1 ih2 =>
    intro evs1 h
    obtain ⟨evs2, h2, hp2⟩ := ih1 evs1 h
    obtain ⟨evs3, h3, hp3⟩ := ih2 evs2 h2
    exact ⟨evs3, h3, hp2.trans hp3⟩

/-- Two repositories load the same schemas up to the order of the fields. -/
theorem diffPair_perm (r1 r2 : GormEventRepository) (prev cur : Revision)
    (hschema : ∀ id,
      (∃ e, r1.workItemTypeRepo id = .error e ∧ r2.workItemTypeRepo id = .error e) ∨
      (∃ w1 w2, r1.workItemTypeRepo id = .ok w1 ∧ r2.workItemTypeRepo id = .ok w2 ∧
        w1.Fields.Perm w2.Fields))
    (hident : r2.identityRepo = r1.identityRepo) :
    ∀ b1, r1.diffPair prev cur [] = .ok b1 →
      ∃ b2, r2.diffPair prev cur [] = .ok b2 ∧ b1.Perm b2 := by
  intro b1 h
  by_cases hty : prev.WorkItemTypeID = cur.WorkItemTypeID
  · obtain ⟨w1, m, hw1, hm, hf⟩ := diffPair_same_type r1 prev cur b1 hty h
    rcases hschema prev.WorkItemTypeID with ⟨e, he, _⟩ | ⟨w1b, w2, hw1b, hw2, hperm⟩
    · rw [hw1] at he
      cases he
    · rw [hw1] at hw1b
      cases hw1b
      obtain ⟨b2, hb2, hp⟩ := diffFields_perm prev cur m w1.Fields w2.Fields hperm b1 hf
      refine ⟨b2, ?_, hp⟩
      rw [diffPair_same_type_eq r2 prev cur w2 m [] hty hw2 (by rw [hident]; exact hm)]
      exact hb2
  · obtain ⟨m, hm, rfl⟩ := diffPair_type_change r1 prev cur b1 hty h
    refine ⟨[typeChangeEvent prev cur m], ?_, List.Perm.refl _⟩
    rcases hschema prev.WorkItemTypeID with ⟨e, he, _⟩ | ⟨w1, w2, _, hw2, _⟩
    · unfold GormEventRepository.diffPair at h
      rw [he] at h
      cases h
    · unfold GormEventRepository.diffPair
      rw [hw2, hident, hm]
      simp [hty]

/-- The events of the two runs, pair by pair. -/
theorem diffRevisions_perm (r1 r2 : GormEventRepository) (revs : List Revision)
    (hschema : ∀ id,
      (∃ e, r1.workItemTypeRepo id = .error e ∧ r2.workItemTypeRepo id = .error e) ∨
      (∃ w1 w2, r1.workItemTypeRepo id = .ok w1 ∧ r2.workItemTypeRepo id = .ok w2 ∧
        w1.Fields.Perm w2.Fields))
    (hident : r2.identityRepo = r1.identityRepo) :
    ∀ evs1, r1.diffRevisions revs [] = .ok evs1 →
      ∃ evs2 g1 g2, r2.diffRevisions revs [] = .ok evs2 ∧
        List.Forall₂ (fun pc g => r1.diffPair pc.1 pc.2 [] = .ok g) (revs.zip revs.tail) g1 ∧
        List.Forall₂ (fun pc g => r2.diffPair pc.1 pc.2 [] = .ok g) (revs.zip revs.tail) g2 ∧
        evs1 = g1.flatten ∧ evs2 = g2.flatten ∧ List.Forall₂ List.Perm g1 g2 := by
  induction revs with
  | nil =>
    intro evs1 h
    simp only [diffRevisions_nil, Except.ok.injEq] at h
    subst h
    exact ⟨[], [], [], diffRevisions_nil r2 [], by simp, by simp, rfl, rfl, by simp⟩
  | cons x rest ih =>
    cases rest with
    | nil =>
      intro evs1 h
      simp only [diffRevisions_single, Except.ok.injEq] at h
      subst h
      exact ⟨[], [], [], diffRevisions_single r2 x [], by simp, by simp, rfl, rfl, by simp⟩
    | cons y rest =>
      intro evs1 h
      obtain ⟨e1, e2, h1, h2, rfl⟩ := (diffRevisions_cons_ok r1 x y rest evs1).1 h
      obtain ⟨b2, hb2, hp⟩ := diffPair_perm r1 r2 x y hschema hident e1 h1
      obtain ⟨evs2, g1, g2, hrun2, hg1, hg2, hf1, hf2, hperm⟩ := ih e2 h2
      refine ⟨b2 ++ evs2, e1 :: g1, b2 :: g2, ?_, ?_, ?_, ?_, ?_, ?_⟩
      · exact (diffRevisions_cons_ok r2 x y rest _).2 ⟨b2, evs2, hb2, hrun2, rfl⟩
      · simp only [List.tail_cons, List.zip_cons_cons, List.forall₂_cons]
        exact ⟨h1, hg1⟩
      · simp only [List.tail_cons, List.zip_cons_cons, List.forall₂_cons]
        exact ⟨hb2, hg2⟩
      · rw [hf1]; simp
      · rw [hf2]; simp
      · exact List.Forall₂.cons hp hperm

/-- The result of `List` once the listing and the existence check have passed. -/
theorem List_of_diffRevisions (r : GormEventRepository) (wiID : UUID)
    (revs : List Revision)
    (herr : (r.wiRevisionRepo wiID).err = none)
    (hrevs : (r.wiRevisionRepo wiID).revisions = some revs)
    (hex : r.workItemRepo wiID = none) :
    r.List wiID =
      match r.diffRevisions revs [] with
      | .error e => { events := none, err := some e }
      | .ok evs => { events := some evs, err := none } := by
  unfold GormEventRepository.List
  simp only [herr, hrevs, hex]

/-- One direction of C20: if the first run succeeds, so does the second. -/
theorem List_perm_of_ok (r1 r2 : GormEventRepository) (wiID : UUID)
    (hschema : ∀ id,
      (∃ e, r1.workItemTypeRepo id = .error e ∧ r2.workItemTypeRepo id = .error e) ∨
      (∃ w1 w2, r1.workItemTypeRepo id = .ok w1 ∧ r2.workItemTypeRepo id = .ok w2 ∧
        w1.Fields.Perm w2.Fields))
    (hident : r2.identityRepo = r1.identityRepo)
    (hlist : r2.wiRevisionRepo = r1.wiRevisionRepo)
    (hexists : r2.workItemRepo = r1.workItemRepo)
    (evs1 : List Event) (h : r1.List wiID = { events := some evs1, err := none }) :
    ∃ evs2, r2.List wiID = { events := some evs2, err := none } ∧ evs1.Perm evs2 ∧
      ∀ revs, (r1.wiRevisionRepo wiID).revisions = some revs →
        ∃ g1 g2,
          List.Forall₂ (fun pc g => r1.diffPair pc.1 pc.2 [] = .ok g)
            (revs.zip revs.tail) g1 ∧
          List.Forall₂ (fun pc g => r2.diffPair pc.1 pc.2 [] = .ok g)
            (revs.zip revs.tail) g2 ∧
          evs1 = g1.flatten ∧ evs2 = g2.flatten ∧ List.Forall₂ List.Perm g1 g2 := by
  have herr : (r1.wiRevisionRepo wiID).err = none := by
    unfold GormEventRepository.List at h
    cases herr : (r1.wiRevisionRepo wiID).err with
    | none => rfl
    | some e => simp [herr] at h
  cases hrevs : (r1.wiRevisionRepo wiID).revisions with
  | none =>
    have h1 : evs1 = [] := by
      unfold GormEventRepository.List at h
      simp only [herr, hrevs, ListResult.mk.injEq, Option.some.injEq, and_true] at h
      exact h.symm
    subst h1
    refine ⟨[], ?_, List.Perm.refl _, ?_⟩
    · unfold GormEventRepository.List
      simp [hlist, herr, hrevs]
    · intro revs hsome
      cases hsome
  | some revs =>
    have hex : r1.workItemRepo wiID = none := by
      unfold GormEventRepository.List at h
      cases hex : r1.workItemRepo wiID with
      | none => rfl
      | some e => simp [herr, hrevs, hex] at h
    have hrun := List_ok_diffRevisions r1 wiID revs evs1 hrevs h
    obtain ⟨evs2, g1, g2, hrun2, hg1, hg2, hf1, hf2, hperm⟩ :=
      diffRevisions_perm r1 r2 revs hschema hident evs1 hrun
    refine ⟨evs2, ?_, ?_, ?_⟩
    · have := List_of_diffRevisions r2 wiID revs (by rw [hlist]; exact herr)
        (by rw [hlist]; exact hrevs) (by rw [hexists]; exact hex)
      rw [hrun2] at this
      exact this
    · rw [hf1, hf2]
      exact List.Perm.flatten_congr hperm
    · intro revs2 hsome
      cases hsome
      exact ⟨g1, g2, hg1, hg2, hf1, hf2, hperm⟩


/-- C20: let two repositories agree on the revision listing, the existence check and
the identities, and load for every type id the same error or schemas whose field
lists are permutations of one another. Then (1) `List` returns an error on one
exactly when it does on the other; (2) when both succeed, the events of each
adjacent pair of the one run are a permutation of the events of the same pair of the
other run, the two outputs are these groups concatenated in pair order, and so the
outputs are permutations of one another. -/
theorem field_order_independent (r1 r2 : GormEventRepository) (wiID : UUID)
    (hschema : ∀ id,
      (∃ e, r1.workItemTypeRepo id = .error e ∧ r2.workItemTypeRepo id = .error e) ∨
      (∃ w1 w2, r1.workItemTypeRepo id = .ok w1 ∧ r2.workItemTypeRepo id = .ok w2 ∧
        w1.Fields.Perm w2.Fields))
    (hident : r2.identityRepo = r1.identityRepo)
    (hlist : r2.wiRevisionRepo = r1.wiRevisionRepo)
    (hexists : r2.workItemRepo = r1.workItemRepo) :
    ((r1.List wiID).err = none ↔ (r2.List wiID).err = none) ∧
    ∀ evs1 evs2,
      r1.List wiID = { events := some evs1, err := none } →
      r2.List wiID = { events := some evs2, err := none } →
      evs1.Perm evs2 ∧
      ∀ revs, (r1.wiRevisionRepo wiID).revisions = some revs →
        ∃ g1 g2,
          List.Forall₂ (fun pc g => r1.diffPair pc.1 pc.2 [] = .ok g)
            (revs.zip revs.tail) g1 ∧
          List.Forall₂ (fun pc g => r2.diffPair pc.1 pc.2 [] = .ok g)
            (revs.zip revs.tail) g2 ∧
          evs1 = g1.flatten ∧ evs2 = g2.flatten ∧ List.Forall₂ List.Perm g1 g2 := by
  have hschema2 : ∀ id,
      (∃ e, r2.workItemTypeRepo id = .error e ∧ r1.workItemTypeRepo id = .error e) ∨
      (∃ w1 w2, r2.workItemTypeRepo id = .ok w1 ∧ r1.workItemTypeRepo id = .ok w2 ∧
        w1.Fields.Perm w2.Fields) := by
    intro id
    rcases hschema id with ⟨e, h1, h2⟩ | ⟨w1, w2, h1, h2, hp⟩
    · exact Or.inl ⟨e, h2, h1⟩
    · exact Or.inr ⟨w2, w1, h2, h1, hp.symm⟩
  refine ⟨⟨?_, ?_⟩, ?_⟩
  · intro h
    rcases List_result_cases r1 wiID with ⟨e, he⟩ | ⟨evs1, hevs1⟩
    · rw [he] at h
      cases h
    · obtain ⟨evs2, h2, _⟩ :=
        List_perm_of_ok r1 r2 wiID hschema hident hlist hexists evs1 hevs1
      rw [h2]
  · intro h
    rcases List_result_cases r2 wiID with ⟨e, he⟩ | ⟨evs2, hevs2⟩
    · rw [he] at h
      cases h
    · obtain ⟨evs1, h1, _⟩ :=
        List_perm_of_ok r2 r1 wiID hschema2 hident.symm hlist.symm hexists.symm evs2 hevs2
      rw [h1]
  · intro evs1 evs2 h1 h2
    obtain ⟨evs3, h3, hperm, hgroups⟩ :=
      List_perm_of_ok r1 r2 wiID hschema hident hlist hexists evs1 h1
    rw [h2] at h3
    simp only [ListResult.mk.injEq, Option.some.injEq, and_true] at h3
    subst h3
    exact ⟨hperm, hgroups⟩

/-- C20 on the history `rev0, rev1, rev2` with the schema fields visited in the orders
title, state, labels and labels, title, state: the two events of the pair
`(rev0, rev1)` come in the two orders, the event of the pair `(rev1, rev2)` is last
in both, and the outputs are permutations of one another. -/
theorem field_order_independent_witness :
    ((exampleRepo (some [rev0, rev1, rev2])).List 5).events.map
        (fun evs => evs.map (fun e => (e.RevisionID, e.Name)))
      = some [(101, "state"), (101, "labels"), (102, "workitemtype")] ∧
    ((exampleRepoReordered (some [rev0, rev1, rev2])).List 5).events.map
        (fun evs => evs.map (fun e => (e.RevisionID, e.Name)))
      = some [(101, "labels"), (101, "state"), (102, "workitemtype")] ∧
    (((exampleRepo (some [rev0, rev1, rev2])).List 5).events.getD []).Perm
      (((exampleRepoReordered (some [rev0, rev1, rev2])).List 5).events.getD []) :=
  ⟨by decide, by decide,
   ((field_order_independent (exampleRepo (some [rev0, rev1, rev2]))
      (exampleRepoReordered (some [rev0, rev1, rev2])) 5
      (fun _ => Or.inr ⟨exampleType, exampleTypeReordered, rfl, rfl,
        (List.perm_append_comm :
          List.Perm
            (([("title", { Type_ := .simple exampleStringType }),
               ("state", { Type_ := .enum exampleStateEnum })] :
                List (String × FieldDefinition)) ++
             [("labels", { Type_ := .list exampleLabelsType })]) _)⟩)
      rfl rfl rfl).2
      (((exampleRepo (some [rev0, rev1, rev2])).List 5).events.getD [])
      (((exampleRepoReordered (some [rev0, rev1, rev2])).List 5).events.getD [])
      rfl rfl).1⟩

end event

namespace controller

/-! ## C13: validation of the create payload -/

/-- C13: `validateCreateTrackerQueryPayload` returns an error exactly when the query
text is empty, or the schedule is empty, or the tracker id is the nil UUID, or the
space id is the nil UUID; every error it returns is a bad parameter error; it
returns no error when all four are non-empty and non-nil; and the parameter it
reports is the first failing one in the order Query, Schedule, TrackerID, SpaceID. -/
theorem validate_create_payload (p : CreateTrackerQueryPayload) :
    ((∃ e, validateCreateTrackerQueryPayload p = .returned (some e)) ↔
      (p.Query = "" ∨ p.Schedule = "" ∨ p.TrackerID = uuid.Nil ∨
        p.SpaceID = some uuid.Nil)) ∧
    (∀ e, validateCreateTrackerQueryPayload p = .returned (some e) →
      ∃ parameter value expected, e = .badParameter parameter value expected) ∧
    (∀ spaceID, p.Query ≠ "" → p.Schedule ≠ "" → p.TrackerID ≠ uuid.Nil →
      p.SpaceID = some spaceID → spaceID ≠ uuid.Nil →
      validateCreateTrackerQueryPayload p = .returned none) ∧
    (p.Query = "" →
      validateCreateTrackerQueryPayload p =
        .returned (some (.badParameter "Query" (.str "") "not empty"))) ∧
    (p.Query ≠ "" → p.Schedule = "" →
      validateCreateTrackerQueryPayload p =
        .returned (some (.badParameter "Schedule" (.str "") "not empty"))) ∧
    (p.Query ≠ "" → p.Schedule ≠ "" → p.TrackerID = uuid.Nil →
      validateCreateTrackerQueryPayload p =
        .returned (some (.badParameter "TrackerID" .null "not nil"))) ∧
    (p.Query ≠ "" → p.Schedule ≠ "" → p.TrackerID ≠ uuid.Nil →
      p.SpaceID = some uuid.Nil →
      validateCreateTrackerQueryPayload p =
        .returned (some (.badParameter "SpaceID" .null "not nil"))) := by
  unfold validateCreateTrackerQueryPayload
  by_cases hq : p.Query = ""
  · simp [hq]
  · by_cases hs : p.Schedule = ""
    · simp [hq, hs]
    · by_cases ht : p.TrackerID = uuid.Nil
      · simp [hq, hs, ht]
      · cases hsp : p.SpaceID with
        | none => simp [hq, hs, ht]
        | some spaceID =>
          by_cases hn : spaceID = uuid.Nil
          · simp [hq, hs, ht, hn]
          · simp [hq, hs, ht, hn]

/-- C13 on four payloads: the example payload passes; with an empty query and an
empty schedule the query is reported; with the nil tracker id and the nil space id
the tracker id is reported; with the nil space id alone the space id is reported. -/
theorem validate_create_payload_witness :
    validateCreateTrackerQueryPayload examplePayload = .returned none ∧
    validateCreateTrackerQueryPayload { examplePayload with Query := "", Schedule := "" }
      = .returned (some (.badParameter "Query" (.str "") "not empty")) ∧
    validateCreateTrackerQueryPayload
        { examplePayload with TrackerID := 0, SpaceID := some 0 }
      = .returned (some (.badParameter "TrackerID" .null "not nil")) ∧
    validateCreateTrackerQueryPayload { examplePayload with SpaceID := some 0 }
      = .returned (some (.badParameter "SpaceID" .null "not nil")) :=
  ⟨(validate_create_payload examplePayload).2.2.1 4
      (by decide) (by decide) (by decide) rfl (by decide),
   (validate_create_payload { examplePayload with Query := "", Schedule := "" }).2.2.2.1 rfl,
   (validate_create_payload
      { examplePayload with TrackerID := 0, SpaceID := some 0 }).2.2.2.2.2.1
      (by decide) (by decide) rfl,
   (validate_create_payload { examplePayload with SpaceID := some 0 }).2.2.2.2.2.2
      (by decide) (by decide) (by decide) rfl⟩

/-! ## C15: no mutation without the contribute scope -/

/-- The closure of the first transaction of `Create` makes no recorded call. -/
theorem createChecks_trace (c : TrackerqueryController) (ctx : CreateTrackerqueryContext)
    (trace : List Action) : (createChecks c ctx trace).trace = trace := by
  unfold createChecks
  repeat' split
  all_goals rfl

/-- C15: when the scope check for "contribute" on the space of the payload fails,
the calls made by `Create` contain no call that persists or deletes; when the scope
check on the space of the loaded tracker query fails, the calls made by `Delete`
contain no call that persists or deletes, whatever the cascade flag is. -/
theorem no_mutation_without_contribute_scope (c : TrackerqueryController) :
    (∀ ctx : CreateTrackerqueryContext,
      (∀ s, ctx.Payload.SpaceID = some s → c.requireScope s "contribute" ≠ none) →
      ∀ a ∈ (c.Create ctx).trace, a.isMutation = false) ∧
    (∀ ctx : DeleteTrackerqueryContext,
      (∀ tq, c.trackerQueriesLoad ctx.ID = .ok tq →
        c.requireScope tq.SpaceID "contribute" ≠ none) →
      ∀ a ∈ (c.Delete ctx).trace, a.isMutation = false) := by
  constructor
  · intro ctx hscope a ha
    unfold TrackerqueryController.Create at ha
    split at ha
    · simp only [respondWithError, List.nil_append, List.mem_singleton] at ha
      subst ha
      rfl
    · split at ha
      · cases ha
      · simp only [respondWithError, List.nil_append, List.mem_singleton] at ha
        subst ha
        rfl
      · split at ha
        · cases ha
        · rename_i spaceID hspace
          cases hreq : c.requireScope spaceID "contribute" with
          | none => exact absurd hreq (hscope spaceID hspace)
          | some err =>
            simp only [hreq, respondWithError, List.nil_append, List.mem_singleton] at ha
            subst ha
            rfl
  · intro ctx hscope a ha
    unfold TrackerqueryController.Delete at ha
    split at ha
    · simp only [respondWithError, List.nil_append, List.mem_singleton] at ha
      subst ha
      rfl
    · rename_i identity _
      have htx : ∀ b ∈ (deleteTransaction c ctx identity []).trace, b.isMutation = false := by
        intro b hb
        unfold deleteTransaction at hb
        cases hload : c.trackerQueriesLoad ctx.ID with
        | error err =>
          simp only [hload] at hb
          cases hb
        | ok tq =>
          cases hreq : c.requireScope tq.SpaceID "contribute" with
          | none => exact absurd hreq (hscope tq hload)
          | some err =>
            simp only [hload, hreq, respondWithError, List.nil_append,
              List.mem_singleton] at hb
            subst hb
            rfl
      simp only [Transactional] at ha
      split at ha
      · exact htx a ha
      · simp only [respondWithError, List.mem_append, List.mem_singleton] at ha
        rcases ha with ha | ha
        · exact htx a ha
        · subst ha
          rfl
      · simp only [List.mem_append, List.mem_cons, List.mem_singleton, List.not_mem_nil,
          or_false] at ha
        rcases ha with ha | ha | ha
        · exact htx a ha
        · subst ha
          rfl
        · subst ha
          rfl

/-- C15 on a caller without the scope: `Create` of the example payload and `Delete`
with the cascade flag set make no persisting or deleting call, although the search
would find two work items. -/
theorem no_mutation_without_contribute_scope_witness :
    ((deniedController { wiList := [{ ID := 21 }, { ID := 22 }], count := 2, err := none }).Create
        (exampleCreateContext examplePayload)).trace
      = [.jsonErrorResponse (.external "missing scope")] ∧
    (∀ a ∈ ((deniedController
        { wiList := [{ ID := 21 }, { ID := 22 }], count := 2, err := none }).Delete
        (exampleDeleteContext true)).trace, a.isMutation = false) :=
  ⟨rfl,
   (no_mutation_without_contribute_scope
      (deniedController { wiList := [{ ID := 21 }, { ID := 22 }], count := 2, err := none })).2
      (exampleDeleteContext true) (fun _ _ => by simp [deniedController])⟩

/-! ## C16: the scheduler runs once, after the mutation -/

/-- The loop over the found work items only appends calls that delete a work item. -/
theorem deleteWorkItems_trace (c : TrackerqueryController) (identity : UUID)
    (wiList : List WorkItem) (left i : Nat) (trace : List Action) :
    ∃ ds, (∀ a ∈ ds, ∃ id, a = .workItemsDelete id identity) ∧
      match deleteWorkItems c identity wiList left i trace with
      | .completed t => t = trace ++ ds
      | .exited run => run.trace = trace ++ ds := by
  induction left generalizing i trace with
  | zero => exact ⟨[], by simp, by simp [deleteWorkItems]⟩
  | succ left ih =>
    cases hget : wiList[i]? with
    | none => exact ⟨[], by simp, by simp [deleteWorkItems, hget]⟩
    | some wi =>
      cases hdel : c.workItemsDelete trace wi.ID identity with
      | some err =>
        refine ⟨[.workItemsDelete wi.ID identity], ?_, by simp [deleteWorkItems, hget, hdel]⟩
        intro a ha
        exact ⟨wi.ID, by simpa using ha⟩
      | none =>
        obtain ⟨ds, hds, hres⟩ := ih (i + 1) (trace ++ [.workItemsDelete wi.ID identity])
        refine ⟨.workItemsDelete wi.ID identity :: ds, ?_, ?_⟩
        · intro a ha
          rcases List.mem_cons.1 ha with rfl | ha
          · exact ⟨wi.ID, rfl⟩
          · exact hds a ha
        · simp only [deleteWorkItems, hget, hdel]
          cases hloop : deleteWorkItems c identity wiList left (i + 1)
              (trace ++ [.workItemsDelete wi.ID identity]) with
          | completed t =>
            rw [hloop] at hres
            simpa using hres
          | exited run =>
            rw [hloop] at hres
            simpa using hres

/-- The cascade only appends calls that delete a work item. -/
theorem deleteCascade_trace (c : TrackerqueryController) (ctx : DeleteTrackerqueryContext)
    (identity : UUID) (tq : TrackerQuery) (trace : List Action) :
    ∃ ds, (∀ a ∈ ds, ∃ id, a = .workItemsDelete id identity) ∧
      match deleteCascade c ctx identity tq trace with
      | .completed t => t = trace ++ ds
      | .exited run => run.trace = trace ++ ds := by
  cases hflag : ctx.DeleteWi with
  | false => exact ⟨[], by simp, by simp [deleteCascade, hflag]⟩
  | true =>
    cases herr : (c.searchItemsFilter tq.SpaceID ctx.ID).err with
    | some err =>
      cases hbad : err.cause.isBadParameter with
      | true => exact ⟨[], by simp, by simp [deleteCascade, hflag, herr, hbad]⟩
      | false => exact ⟨[], by simp, by simp [deleteCascade, hflag, herr, hbad]⟩
    | none =>
      have h := deleteWorkItems_trace c identity (c.searchItemsFilter tq.SpaceID ctx.ID).wiList
        (c.searchItemsFilter tq.SpaceID ctx.ID).count.toNat 0 trace
      simpa [deleteCascade, hflag, herr] using h

/-- The calls of the transaction of `Delete`: calls that delete work items, followed
either by nothing or an error response, or by the call that deletes the tracker
query, whose answer is then the result. -/
theorem deleteTransaction_cases (c : TrackerqueryController)
    (ctx : DeleteTrackerqueryContext) (identity : UUID) :
    (∀ a ∈ (deleteTransaction c ctx identity []).trace,
        (∃ id, a = .workItemsDelete id identity) ∨ ∃ err, a = .jsonErrorResponse err) ∨
    (∃ (tq : TrackerQuery) (ds : List Action),
      (∀ a ∈ ds, ∃ id, a = .workItemsDelete id identity) ∧
      (deleteTransaction c ctx identity []).trace = ds ++ [.trackerQueriesDelete tq.ID] ∧
      (deleteTransaction c ctx identity []).result
        = .returned (c.trackerQueriesDelete ds tq.ID)) := by
  cases hload : c.trackerQueriesLoad ctx.ID with
  | error err => exact Or.inl (by simp [deleteTransaction, hload])
  | ok tq =>
    cases hreq : c.requireScope tq.SpaceID "contribute" with
    | some err =>
      left
      intro a ha
      simp only [deleteTransaction, hload, hreq, respondWithError, List.nil_append,
        List.mem_singleton] at ha
      exact Or.inr ⟨err, ha⟩
    | none =>
      obtain ⟨ds, hds, hres⟩ := deleteCascade_trace c ctx identity tq []
      cases hcas : deleteCascade c ctx identity tq [] with
      | exited run =>
        rw [hcas] at hres
        simp only [List.nil_append] at hres
        left
        intro a ha
        simp only [deleteTransaction, hload, hreq, hcas] at ha
        rw [hres] at ha
        exact Or.inl (hds a ha)
      | completed t =>
        rw [hcas] at hres
        simp only [List.nil_append] at hres
        subst hres
        right
        refine ⟨tq, t, hds, ?_, ?_⟩
        · simp only [deleteTransaction, hload, hreq, hcas]
        · simp only [deleteTransaction, hload, hreq, hcas]

/-- Where an element with a property sits in a list in which no other element has
it. -/
theorem split_unique {α : Type} (P : α → Prop) (l1 l2 l3 l4 : List α) (a b : α)
    (h : l1 ++ a :: l2 = l3 ++ b :: l4) (ha : P a)
    (h3 : ∀ x ∈ l3, ¬ P x) (h4 : ∀ x ∈ l4, ¬ P x) :
    l1 = l3 ∧ a = b ∧ l2 = l4 := by
  induction l1 generalizing l3 with
  | nil =>
    cases l3 with
    | nil =>
      simp only [List.nil_append, List.cons.injEq] at h
      exact ⟨rfl, h.1, h.2⟩
    | cons x l3 =>
      simp only [List.nil_append, List.cons_append, List.cons.injEq] at h
      exact absurd (h.1 ▸ ha) (h3 x (List.mem_cons_self _ _))
  | cons y l1 ih =>
    cases l3 with
    | nil =>
      simp only [List.nil_append, List.cons_append, List.cons.injEq] at h
      have hmem : a ∈ l4 := by rw [← h.2]; simp
      exact absurd ha (h4 a hmem)
    | cons x l3 =>
      simp only [List.cons_append, List.cons.injEq] at h
      obtain ⟨h1, h2, h5⟩ := ih l3 h.2 (fun z hz => h3 z (List.mem_cons_of_mem _ hz))
      exact ⟨by rw [h.1, h1], h2, h5⟩

/-- The calls of `Create`: only error responses; or the creating call, which fails,
and an error response; or the creating call and the created response, whose
writer fails, and an error response; or the creating call, the created response
and the scheduler call, after two transactions that returned no error. -/
theorem Create_cases (c : TrackerqueryController) (ctx : CreateTrackerqueryContext) :
    (∀ a ∈ (c.Create ctx).trace, ∃ err, a = .jsonErrorResponse err) ∨
    (∃ tq err e, c.trackerQueriesCreate tq = .error err ∧
      (c.Create ctx).trace = [.trackerQueriesCreate tq, .jsonErrorResponse e]) ∨
    (∃ tq created e, c.trackerQueriesCreate tq = .ok created ∧
      ctx.Created created = some e ∧
      (c.Create ctx).trace
        = [.trackerQueriesCreate tq, .created created, .jsonErrorResponse e]) ∨
    (∃ tq created, c.trackerQueriesCreate tq = .ok created ∧
      ctx.Created created = none ∧
      (c.Create ctx).trace
        = [.trackerQueriesCreate tq, .created created,
           .scheduleAllQueries (getAccessTokensForTrackerQuery c)] ∧
      (c.Create ctx).result = .returned none ∧
      (Transactional (createChecks c ctx) []).result = .returned none ∧
      (Transactional (createPersist c ctx) []).result = .returned none) := by
  cases hid : ctx.ContextIdentity with
  | error err =>
    left
    intro a ha
    simp only [TrackerqueryController.Create, hid, respondWithError, List.nil_append,
      List.mem_singleton] at ha
    exact ⟨_, ha⟩
  | ok identity =>
    cases hval : validateCreateTrackerQueryPayload ctx.Payload with
    | panicked =>
      left
      intro a ha
      simp [TrackerqueryController.Create, hid, hval] at ha
    | returned verr =>
      cases verr with
      | some err =>
        left
        intro a ha
        simp only [TrackerqueryController.Create, hid, hval, respondWithError,
          List.nil_append, List.mem_singleton] at ha
        exact ⟨_, ha⟩
      | none =>
        cases hspace : ctx.Payload.SpaceID with
        | none =>
          left
          intro a ha
          simp [TrackerqueryController.Create, hid, hval, hspace] at ha
        | some spaceID =>
          cases hreq : c.requireScope spaceID "contribute" with
          | some err =>
            left
            intro a ha
            simp only [TrackerqueryController.Create, hid, hval, hspace, hreq,
              respondWithError, List.nil_append, List.mem_singleton] at ha
            exact ⟨_, ha⟩
          | none =>
            have htr1 := createChecks_trace c ctx []
            cases hres1 : (createChecks c ctx []).result with
            | panicked =>
              left
              intro a ha
              simp only [TrackerqueryController.Create, hid, hval, hspace, hreq,
                Transactional, hres1, htr1] at ha
              cases ha
            | returned cerr =>
              cases cerr with
              | some err =>
                left
                intro a ha
                simp only [TrackerqueryController.Create, hid, hval, hspace, hreq,
                  Transactional, hres1, htr1, respondWithError, List.nil_append,
                  List.mem_singleton] at ha
                exact ⟨_, ha⟩
              | none =>
                right
                cases hcreate : c.trackerQueriesCreate
                    { ID := match ctx.Payload.ID with
                            | some id => id
                            | none => uuid.Nil
                      Query := ctx.Payload.Query
                      Schedule := ctx.Payload.Schedule
                      TrackerID := ctx.Payload.TrackerID
                      SpaceID := spaceID
                      WorkItemTypeID := ctx.Payload.WorkItemTypeID } with
                | error err =>
                  left
                  refine ⟨_, err, .wrapf err "failed to create tracker query %s" .null,
                    hcreate, ?_⟩
                  simp only [TrackerqueryController.Create, hid, hval, hspace, hreq,
                    Transactional, hres1, htr1, createPersist, hcreate, respondWithError,
                    List.nil_append, List.singleton_append]
                | ok created =>
                  right
                  cases hcreated : ctx.Created created with
                  | some e =>
                    left
                    refine ⟨_, created, e, hcreate, hcreated, ?_⟩
                    simp only [TrackerqueryController.Create, hid, hval, hspace, hreq,
                      Transactional, hres1, htr1, createPersist, hcreate, hcreated,
                      respondWithError, List.nil_append, List.cons_append]
                  | none =>
                    right
                    refine ⟨_, created, hcreate, hcreated, ?_, ?_, ?_, ?_⟩
                    · simp only [TrackerqueryController.Create, hid, hval, hspace, hreq,
                        Transactional, hres1, htr1, createPersist, hcreate, hcreated,
                        List.nil_append, List.cons_append]
                    · simp only [TrackerqueryController.Create, hid, hval, hspace, hreq,
                        Transactional, hres1, htr1, createPersist, hcreate, hcreated]
                    · simp only [Transactional, hres1]
                    · simp only [Transactional, createPersist, hspace, hcreate, hcreated]

/-- The calls of `Delete` for an identified caller: the calls of the transaction,
followed by nothing after a panic, by an error response after an error, and by the
scheduler call and the response after no error. -/
theorem Delete_trace (c : TrackerqueryController) (ctx : DeleteTrackerqueryContext)
    (identity : UUID) (hid : ctx.ContextIdentity = .ok identity) :
    (c.Delete ctx).trace = (deleteTransaction c ctx identity []).trace ++
      (match (deleteTransaction c ctx identity []).result with
       | .panicked => []
       | .returned (some e) => [.jsonErrorResponse e]
       | .returned none => [.scheduleAllQueries (getAccessTokensForTrackerQuery c), .ok]) := by
  simp only [TrackerqueryController.Delete, hid, Transactional]
  cases hres : (deleteTransaction c ctx identity []).result with
  | panicked => simp
  | returned e =>
    cases e with
    | some err => simp [respondWithError]
    | none => simp

/-- The transaction of `Delete` makes no scheduler call. -/
theorem deleteTransaction_no_schedule (c : TrackerqueryController)
    (ctx : DeleteTrackerqueryContext) (identity : UUID) :
    ∀ a ∈ (deleteTransaction c ctx identity []).trace, a.isSchedule = false := by
  intro a ha
  rcases deleteTransaction_cases c ctx identity with h | ⟨tq, ds, hds, htrace, _⟩
  · rcases h a ha with ⟨id, rfl⟩ | ⟨err, rfl⟩ <;> rfl
  · rw [htrace] at ha
    rcases List.mem_append.1 ha with ha | ha
    · obtain ⟨id, rfl⟩ := hds a ha
      rfl
    · simp only [List.mem_singleton] at ha
      subst ha
      rfl

/-- C16: (1) when the calls of `Create` contain a creating call that succeeds and the
transaction around it returns no error, the calls are exactly that call, the
created response and one scheduler call, in this order, with the access token map
of the configuration; (2) when the calls of `Delete` contain a call that deletes the
tracker query and succeeds, it is followed by exactly one scheduler call with the
same map and the response, and no scheduler call comes before it; (3) a scheduler
call is made only after all transactions of the action returned no error, and no
action makes more than one. -/
theorem scheduler_once_after_mutation (c : TrackerqueryController) :
    (∀ (ctx : CreateTrackerqueryContext) pre tq post created,
      (c.Create ctx).trace = pre ++ .trackerQueriesCreate tq :: post →
      c.trackerQueriesCreate tq = .ok created → ctx.Created created = none →
      pre = [] ∧
      post = [.created created,
              .scheduleAllQueries [(c.ProviderGithub, c.GetGithubAuthToken)]]) ∧
    (∀ (ctx : DeleteTrackerqueryContext) pre id post,
      (c.Delete ctx).trace = pre ++ .trackerQueriesDelete id :: post →
      c.trackerQueriesDelete pre id = none →
      post = [.scheduleAllQueries [(c.ProviderGithub, c.GetGithubAuthToken)], .ok] ∧
      ∀ a ∈ pre, a.isSchedule = false) ∧
    (∀ ctx : CreateTrackerqueryContext,
      ((∃ a ∈ (c.Create ctx).trace, a.isSchedule = true) →
        (Transactional (createChecks c ctx) []).result = .returned none ∧
        (Transactional (createPersist c ctx) []).result = .returned none) ∧
      ((c.Create ctx).trace.filter Action.isSchedule).length ≤ 1) ∧
    (∀ ctx : DeleteTrackerqueryContext,
      ((∃ a ∈ (c.Delete ctx).trace, a.isSchedule = true) →
        ∃ identity, ctx.ContextIdentity = .ok identity ∧
          (Transactional (deleteTransaction c ctx identity) []).result = .returned none) ∧
      ((c.Delete ctx).trace.filter Action.isSchedule).length ≤ 1) := by
  refine ⟨?_, ?_, ?_, ?_⟩
  · intro ctx pre tq post created htrace hcreate hcreated
    have hP : (fun a : Action => ∃ t, a = .trackerQueriesCreate t) (.trackerQueriesCreate tq) :=
      ⟨tq, rfl⟩
    rcases Create_cases c ctx with h | ⟨tq1, err, e, h1, h2⟩ | ⟨tq1, cr1, e, h1, h2, h3⟩ |
      ⟨tq1, cr1, h1, h2, h3, _⟩
    · have hmem : Action.trackerQueriesCreate tq ∈ (c.Create ctx).trace := by
        rw [htrace]; simp
      obtain ⟨err, herr⟩ := h _ hmem
      cases herr
    · rw [h2] at htrace
      obtain ⟨_, heq, _⟩ := split_unique (fun a : Action => ∃ t, a = .trackerQueriesCreate t)
        pre post [] [.jsonErrorResponse e] (.trackerQueriesCreate tq)
        (.trackerQueriesCreate tq1) htrace.symm hP (by simp) (by simp)
      cases heq
      rw [hcreate] at h1
      cases h1
    · rw [h3] at htrace
      obtain ⟨_, heq, _⟩ := split_unique (fun a : Action => ∃ t, a = .trackerQueriesCreate t)
        pre post [] [.created cr1, .jsonErrorResponse e] (.trackerQueriesCreate tq)
        (.trackerQueriesCreate tq1) htrace.symm hP (by simp) (by simp)
      cases heq
      rw [hcreate] at h1
      cases h1
      rw [hcreated] at h2
      cases h2
    · rw [h3] at htrace
      obtain ⟨hpre, heq, hpost⟩ :=
        split_unique (fun a : Action => ∃ t, a = .trackerQueriesCreate t)
          pre post [] [.created cr1, .scheduleAllQueries (getAccessTokensForTrackerQuery c)]
          (.trackerQueriesCreate tq) (.trackerQueriesCreate tq1) htrace.symm hP
          (by simp) (by simp)
      cases heq
      rw [hcreate] at h1
      cases h1
      exact ⟨hpre, hpost⟩
  · intro ctx pre id post htrace hdelete
    have hP : (fun a : Action => ∃ t, a = .trackerQueriesDelete t) (.trackerQueriesDelete id) :=
      ⟨id, rfl⟩
    cases hid : ctx.ContextIdentity with
    | error err =>
      exfalso
      have hmem : Action.trackerQueriesDelete id ∈ (c.Delete ctx).trace := by
        rw [htrace]; simp
      simp [TrackerqueryController.Delete, hid, respondWithError] at hmem
    | ok identity =>
      have hfull := Delete_trace c ctx identity hid
      rw [htrace] at hfull
      rcases deleteTransaction_cases c ctx identity with h | ⟨tq, ds, hds, htx, hres⟩
      · exfalso
        have hmem : Action.trackerQueriesDelete id ∈
            (deleteTransaction c ctx identity []).trace ++
              (match (deleteTransaction c ctx identity []).result with
               | .panicked => []
               | .returned (some e) => [.jsonErrorResponse e]
               | .returned none =>
                 [.scheduleAllQueries (getAccessTokensForTrackerQuery c), .ok]) := by
          rw [← hfull]; simp
        rcases List.mem_append.1 hmem with hm | hm
        · rcases h _ hm with ⟨_, h1⟩ | ⟨_, h1⟩ <;> cases h1
        · cases hr : (deleteTransaction c ctx identity []).result with
          | panicked => simp [hr] at hm
          | returned e =>
            cases e with
            | some err => simp [hr] at hm
            | none => simp [hr] at hm
      · rw [htx, hres, List.append_assoc, List.singleton_append] at hfull
        have hsuffix : ∀ x ∈
            (match Outcome.returned (c.trackerQueriesDelete ds tq.ID) with
             | .panicked => []
             | .returned (some e) => [Action.jsonErrorResponse e]
             | .returned none =>
               [.scheduleAllQueries (getAccessTokensForTrackerQuery c), .ok]),
            ¬ ∃ t, x = Action.trackerQueriesDelete t := by
          intro x hx
          cases hd : c.trackerQueriesDelete ds tq.ID with
          | some err =>
            simp only [hd, List.mem_singleton] at hx
            subst hx
            simp
          | none =>
            simp only [hd, List.mem_cons, List.mem_singleton, List.not_mem_nil, or_false] at hx
            rcases hx with rfl | rfl <;> simp
        obtain ⟨hpre, heq, hpost⟩ :=
          split_unique (fun a : Action => ∃ t, a = .trackerQueriesDelete t)
            pre post ds _ (.trackerQueriesDelete id) (.trackerQueriesDelete tq.ID) hfull hP
            (fun x hx => by obtain ⟨i, rfl⟩ := hds x hx; simp) hsuffix
        cases heq
        subst hpre
        rw [hdelete] at hpost
        refine ⟨hpost, ?_⟩
        intro a ha
        obtain ⟨i, rfl⟩ := hds a ha
        rfl
  · intro ctx
    rcases Create_cases c ctx with h | ⟨tq1, err, e, _, h2⟩ | ⟨tq1, cr1, e, _, _, h3⟩ |
      ⟨tq1, cr1, _, _, h3, _, h5, h6⟩
    · constructor
      · rintro ⟨a, ha, hs⟩
        obtain ⟨err, rfl⟩ := h a ha
        cases hs
      · have : (c.Create ctx).trace.filter Action.isSchedule = [] := by
          rw [List.filter_eq_nil_iff]
          intro a ha
          obtain ⟨err, rfl⟩ := h a ha
          simp [Action.isSchedule]
        simp [this]
    · rw [h2]
      simp [Action.isSchedule]
    · rw [h3]
      simp [Action.isSchedule]
    · rw [h3]
      exact ⟨fun _ => ⟨h5, h6⟩, by simp [Action.isSchedule]⟩
  · intro ctx
    cases hid : ctx.ContextIdentity with
    | error err =>
      simp [TrackerqueryController.Delete, hid, respondWithError, Action.isSchedule]
    | ok identity =>
      rw [Delete_trace c ctx identity hid]
      have hno := deleteTransaction_no_schedule c ctx identity
      have hfilter : (deleteTransaction c ctx identity []).trace.filter Action.isSchedule = [] := by
        rw [List.filter_eq_nil_iff]
        intro a ha
        simp [hno a ha]
      cases hres : (deleteTransaction c ctx identity []).result with
      | panicked =>
        constructor
        · rintro ⟨a, ha, hs⟩
          simp only [List.append_nil] at ha
          rw [hno a ha] at hs
          cases hs
        · simp [hfilter]
      | returned e =>
        cases e with
        | some err =>
          constructor
          · rintro ⟨a, ha, hs⟩
            rcases List.mem_append.1 ha with ha | ha
            · rw [hno a ha] at hs
              cases hs
            · simp only [List.mem_singleton] at ha
              subst ha
              cases hs
          · simp [List.filter_append, hfilter, Action.isSchedule]
        | none =>
          exact ⟨fun _ => ⟨identity, rfl, by simp [Transactional, hres]⟩,
            by simp [List.filter_append, hfilter, Action.isSchedule]⟩

/-- C16 on the example controller: `Create` of the example payload persists the
tracker query and then makes one scheduler call with the token of the
configuration; `Delete` with the cascade flag set deletes the two found work items
and the tracker query and then makes one scheduler call, none before the deletion of
the tracker query. -/
theorem scheduler_once_after_mutation_witness :
    ((exampleController { wiList := [], count := 0, err := none }).Create
        (exampleCreateContext examplePayload)).trace
      = [.trackerQueriesCreate
           { ID := 0, Query := "is:open", Schedule := "15 * * * * *", TrackerID := 3,
             SpaceID := 4, WorkItemTypeID := 5 },
         .created
           { ID := 9, Query := "is:open", Schedule := "15 * * * * *", TrackerID := 3,
             SpaceID := 4, WorkItemTypeID := 5 },
         .scheduleAllQueries [("github", "token")]] ∧
    ((exampleController
        { wiList := [{ ID := 21 }, { ID := 22 }], count := 2, err := none }).Delete
        (exampleDeleteContext true)).trace
      = [.workItemsDelete 21 7, .workItemsDelete 22 7, .trackerQueriesDelete 9,
         .scheduleAllQueries [("github", "token")], .ok] ∧
    (∀ a ∈ [Action.workItemsDelete 21 7, Action.workItemsDelete 22 7],
      a.isSchedule = false) :=
  ⟨rfl, rfl,
   ((scheduler_once_after_mutation
      (exampleController
        { wiList := [{ ID := 21 }, { ID := 22 }], count := 2, err := none })).2.1
      (exampleDeleteContext true) [.workItemsDelete 21 7, .workItemsDelete 22 7] 9
      [.scheduleAllQueries [("github", "token")], .ok] rfl rfl).2⟩

/-! ## C14: the cascading delete -/

/-- When the loop runs once for every found work item and every deletion succeeds,
it deletes each work item once, in list order. -/
theorem deleteWorkItems_all (c : TrackerqueryController) (identity : UUID)
    (hdelete : ∀ trace id, c.workItemsDelete trace id identity = none)
    (done todo : List WorkItem) (trace : List Action) :
    deleteWorkItems c identity (done ++ todo) todo.length done.length trace
      = .completed (trace ++ todo.map (fun wi => .workItemsDelete wi.ID identity)) := by
  induction todo generalizing done trace with
  | nil => simp [deleteWorkItems]
  | cons wi todo ih =>
    have hget : (done ++ wi :: todo)[done.length]? = some wi := by
      rw [List.getElem?_append_right (Nat.le_refl _)]
      simp
    have hnext := ih (done ++ [wi]) (trace ++ [.workItemsDelete wi.ID identity])
    simp only [List.append_assoc, List.singleton_append, List.length_append,
      List.length_singleton] at hnext
    simp only [List.length_cons, deleteWorkItems, hget, hdelete, hnext, List.map_cons,
      List.append_assoc, List.singleton_append]

/-- The bound of the loop of lines 199-204 is `count`, whatever the length of
`wiList` is; three evaluations of `Delete` with the cascade flag set. With two found
work items and `count = 2`, both are deleted once, in list order, before the tracker
query (third part). With a count that is not the length of the list, the first
`count` work items are deleted when the count is smaller (first part), and
`wiList[i]` panics when it is larger (second part). -/
theorem cascade_loop_bound_is_count :
    ((exampleController
        { wiList := [{ ID := 21 }, { ID := 22 }], count := 1, err := none }).Delete
        (exampleDeleteContext true))
      = { trace := [.workItemsDelete 21 7, .trackerQueriesDelete 9,
                    .scheduleAllQueries [("github", "token")], .ok]
          result := .returned none } ∧
    ((exampleController { wiList := [{ ID := 21 }], count := 2, err := none }).Delete
        (exampleDeleteContext true))
      = { trace := [.workItemsDelete 21 7], result := .panicked } ∧
    ((exampleController
        { wiList := [{ ID := 21 }, { ID := 22 }], count := 2, err := none }).Delete
        (exampleDeleteContext true))
      = { trace := [.workItemsDelete 21 7, .workItemsDelete 22 7, .trackerQueriesDelete 9,
                    .scheduleAllQueries [("github", "token")], .ok]
          result := .returned none } :=
  ⟨rfl, rfl, rfl⟩

/-- When the loop runs once for every found work item and every deletion succeeds at
the point where it is made, the loop runs to its end having deleted each work item
once, in list order. -/
theorem deleteWorkItems_all_succeed (c : TrackerqueryController) (identity : UUID)
    (done todo : List WorkItem) (trace : List Action)
    (hall : ∀ i wi, todo[i]? = some wi →
      c.workItemsDelete
        (trace ++ (todo.take i).map (fun w => Action.workItemsDelete w.ID identity))
        wi.ID identity = none) :
    deleteWorkItems c identity (done ++ todo) todo.length done.length trace
      = .completed (trace ++ todo.map (fun w => Action.workItemsDelete w.ID identity)) := by
  induction todo generalizing done trace with
  | nil => simp [deleteWorkItems]
  | cons wi todo ih =>
    have hget : (done ++ wi :: todo)[done.length]? = some wi := by
      rw [List.getElem?_append_right (Nat.le_refl _)]
      simp
    have h0 : c.workItemsDelete trace wi.ID identity = none := by
      simpa using hall 0 wi (by simp)
    have hnext := ih (done ++ [wi]) (trace ++ [.workItemsDelete wi.ID identity])
      (fun i w hw => by simpa using hall (i + 1) w (by simpa using hw))
    simp only [List.append_assoc, List.singleton_append, List.length_append,
      List.length_singleton] at hnext
    simp only [List.length_cons, deleteWorkItems, hget, h0, hnext, List.map_cons,
      List.append_assoc, List.singleton_append]

/-- When the loop runs once for every found work item and the deletion of the work
item at index `k` is the first that fails, the enclosing function returns the
wrapped error after the deletions of the work items up to index `k`, in list
order. -/
theorem deleteWorkItems_first_failure (c : TrackerqueryController) (identity : UUID)
    (done todo : List WorkItem) (trace : List Action) (k : Nat) (wi : WorkItem)
    (err : Error) (hk : todo[k]? = some wi)
    (hbefore : ∀ i w, i < k → todo[i]? = some w →
      c.workItemsDelete
        (trace ++ (todo.take i).map (fun w => Action.workItemsDelete w.ID identity))
        w.ID identity = none)
    (hfail : c.workItemsDelete
        (trace ++ (todo.take k).map (fun w => Action.workItemsDelete w.ID identity))
        wi.ID identity = some err) :
    deleteWorkItems c identity (done ++ todo) todo.length done.length trace
      = .exited
          { trace := trace ++
              (todo.take (k + 1)).map (fun w => Action.workItemsDelete w.ID identity)
            result := .returned
              (some (.wrapf err "error deleting work item %s" (.uuid wi.ID))) } := by
  induction todo generalizing done trace k with
  | nil => simp at hk
  | cons w0 todo ih =>
    have hget : (done ++ w0 :: todo)[done.length]? = some w0 := by
      rw [List.getElem?_append_right (Nat.le_refl _)]
      simp
    cases k with
    | zero =>
      simp only [List.getElem?_cons_zero, Option.some.injEq] at hk
      subst hk
      simp only [List.take_zero, List.map_nil, List.append_nil] at hfail
      simp [deleteWorkItems, hget, hfail]
    | succ k =>
      have h0 : c.workItemsDelete trace w0.ID identity = none := by
        simpa using hbefore 0 w0 (Nat.succ_pos k) (by simp)
      have hnext := ih (done ++ [w0]) (trace ++ [.workItemsDelete w0.ID identity]) k
        (by simpa using hk)
        (fun i w hi hw => by
          simpa using hbefore (i + 1) w (Nat.succ_lt_succ hi) (by simpa using hw))
        (by simpa using hfail)
      simp only [List.append_assoc, List.singleton_append, List.length_append,
        List.length_singleton] at hnext
      simp only [List.length_cons, deleteWorkItems, hget, h0, hnext, List.take_succ_cons,
        List.map_cons, List.append_assoc, List.singleton_append]

/-- When the loop runs once for every found work item, `wiList[i]` is always an
element of the list: the loop does not panic. -/
theorem deleteWorkItems_no_panic (c : TrackerqueryController) (identity : UUID)
    (done todo : List WorkItem) (trace : List Action) (run : Run)
    (h : deleteWorkItems c identity (done ++ todo) todo.length done.length trace
      = .exited run) :
    run.result ≠ .panicked := by
  induction todo generalizing done trace with
  | nil => simp [deleteWorkItems] at h
  | cons wi todo ih =>
    have hget : (done ++ wi :: todo)[done.length]? = some wi := by
      rw [List.getElem?_append_right (Nat.le_refl _)]
      simp
    cases hdel : c.workItemsDelete trace wi.ID identity with
    | some err =>
      simp only [List.length_cons, deleteWorkItems, hget, hdel, LoopResult.exited.injEq] at h
      subst h
      simp
    | none =>
      simp only [List.length_cons, deleteWorkItems, hget, hdel] at h
      have hnext := ih (done ++ [wi]) (trace ++ [.workItemsDelete wi.ID identity])
      simp only [List.append_assoc, List.singleton_append, List.length_append,
        List.length_singleton] at hnext
      exact hnext h

/-- The transaction of `Delete` with the cascade flag set, once the tracker query is
loaded, the scope check has passed and the search has returned a list and its
length as count. -/
theorem deleteTransaction_cascade (c : TrackerqueryController)
    (ctx : DeleteTrackerqueryContext) (identity : UUID) (tq : TrackerQuery)
    (L : List WorkItem) (count : Int)
    (hflag : ctx.DeleteWi = true)
    (hload : c.trackerQueriesLoad ctx.ID = .ok tq)
    (hscope : c.requireScope tq.SpaceID "contribute" = none)
    (hfound : c.searchItemsFilter tq.SpaceID ctx.ID
      = { wiList := L, count := count, err := none })
    (hcount : count = (L.length : Int)) :
    deleteTransaction c ctx identity [] =
      match deleteWorkItems c identity L L.length 0 [] with
      | .exited run => run
      | .completed trace1 =>
        { trace := trace1 ++ [.trackerQueriesDelete tq.ID]
          result := .returned (c.trackerQueriesDelete trace1 tq.ID) } := by
  subst hcount
  simp [deleteTransaction, hload, hscope, deleteCascade, hflag, hfound]

/-- C14: let `Delete` be called with the cascade flag set by an identified caller,
let the tracker query load and the scope check pass, and let the search succeed with
the list `L` and, as count, the length of `L`. Then (1) `Delete` does not panic: no
`wiList[i]` is out of bounds; (2) when every work item deletion succeeds, the calls
are the deletions of all work items of `L`, each once and in list order, then the
deletion of the tracker query, then the scheduler call and the response, or the
error response when the deletion of the tracker query fails; (3) when the deletion
of the work item at index `k` is the first that fails, the calls are the deletions
of the work items up to index `k`, in list order, and the error response: the
tracker query is not deleted. -/
theorem cascade_deletes_each_work_item_once (c : TrackerqueryController)
    (ctx : DeleteTrackerqueryContext) (identity : UUID) (tq : TrackerQuery)
    (L : List WorkItem) (count : Int)
    (hid : ctx.ContextIdentity = .ok identity)
    (hflag : ctx.DeleteWi = true)
    (hload : c.trackerQueriesLoad ctx.ID = .ok tq)
    (hscope : c.requireScope tq.SpaceID "contribute" = none)
    (hfound : c.searchItemsFilter tq.SpaceID ctx.ID
      = { wiList := L, count := count, err := none })
    (hcount : count = (L.length : Int)) :
    (c.Delete ctx).result ≠ .panicked ∧
    ((∀ i wi, L[i]? = some wi →
        c.workItemsDelete
          ((L.take i).map (fun w => Action.workItemsDelete w.ID identity))
          wi.ID identity = none) →
      (c.Delete ctx).trace =
        L.map (fun w => Action.workItemsDelete w.ID identity) ++
          .trackerQueriesDelete tq.ID ::
            (match c.trackerQueriesDelete
                (L.map (fun w => Action.workItemsDelete w.ID identity)) tq.ID with
             | none => [.scheduleAllQueries (getAccessTokensForTrackerQuery c), .ok]
             | some e => [.jsonErrorResponse e])) ∧
    (∀ k wi err, L[k]? = some wi →
      (∀ i w, i < k → L[i]? = some w →
        c.workItemsDelete
          ((L.take i).map (fun w => Action.workItemsDelete w.ID identity))
          w.ID identity = none) →
      c.workItemsDelete
        ((L.take k).map (fun w => Action.workItemsDelete w.ID identity))
        wi.ID identity = some err →
      (c.Delete ctx).trace =
        (L.take (k + 1)).map (fun w => Action.workItemsDelete w.ID identity) ++
          [.jsonErrorResponse (.wrapf err "error deleting work item %s" (.uuid wi.ID))] ∧
      ∀ id, Action.trackerQueriesDelete id ∉ (c.Delete ctx).trace) := by
  have htx := deleteTransaction_cascade c ctx identity tq L count hflag hload hscope
    hfound hcount
  have htrace := Delete_trace c ctx identity hid
  refine ⟨?_, ?_, ?_⟩
  · simp only [TrackerqueryController.Delete, hid, Transactional]
    cases hloop : deleteWorkItems c identity L L.length 0 [] with
    | completed t =>
      rw [hloop] at htx
      cases hdel : c.trackerQueriesDelete t tq.ID with
      | none => simp [htx, hdel]
      | some e => simp [htx, hdel, respondWithError]
    | exited run =>
      rw [hloop] at htx
      have hnp := deleteWorkItems_no_panic c identity [] L [] run (by simpa using hloop)
      rw [htx]
      cases hres : run.result with
      | panicked => exact absurd hres hnp
      | returned e =>
        cases e with
        | none => simp
        | some err => simp [respondWithError]
  · intro hall
    have hloop := deleteWorkItems_all_succeed c identity [] L []
      (fun i wi hwi => by simpa using hall i wi hwi)
    simp only [List.nil_append, List.length_nil] at hloop
    rw [hloop] at htx
    rw [htrace, htx]
    cases hdel : c.trackerQueriesDelete
        (L.map (fun w => Action.workItemsDelete w.ID identity)) tq.ID with
    | none => simp [hdel]
    | some e => simp [hdel]
  · intro k wi err hk hbefore hfail
    have hloop := deleteWorkItems_first_failure c identity [] L [] k wi err hk
      (fun i w hi hw => by simpa using hbefore i w hi hw) (by simpa using hfail)
    simp only [List.nil_append, List.length_nil] at hloop
    rw [hloop] at htx
    have hfull : (c.Delete ctx).trace =
        (L.take (k + 1)).map (fun w => Action.workItemsDelete w.ID identity) ++
          [.jsonErrorResponse (.wrapf err "error deleting work item %s" (.uuid wi.ID))] := by
      rw [htrace, htx]
    refine ⟨hfull, ?_⟩
    intro id hmem
    rw [hfull] at hmem
    rcases List.mem_append.1 hmem with h1 | h1
    · obtain ⟨w, _, hw⟩ := List.mem_map.1 h1
      cases hw
    · simp at h1

/-- C14 on the example controller with two found work items and count 2: `Delete`
does not panic and deletes work item 21, then work item 22, then the tracker
query. -/
theorem cascade_deletes_each_work_item_once_witness :
    ((exampleController
        { wiList := [{ ID := 21 }, { ID := 22 }], count := 2, err := none }).Delete
        (exampleDeleteContext true)).result ≠ .panicked ∧
    ((exampleController
        { wiList := [{ ID := 21 }, { ID := 22 }], count := 2, err := none }).Delete
        (exampleDeleteContext true)).trace
      = [.workItemsDelete 21 7, .workItemsDelete 22 7, .trackerQueriesDelete 9,
         .scheduleAllQueries [("github", "token")], .ok] :=
  ⟨(cascade_deletes_each_work_item_once
      (exampleController { wiList := [{ ID := 21 }, { ID := 22 }], count := 2, err := none })
      (exampleDeleteContext true) 7
      { ID := 9, Query := "is:open", Schedule := "15 * * * * *", TrackerID := 3,
        SpaceID := 4, WorkItemTypeID := 5 }
      [{ ID := 21 }, { ID := 22 }] 2 rfl rfl rfl rfl rfl rfl).1,
   (cascade_deletes_each_work_item_once
      (exampleController { wiList := [{ ID := 21 }, { ID := 22 }], count := 2, err := none })
      (exampleDeleteContext true) 7
      { ID := 9, Query := "is:open", Schedule := "15 * * * * *", TrackerID := 3,
        SpaceID := 4, WorkItemTypeID := 5 }
      [{ ID := 21 }, { ID := 22 }] 2 rfl rfl rfl rfl rfl rfl).2.1 (fun _ _ _ => rfl)⟩

end controller
